import Mathlib

/-!
# Verification of the Ultra-KSM merge engine (`mm/ksm.c`)

A shallow embedding, in Lean 4, of the parts of `mm/ksm.c` (Ultra KSM,
2011, Nai Xia) that the specification talks about, together with proofs
and refutations of the specification's claims.

Machine integers are modelled as `Nat` with explicit reduction `% 2^w`
wherever C unsigned overflow semantics matter.  Kernel pointers are
modelled as identifiers (`Nat`) with explicit lookup maps.  External
primitives of the host memory manager (page locks, page tables,
`write_protect_page`, reference counts, ...) are modelled as oracle
inputs: the embedded functions branch on the oracle exactly where the C
code branches on the primitive's result.
-/

namespace Uksm

/-! ## Constants (`mm/ksm.c` lines 120-299)

`PAGE_SIZE` is fixed at the x86 value 4096, as assumed by the file
(`PAGE_SIZE / sizeof(u32)` etc.). -/

def PAGE_SIZE : Nat := 4096

/-- `#define HASH_STRENGTH_FULL (PAGE_SIZE / sizeof(u32))` -/
def HASH_STRENGTH_FULL : Nat := PAGE_SIZE / 4

/-- `#define HASH_STRENGTH_MAX (HASH_STRENGTH_FULL + 10)` -/
def HASH_STRENGTH_MAX : Nat := HASH_STRENGTH_FULL + 10

/-- Modulus of the C type `u32`. -/
def U32 : Nat := 2 ^ 32

/-! ## The random sample hash (`mm/ksm.c` lines 822-908)

A page is an array of `u32` words, modelled as `key : Nat → Nat`
(with the side condition that values are `< 2^32`), and the random
position permutation is `rnd : Nat → Nat` (`random_nums`). -/

/-- One iteration of the macro `HASH_FROM_TO` body
(`hash += key[pos]; hash += (hash << shiftl); hash ^= (hash >> shiftr);`
with `shiftl = 8`, `shiftr = 12`), on `u32`. -/
def upStep (k h : Nat) : Nat :=
  let h1 := (h + k) % U32
  let h2 := (h1 + (h1 <<< 8)) % U32
  h2 ^^^ (h2 >>> 12)

/-- One iteration of the macro `HASH_FROM_DOWN_TO` body
(`hash ^= (hash >> shiftr); hash ^= (hash >> (shiftr*2));
hash -= (hash << shiftl); hash += (hash << (shiftl*2));
hash -= key[pos];`), on `u32`. -/
def downStep (k h : Nat) : Nat :=
  let h1 := h ^^^ (h >>> 12)
  let h2 := h1 ^^^ (h1 >>> 24)
  let h3 := (h2 + (U32 - (h2 <<< 8) % U32)) % U32
  let h4 := (h3 + (h3 <<< 16)) % U32
  (h4 + (U32 - k % U32)) % U32

/-- `HASH_FROM_TO(lo, lo + n)`: ascending loop over indices
`lo, lo+1, ..., lo+n-1`, each step mixing `key[random_nums[index]]`. -/
def hashFromToN (key rnd : Nat → Nat) (lo : Nat) : Nat → Nat → Nat
  | 0, h => h
  | n + 1, h => hashFromToN key rnd (lo + 1) n (upStep (key (rnd lo)) h)

/-- `HASH_FROM_TO(from, to)` (empty when `to ≤ from`, as the C loop). -/
def hashFromTo (key rnd : Nat → Nat) (f t h : Nat) : Nat :=
  hashFromToN key rnd f (t - f) h

/-- `HASH_FROM_DOWN_TO(to + n, to)`: descending loop over indices
`to+n-1, to+n-2, ..., to`. -/
def hashDownToN (key rnd : Nat → Nat) (t : Nat) : Nat → Nat → Nat
  | 0, h => h
  | n + 1, h => hashDownToN key rnd t n (downStep (key (rnd (t + n))) h)

/-- `HASH_FROM_DOWN_TO(from, to)` (indices `from-1` down to `to`;
empty when `from ≤ to`, as the C loop with signed `index`). -/
def hashFromDownTo (key rnd : Nat → Nat) (f t h : Nat) : Nat :=
  hashDownToN key rnd t (f - t) h

/-- `random_sample_hash(addr, hash_strength)` (lines 848-865). -/
def random_sample_hash (key rnd : Nat → Nat) (hash_strength : Nat) : Nat :=
  let loop := if hash_strength > HASH_STRENGTH_FULL then HASH_STRENGTH_FULL
              else hash_strength
  let hash := hashFromTo key rnd 0 loop 0xdeadbeef
  if hash_strength > HASH_STRENGTH_FULL then
    hashFromTo key rnd 0 (hash_strength - HASH_STRENGTH_FULL) hash
  else hash

/-- `delta_hash(addr, from, to, hash)` (lines 878-908). -/
def delta_hash (key rnd : Nat → Nat) (f t hash : Nat) : Nat :=
  if t > f then
    if f ≥ HASH_STRENGTH_FULL then
      hashFromTo key rnd (f - HASH_STRENGTH_FULL) (t - HASH_STRENGTH_FULL) hash
    else if t ≤ HASH_STRENGTH_FULL then
      hashFromTo key rnd f t hash
    else
      hashFromTo key rnd 0 (t - HASH_STRENGTH_FULL)
        (hashFromTo key rnd f HASH_STRENGTH_FULL hash)
  else
    if f ≤ HASH_STRENGTH_FULL then
      hashFromDownTo key rnd f t hash
    else if t ≥ HASH_STRENGTH_FULL then
      hashFromDownTo key rnd (f - HASH_STRENGTH_FULL) (t - HASH_STRENGTH_FULL) hash
    else
      hashFromDownTo key rnd HASH_STRENGTH_FULL t
        (hashFromDownTo key rnd (f - HASH_STRENGTH_FULL) 0 hash)

/-! ### `downStep` inverts `upStep` -/

theorem shiftRight_le_self (x n : Nat) : x >>> n ≤ x := by
  rw [Nat.shiftRight_eq_div_pow]
  exact Nat.div_le_self _ _

theorem upStep_lt (k h : Nat) : upStep k h < U32 := by
  unfold upStep U32
  exact Nat.xor_lt_two_pow (Nat.mod_lt _ (by norm_num))
    (Nat.lt_of_le_of_lt (shiftRight_le_self _ _) (Nat.mod_lt _ (by norm_num)))

theorem hashFromToN_lt (key rnd : Nat → Nat) (lo n h : Nat)
    (hh : h < U32) : hashFromToN key rnd lo n h < U32 := by
  induction n generalizing lo h with
  | zero => exact hh
  | succ n ih => exact ih (lo + 1) _ (upStep_lt _ _)

/-- Undoing the 12-bit xorshift: the first two lines of
`HASH_FROM_DOWN_TO` recover the input of `h ^= h >> 12` for 32-bit
values. -/
theorem unxor12 (x : Nat) (hx : x < U32) :
    ((x ^^^ (x >>> 12)) ^^^ ((x ^^^ (x >>> 12)) >>> 12)) ^^^
      (((x ^^^ (x >>> 12)) ^^^ ((x ^^^ (x >>> 12)) >>> 12)) >>> 24) = x := by
  apply Nat.eq_of_testBit_eq
  intro i
  simp only [Nat.testBit_xor, Nat.testBit_shiftRight]
  have e1 : 12 + (12 + i) = 24 + i := by omega
  have hf : x.testBit (12 + (12 + (24 + i))) = false := by
    apply Nat.testBit_lt_two_pow
    calc x < U32 := hx
    _ ≤ 2 ^ (12 + (12 + (24 + i))) := by
        unfold U32; exact Nat.pow_le_pow_right (by omega) (by omega)
  rw [e1, hf]
  cases x.testBit i <;> cases x.testBit (12 + i) <;>
    cases x.testBit (24 + i) <;> cases x.testBit (12 + (24 + i)) <;> rfl

theorem U32_val : U32 = 4294967296 := by norm_num [U32]

/-- The arithmetic tail of `HASH_FROM_DOWN_TO` inverts the arithmetic
head of `HASH_FROM_TO`: `upStep` followed by `downStep` with the same
key word is the identity on `u32`. -/
theorem downStep_upStep (k h : Nat) (hh : h < U32) :
    downStep k (upStep k h) = h := by
  have hfull : (0 : Nat) < U32 := by norm_num [U32]
  have hx2 : (((h + k) % U32 + (((h + k) % U32) <<< 8)) % U32) < U32 :=
    Nat.mod_lt _ hfull
  simp only [upStep, downStep]
  rw [unxor12 _ hx2]
  simp only [Nat.shiftLeft_eq, U32_val] at *
  norm_num
  omega

/-! ### Composing and reversing hash runs -/

theorem hashFromToN_add (key rnd : Nat → Nat) (lo m n h : Nat) :
    hashFromToN key rnd lo (m + n) h =
      hashFromToN key rnd (lo + m) n (hashFromToN key rnd lo m h) := by
  induction m generalizing lo h with
  | zero => simp [hashFromToN]
  | succ m ih =>
      have e : m + 1 + n = (m + n) + 1 := by omega
      rw [e]
      show hashFromToN key rnd (lo + 1) (m + n) (upStep (key (rnd lo)) h) = _
      rw [ih]
      have e2 : lo + 1 + m = lo + (m + 1) := by omega
      rw [e2]
      rfl

theorem hashFromTo_trans (key rnd : Nat → Nat) (a b c h : Nat)
    (hab : a ≤ b) (hbc : b ≤ c) :
    hashFromTo key rnd b c (hashFromTo key rnd a b h) =
      hashFromTo key rnd a c h := by
  unfold hashFromTo
  have e : c - a = (b - a) + (c - b) := by omega
  rw [e, hashFromToN_add]
  have e2 : a + (b - a) = b := by omega
  rw [e2]

theorem hashDownToN_peel (key rnd : Nat → Nat) (t n h : Nat) :
    hashDownToN key rnd t (n + 1) h =
      downStep (key (rnd t)) (hashDownToN key rnd (t + 1) n h) := by
  induction n generalizing h with
  | zero => simp [hashDownToN]
  | succ n ih =>
      show hashDownToN key rnd t (n + 1) (downStep (key (rnd (t + (n + 1)))) h) = _
      rw [ih]
      have e : t + (n + 1) = t + 1 + n := by omega
      rw [e]
      rfl

theorem hashDownToN_hashFromToN (key rnd : Nat → Nat) (n t h : Nat)
    (hh : h < U32) :
    hashDownToN key rnd t n (hashFromToN key rnd t n h) = h := by
  induction n generalizing t h with
  | zero => rfl
  | succ n ih =>
      show hashDownToN key rnd t (n + 1)
        (hashFromToN key rnd (t + 1) n (upStep (key (rnd t)) h)) = h
      rw [hashDownToN_peel, ih (t + 1) _ (upStep_lt _ _), downStep_upStep _ _ hh]

theorem hashFromDownTo_hashFromTo (key rnd : Nat → Nat) (a b h : Nat)
    (hh : h < U32) :
    hashFromDownTo key rnd b a (hashFromTo key rnd a b h) = h := by
  unfold hashFromDownTo hashFromTo
  exact hashDownToN_hashFromToN key rnd (b - a) a h hh

theorem hashFromTo_lt (key rnd : Nat → Nat) (a b h : Nat) (hh : h < U32) :
    hashFromTo key rnd a b h < U32 :=
  hashFromToN_lt key rnd a (b - a) h hh

theorem seed_lt : (0xdeadbeef : Nat) < U32 := by norm_num [U32]

theorem hashFromTo_zero (key rnd : Nat → Nat) (a h : Nat) :
    hashFromTo key rnd a a h = h := by
  unfold hashFromTo
  rw [Nat.sub_self]
  rfl

/-- `random_sample_hash` below or at full strength is one ascending run. -/
theorem rsh_of_le (key rnd : Nat → Nat) (t : Nat) (ht : t ≤ HASH_STRENGTH_FULL) :
    random_sample_hash key rnd t = hashFromTo key rnd 0 t 0xdeadbeef := by
  unfold random_sample_hash
  rw [if_neg (by omega), if_neg (by omega)]

/-- `random_sample_hash` at or above full strength: full run, then the
loop-back run over the first `t - HASH_STRENGTH_FULL` positions. -/
theorem rsh_of_ge (key rnd : Nat → Nat) (t : Nat) (ht : HASH_STRENGTH_FULL ≤ t) :
    random_sample_hash key rnd t =
      hashFromTo key rnd 0 (t - HASH_STRENGTH_FULL)
        (hashFromTo key rnd 0 HASH_STRENGTH_FULL 0xdeadbeef) := by
  rcases Nat.eq_or_lt_of_le ht with he | hl
  · rw [← he, rsh_of_le key rnd HASH_STRENGTH_FULL (le_refl _), Nat.sub_self,
      hashFromTo_zero]
  · unfold random_sample_hash
    rw [if_pos (by omega), if_pos (by omega)]

/-- C1.  For every page content (`key` with `u32` entries drawn at
positions given by `rnd = random_nums`) and all strengths
`f, t ∈ [1, HASH_STRENGTH_MAX]`, `delta_hash` applied to
`random_sample_hash(page, f)` yields exactly
`random_sample_hash(page, t)`, in all range cases (below
`HASH_STRENGTH_FULL`, above it, and crossing it) and in both
directions (extending and reversing). -/
theorem delta_hash_bit_exact (key rnd : Nat → Nat) (f t : Nat)
    (hf1 : 1 ≤ f) (hf2 : f ≤ HASH_STRENGTH_MAX)
    (ht1 : 1 ≤ t) (ht2 : t ≤ HASH_STRENGTH_MAX) :
    delta_hash key rnd f t (random_sample_hash key rnd f) =
      random_sample_hash key rnd t := by
  unfold delta_hash
  by_cases hgt : t > f
  · rw [if_pos hgt]
    by_cases hfge : f ≥ HASH_STRENGTH_FULL
    · -- both in the loop-back region (or starting exactly at FULL)
      rw [if_pos hfge, rsh_of_ge key rnd f hfge, rsh_of_ge key rnd t (by omega),
        hashFromTo_trans key rnd 0 (f - HASH_STRENGTH_FULL)
          (t - HASH_STRENGTH_FULL) _ (by omega) (by omega)]
    · rw [if_neg hfge]
      by_cases htle : t ≤ HASH_STRENGTH_FULL
      · -- both at or below FULL
        rw [if_pos htle, rsh_of_le key rnd f (by omega), rsh_of_le key rnd t htle,
          hashFromTo_trans key rnd 0 f t _ (by omega) (by omega)]
      · -- crossing FULL upwards
        rw [if_neg htle, rsh_of_le key rnd f (by omega), rsh_of_ge key rnd t (by omega),
          hashFromTo_trans key rnd 0 f HASH_STRENGTH_FULL _ (by omega) (by omega)]
  · rw [if_neg hgt]
    by_cases hfle : f ≤ HASH_STRENGTH_FULL
    · -- both at or below FULL: pure reversal
      rw [if_pos hfle, rsh_of_le key rnd f hfle, rsh_of_le key rnd t (by omega),
        ← hashFromTo_trans key rnd 0 t f _ (by omega) (by omega),
        hashFromDownTo_hashFromTo key rnd t f _
          (hashFromTo_lt key rnd 0 t _ seed_lt)]
    · rw [if_neg hfle]
      by_cases htge : t ≥ HASH_STRENGTH_FULL
      · -- both in the loop-back region: reversal there
        rw [if_pos htge, rsh_of_ge key rnd f (by omega), rsh_of_ge key rnd t htge,
          ← hashFromTo_trans key rnd 0 (t - HASH_STRENGTH_FULL)
            (f - HASH_STRENGTH_FULL) _ (by omega) (by omega),
          hashFromDownTo_hashFromTo key rnd (t - HASH_STRENGTH_FULL)
            (f - HASH_STRENGTH_FULL) _
            (hashFromTo_lt key rnd 0 (t - HASH_STRENGTH_FULL) _
              (hashFromTo_lt key rnd 0 HASH_STRENGTH_FULL _ seed_lt))]
      · -- crossing FULL downwards: undo the loop-back, then reverse
        rw [if_neg htge, rsh_of_ge key rnd f (by omega)]
        have e0 : (0 : Nat) = 0 - 0 := rfl
        rw [show hashFromDownTo key rnd (f - HASH_STRENGTH_FULL) 0
              (hashFromTo key rnd 0 (f - HASH_STRENGTH_FULL)
                (hashFromTo key rnd 0 HASH_STRENGTH_FULL 0xdeadbeef)) =
            hashFromTo key rnd 0 HASH_STRENGTH_FULL 0xdeadbeef from
          hashFromDownTo_hashFromTo key rnd 0 (f - HASH_STRENGTH_FULL) _
            (hashFromTo_lt key rnd 0 HASH_STRENGTH_FULL _ seed_lt)]
        rw [rsh_of_le key rnd t (by omega),
          ← hashFromTo_trans key rnd 0 t HASH_STRENGTH_FULL _ (by omega) (by omega),
          hashFromDownTo_hashFromTo key rnd t HASH_STRENGTH_FULL _
            (hashFromTo_lt key rnd 0 t _ seed_lt)]

/-- Witness for C1 at a concrete page and strengths crossing
`HASH_STRENGTH_FULL` downwards. -/
theorem delta_hash_bit_exact_witness :
    (1 ≤ 1030 ∧ 1030 ≤ HASH_STRENGTH_MAX ∧ 1 ≤ 3 ∧ 3 ≤ HASH_STRENGTH_MAX) ∧
      delta_hash (fun i => i % U32) (fun i => i) 1030 3
          (random_sample_hash (fun i => i % U32) (fun i => i) 1030) =
        random_sample_hash (fun i => i % U32) (fun i => i) 3 :=
  ⟨by norm_num [HASH_STRENGTH_MAX, HASH_STRENGTH_FULL, PAGE_SIZE],
    delta_hash_bit_exact (fun i => i % U32) (fun i => i) 1030 3
      (by norm_num) (by norm_num [HASH_STRENGTH_MAX, HASH_STRENGTH_FULL, PAGE_SIZE])
      (by norm_num) (by norm_num [HASH_STRENGTH_MAX, HASH_STRENGTH_FULL, PAGE_SIZE])⟩

/-! ## The merge engine state

The in-kernel structures (`struct rmap_item`, `struct stable_node`,
`struct node_vma`, `struct tree_node`, `struct vma_slot`, the two
rbtree roots and the global counters of `mm/ksm.c`) are modelled as
plain Lean data.  Kernel pointers become `Nat` identifiers resolved
through maps held in the global state; the low-bit address flags
`STABLE_FLAG`/`UNSTABLE_FLAG` become the booleans
`addr_stable`/`addr_unstable`; hlists become `List`s; `u64` counters
are reduced `% 2^64` exactly where the C code can wrap. -/

/-- Modulus of the C types `unsigned long` / `u64`. -/
def UL64 : Nat := 2 ^ 64

/-- `x++` on an `unsigned long` counter. -/
def incUL (x : Nat) : Nat := (x + 1) % UL64

/-- `x--` on an `unsigned long` counter. -/
def decUL (x : Nat) : Nat := (x + (UL64 - 1)) % UL64

/-- `u64` addition (`rshash_pos += d`, `rshash_neg += d`). -/
def addUL (x d : Nat) : Nat := (x + d) % UL64

/-- `unsigned long` subtraction `x - y` (wraps modulo `2^64` when
`y > x`, as in `HASH_STRENGTH_FULL - hash_strength`). -/
def subUL (x y : Nat) : Nat := (x + (UL64 - y % UL64)) % UL64

/-- A binary search tree, modelling a `struct rb_root`.  `rb_link_node`
at the insertion point found by the descent plus `rb_insert_color`
yields the same ordered contents as plain leaf insertion along the same
comparison path; rebalancing only changes the internal shape. -/
inductive Bst (α : Type) where
  | nil : Bst α
  | node (l : Bst α) (v : α) (r : Bst α)
deriving Repr, DecidableEq

/-- `hash_cmp(new_val, node_val)` (lines 1389-1397). -/
def hash_cmp (new_val node_val : Nat) : Int :=
  if new_val > node_val then 1
  else if new_val < node_val then -1
  else 0

/-- An rbtree descent by key: returns the entry whose key compares
equal, `none` if the search falls off the tree. -/
def bstFind {α : Type} (keyOf : α → Nat) (h : Nat) : Bst α → Option α
  | .nil => none
  | .node l v r =>
      let cmp := hash_cmp h (keyOf v)
      if cmp < 0 then bstFind keyOf h l
      else if cmp > 0 then bstFind keyOf h r
      else some v

/-- Insert at the null position where the descent by key ends
(`rb_link_node` + `rb_insert_color`).  The call sites only insert keys
whose descent ended at a null child. -/
def bstInsert {α : Type} (keyOf : α → Nat) (h : Nat) (a : α) : Bst α → Bst α
  | .nil => .node .nil a .nil
  | .node l v r =>
      let cmp := hash_cmp h (keyOf v)
      if cmp < 0 then .node (bstInsert keyOf h a l) v r
      else if cmp > 0 then .node l v (bstInsert keyOf h a r)
      else .node l v r

/-- Rewrite the entry whose key compares equal, in place. -/
def bstModify {α : Type} (keyOf : α → Nat) (h : Nat) (fmod : α → α) :
    Bst α → Bst α
  | .nil => .nil
  | .node l v r =>
      let cmp := hash_cmp h (keyOf v)
      if cmp < 0 then .node (bstModify keyOf h fmod l) v r
      else if cmp > 0 then .node l v (bstModify keyOf h fmod r)
      else .node l (fmod v) r

/-- Leftmost entry of a nonempty tree (used by deletion). -/
def bstMin {α : Type} : Bst α → Option α
  | .nil => none
  | .node .nil v _ => some v
  | .node (.node l v r) _ _ => bstMin (.node l v r)

/-- Remove the leftmost entry. -/
def bstEraseMin {α : Type} : Bst α → Bst α
  | .nil => .nil
  | .node .nil _ r => r
  | .node (.node ll lv lr) v r => .node (bstEraseMin (.node ll lv lr)) v r

/-- `rb_erase` by key: standard binary-search-tree deletion (same
ordered contents as the rbtree's). -/
def bstErase {α : Type} (keyOf : α → Nat) (h : Nat) : Bst α → Bst α
  | .nil => .nil
  | .node l v r =>
      let cmp := hash_cmp h (keyOf v)
      if cmp < 0 then .node (bstErase keyOf h l) v r
      else if cmp > 0 then .node l v (bstErase keyOf h r)
      else
        match l, r with
        | .nil, _ => r
        | _, .nil => l
        | _, .node rl rv rr =>
            match bstMin (.node rl rv rr) with
            | none => l
            | some m => .node l m (bstEraseMin (.node rl rv rr))

/-- `RB_EMPTY_ROOT`. -/
def bstEmpty {α : Type} : Bst α → Bool
  | .nil => true
  | .node _ _ _ => false

/-- Number of entries (used only to bound restart loops). -/
def bstSize {α : Type} : Bst α → Nat
  | .nil => 0
  | .node l _ r => bstSize l + bstSize r + 1

/-! ### Structures -/

/-- A physical page frame.  `content` is the array of `u32` words
(`kmap_atomic` exposes it to the hash and to `memcmp`);  `ksm` is the
`PAGE_MAPPING_KSM` bit of `page->mapping`, `stable` the stable-node
pointer encoded there (`page_stable_node`), `anon` is `PageAnon`, and
`ref_zero` models `get_page_unless_zero` failing (page count dropped
to zero). -/
structure PageM where
  content : Nat → Nat
  ksm : Bool
  stable : Option Nat
  anon : Bool
  ref_zero : Bool

/-- `struct rmap_item`.  The low address bits `STABLE_FLAG` and
`UNSTABLE_FLAG` are the two booleans; `head` (the `node_vma` of a
stable item) is recoverable as the `node_vma` of `head_sn` whose key is
`slot` (node_vma keys are unique per stable node); `tree_node` of an
unstable item is recovered by its first-level hash `utree_hash`. -/
structure RmapItem where
  slot : Nat
  addr_stable : Bool
  addr_unstable : Bool
  hash_max : Nat
  append_round : Nat
  pfn : Nat
  head_sn : Nat
  utree_hash : Nat
deriving DecidableEq

/-- `struct node_vma`: the per-area group of rmap items of one stable
node.  `key` is the sorting key (the `vma_slot` pointer in C, the slot
identifier here). -/
structure NodeVma where
  key : Nat
  last_update : Nat
  rmap_hlist : List Nat

/-- `struct stable_node`.  `tree_node` is the first-level hash of its
tree node (`none` when the node is detached, e.g. after a reinsert
collision). -/
structure StableNode where
  kpfn : Nat
  hash_max : Nat
  tree_node : Option Nat
  hlist : List NodeVma

/-- `struct tree_node` of the stable tree: first level hash, child
count, sub-tree of stable nodes (stored by identifier, ordered by
their `hash_max`). -/
structure STreeNode where
  hash : Nat
  count : Nat
  sub_root : Bst Nat

/-- `struct tree_node` of the unstable tree: sub-tree of rmap items
(by identifier, ordered by their `hash_max`). -/
structure UTreeNode where
  hash : Nat
  count : Nat
  sub_root : Bst Nat
deriving DecidableEq

/-- The `struct vma_slot` fields consumed by the merge engine and the
scan ladder. -/
structure VmaSlotM where
  ksm_index : Int
  pages : Nat
  pages_scanned : Nat
  last_scanned : Nat
  pages_cowed : Nat
  pages_merged : Nat
  dedup_ratio : Nat
  rung : Nat
  slot_scanned : Bool
  fully_scanned : Bool
  pages_to_scan : Nat

/-- A rung of the scan ladder (`struct scan_rung`).  The round-robin
cursor `current_scan` schedules which slot is visited next; it does
not influence the per-round updates modelled here and is left out. -/
structure RungM where
  scan_ratio : Nat
  vma_list : List Nat
  vma_num : Nat
  fully_scanned_slots : Nat
  pages_to_scan : Nat
  round_finished : Bool

/-- `enum rshash_states` (lines 305-311). -/
inductive RshashStates where
  | STILL | TRYUP | TRYDOWN | NEW | PRE_STILL
deriving DecidableEq

/-- `enum rshash_direct` (lines 314-319). -/
inductive RshashDirect where
  | GO_UP | GO_DOWN | OBSCURE | STILL
deriving DecidableEq

/-- The anonymous `rshash_state` struct (lines 322-336). -/
structure RshashStateS where
  state : RshashStates
  pre_direct : RshashDirect
  below_count : Nat
  lookup_window_index : Nat
  stable_benefit : Nat
  turn_point_down : Nat
  turn_benefit_down : Nat
  turn_point_up : Nat
  turn_benefit_up : Nat
  stable_point : Nat

/-- The global mutable state of `mm/ksm.c` used by the embedded
functions: the two trees, the structure maps, the counters, the
inter-vma table and the scan ladder. -/
structure KState where
  items : Nat → RmapItem
  item_ids : List Nat
  pages : Nat → PageM
  snods : Nat → StableNode
  sn_next : Nat
  sn_all_list : List Nat
  stable_root : Bst STreeNode
  stable_tree_index : Nat
  unstable_root : Bst UTreeNode
  unstable_tree_nodes : List Nat
  ksm_pages_shared : Nat
  ksm_pages_sharing : Nat
  ksm_pages_unshared : Nat
  ksm_pages_scanned : Nat
  ksm_pages_scanned_last : Nat
  rshash_pos : Nat
  rshash_neg : Nat
  hash_strength : Nat
  hash_strength_delta : Nat
  memcmp_cost : Nat
  rshash_neg_cont_zero : Nat
  rshash_cont_obscure : Nat
  rshash_st : RshashStateS
  ksm_scan_round : Nat
  random_nums : Nat → Nat
  inter_vma_table : Nat → Nat
  vma_table : Nat → Option Nat
  vma_table_num : Nat
  vma_table_index_end : Nat
  slots : Nat → VmaSlotM
  rungs : Nat → RungM
  vma_slot_num : Nat
  thrash_threshold : Nat

/-- Results of the host memory-manager primitives that the merge path
branches on (page trylocks, write protection, pte checks, process
exit, allocation failure).  They are modelled as pure functions of the
object they are invoked on, matching a deterministic execution. -/
structure Oracle where
  trylock_page : Nat → Bool
  write_protect_ok : Nat → Bool
  replace_page_ok : Nat → Bool
  pte_ok : Nat → Bool
  ksm_test_exit : Nat → Bool
  get_tree_item_err : Nat → Nat
  alloc_ok : Bool

/-! ### Page-level helpers (`mm/ksm.c` lines 911-955, 1078-1145) -/

/-- Byte equality of two pages (`memcmp(addr1, addr2, PAGE_SIZE)`
restricted to its zero test; a page is `HASH_STRENGTH_FULL` words). -/
def contents_equal (c1 c2 : Nat → Nat) : Bool :=
  (List.range HASH_STRENGTH_FULL).all fun i => c1 i == c2 i

/-- `memcmp_pages(page1, page2, cost_accounting)`: result is `0` iff
the contents agree; with accounting `rshash_neg += memcmp_cost`. -/
def memcmp_pages (s : KState) (p1 p2 : Nat) (cost_accounting : Bool) :
    Int × KState :=
  let ret : Int := if contents_equal (s.pages p1).content (s.pages p2).content
                   then 0 else 1
  if cost_accounting then
    (ret, { s with rshash_neg := addUL s.rshash_neg s.memcmp_cost })
  else (ret, s)

/-- `pages_identical(page1, page2)` (no cost accounting). -/
def pages_identical (s : KState) (p1 p2 : Nat) : Bool :=
  contents_equal (s.pages p1).content (s.pages p2).content

/-- `page_hash(page, hash_strength, cost_accounting)` (lines 911-932):
the random sample hash of the page's words; with accounting
`rshash_pos += HASH_STRENGTH_FULL - hash_strength`. -/
def page_hash (s : KState) (pfn strength : Nat) (cost_accounting : Bool) :
    Nat × KState :=
  let val := random_sample_hash (s.pages pfn).content s.random_nums strength
  if cost_accounting then
    (val, { s with rshash_pos := addUL s.rshash_pos (subUL HASH_STRENGTH_FULL strength) })
  else (val, s)

/-- `page_hash_max(page, hash_old)` (lines 1088-1104): extend via
`delta_hash` to `HASH_STRENGTH_MAX`, reserve `0`, and account
`rshash_neg += HASH_STRENGTH_MAX - hash_strength`. -/
def page_hash_max (s : KState) (pfn hash_old : Nat) : Nat × KState :=
  let hm := delta_hash (s.pages pfn).content s.random_nums
              s.hash_strength HASH_STRENGTH_MAX hash_old
  let hm := if hm = 0 then 1 else hm
  (hm,
    { s with
      rshash_neg := addUL s.rshash_neg (subUL HASH_STRENGTH_MAX s.hash_strength) })

/-- `rmap_item_hash_max(item, hash)` (lines 1399-1410). -/
def rmap_item_hash_max (s : KState) (it hash : Nat) : Nat × KState :=
  let hash_max := (s.items it).hash_max
  if hash_max = 0 then
    let (hm, s) := page_hash_max s (s.items it).pfn hash
    (hm, { s with items := fun j =>
            if j = it then { s.items it with hash_max := hm } else s.items j })
  else (hash_max, s)

/-- `stable_node_hash_max(node, page, hash)` (lines 1620-1629). -/
def stable_node_hash_max (s : KState) (sn pfn hash : Nat) : KState :=
  let hash_max := (s.snods sn).hash_max
  if hash_max = 0 then
    let (hm, s) := page_hash_max s pfn hash
    { s with snods := fun j =>
        if j = sn then { s.snods sn with hash_max := hm } else s.snods j }
  else s

/-! ### Point updates of the state maps -/

def updItem (s : KState) (it : Nat) (f : RmapItem → RmapItem) : KState :=
  { s with items := fun j => if j = it then f (s.items j) else s.items j }

def updSnod (s : KState) (sn : Nat) (f : StableNode → StableNode) : KState :=
  { s with snods := fun j => if j = sn then f (s.snods j) else s.snods j }

def updPage (s : KState) (pfn : Nat) (f : PageM → PageM) : KState :=
  { s with pages := fun j => if j = pfn then f (s.pages j) else s.pages j }

def updSlot (s : KState) (sl : Nat) (f : VmaSlotM → VmaSlotM) : KState :=
  { s with slots := fun j => if j = sl then f (s.slots j) else s.slots j }

def updRung (s : KState) (r : Nat) (f : RungM → RungM) : KState :=
  { s with rungs := fun j => if j = r then f (s.rungs j) else s.rungs j }

/-! ### The inter-vma duplication table (`mm/ksm.c` lines 206-216,
2015-2072, 3366-3380)

`ksm_inter_vma_table` holds `unsigned int` counters; the allocation
made in `ksm_init` is `KSM_DUP_VMA_MAX * KSM_DUP_VMA_MAX *
sizeof(unsigned int) / 2` bytes. -/

def KSM_DUP_VMA_MAX : Nat := 2048

/-- `ksm_vma_table_size` (line 214). -/
def ksm_vma_table_size : Nat := 2048

/-- Number of `unsigned int` entries actually allocated for
`ksm_inter_vma_table` in `ksm_init` (lines 4545-4548). -/
def inter_vma_table_entries : Nat := KSM_DUP_VMA_MAX * KSM_DUP_VMA_MAX / 2

/-- `intertab_vma_offset(i, j)` (lines 2035-2045): triangular index
`max(i,j)*(max(i,j)+1)/2 + min(i,j)`. -/
def intertab_vma_offset (i j : Nat) : Nat :=
  if i < j then j * (j + 1) / 2 + i else i * (i + 1) / 2 + j

/-- The index where the search loop of `enter_inter_vma_table`
(lines 2019-2022, `for (i = 0; i <= ksm_vma_table_size; i++)`) stops:
the first `i ∈ [0, ksm_vma_table_size]` with `!ksm_vma_table[i]`, and
`ksm_vma_table_size + 1` when every probed entry is occupied.  Every
index up to and including the result is read from `ksm_vma_table`. -/
def enter_table_probe (table : Nat → Option Nat) : Nat :=
  (((List.range (ksm_vma_table_size + 1)).find? fun i =>
      (table i).isNone).getD (ksm_vma_table_size + 1))

/-- `enter_inter_vma_table(slot)` (lines 2015-2033). -/
def enter_inter_vma_table (s : KState) (sl : Nat) : KState :=
  let i := enter_table_probe s.vma_table
  let s := updSlot s sl fun x => { x with ksm_index := (i : Int) }
  let s := { s with
    vma_table := fun j => if j = i then some sl else s.vma_table j,
    vma_table_num := incUL s.vma_table_num }
  if i = s.vma_table_index_end then
    { s with vma_table_index_end := s.vma_table_index_end + 1 }
  else s

/-- `unsigned int` increment of a table cell. -/
def incU32 (x : Nat) : Nat := (x + 1) % U32

/-- `unsigned int` decrement of a table cell. -/
def decU32 (x : Nat) : Nat := (x + (U32 - 1)) % U32

/-- `inc_vma_intertab_pair(slot1, slot2)` (lines 2047-2061). -/
def inc_vma_intertab_pair (s : KState) (sl1 sl2 : Nat) : KState :=
  let s := if (s.slots sl1).ksm_index = -1 then enter_inter_vma_table s sl1 else s
  let s := if (s.slots sl2).ksm_index = -1 then enter_inter_vma_table s sl2 else s
  let off := intertab_vma_offset (s.slots sl1).ksm_index.toNat
               (s.slots sl2).ksm_index.toNat
  { s with inter_vma_table := fun k =>
      if k = off then incU32 (s.inter_vma_table k) else s.inter_vma_table k }

/-- `dec_vma_intertab_pair(slot1, slot2)` (lines 2063-2072). -/
def dec_vma_intertab_pair (s : KState) (sl1 sl2 : Nat) : KState :=
  let off := intertab_vma_offset (s.slots sl1).ksm_index.toNat
               (s.slots sl2).ksm_index.toNat
  { s with inter_vma_table := fun k =>
      if k = off then decU32 (s.inter_vma_table k) else s.inter_vma_table k }

/-! ### Stable node removal and the keyhole lookup
(`mm/ksm.c` lines 452-566) -/

/-- The value at the root `rb_node` of a sub-tree (`rb_entry` of
`sub_root.rb_node`). -/
def bstRootVal {α : Type} : Bst α → Option α
  | .nil => none
  | .node _ v _ => some v

/-- One pass of the cleanup walk of `remove_node_from_stable_tree`
over a `node_vma`'s `rmap_hlist`: `ksm_pages_sharing--` and clearing
of the address flags per rmap item (`drop_anon_vma` only touches the
external anon-vma refcount and is not part of this state). -/
def remove_node_one_item (s : KState) (it : Nat) : KState :=
  let s := { s with ksm_pages_sharing := decUL s.ksm_pages_sharing }
  updItem s it fun x => { x with addr_stable := false, addr_unstable := false }

/-- Lines 467-484 of `remove_node_from_stable_tree`: the cleanup walk
over all node_vmas and the `shared`/`sharing` rebalancing of the last
item. -/
def remove_node_hlists (s : KState) (sn : Nat) : KState :=
  let node := s.snods sn
  if node.hlist.isEmpty then s
  else
    let s := node.hlist.foldl (fun s nv =>
      nv.rmap_hlist.foldl remove_node_one_item s) s
    let s := updSnod s sn fun x => { x with hlist := [] }
    -- the last one is counted as shared
    { s with ksm_pages_shared := decUL s.ksm_pages_shared,
             ksm_pages_sharing := incUL s.ksm_pages_sharing }

/-- Lines 486-498 of `remove_node_from_stable_tree`: unlink the stable
node from its tree node's sub-tree and possibly free the tree node. -/
def remove_node_unlink_rb (s : KState) (sn : Nat)
    (unlink_rb remove_tree_node : Bool) : KState :=
  match (s.snods sn).tree_node, unlink_rb with
  | some tnh, true =>
      match bstFind (STreeNode.hash) tnh s.stable_root with
      | none => s
      | some tn =>
          let newSub := bstErase (fun j => (s.snods j).hash_max)
            (s.snods sn).hash_max tn.sub_root
          if bstEmpty newSub ∧ remove_tree_node then
            { s with stable_root := bstErase (STreeNode.hash) tnh s.stable_root }
          else
            let newRoot := bstModify (STreeNode.hash) tnh
              (fun x => { x with sub_root := newSub, count := decUL x.count })
              s.stable_root
            { s with stable_root := newRoot }
  | _, _ => s

/-- `remove_node_from_stable_tree(stable_node, unlink_rb,
remove_tree_node)` (lines 460-501). -/
def remove_node_from_stable_tree (s : KState) (sn : Nat)
    (unlink_rb remove_tree_node : Bool) : KState :=
  let s := remove_node_hlists s sn
  let s := remove_node_unlink_rb s sn unlink_rb remove_tree_node
  -- free_stable_node: unlink from the all-nodes list; the identifier
  -- is dead from here on
  { s with sn_all_list := s.sn_all_list.filter (fun j => j != sn) }

/-- `get_ksm_page(stable_node, unlink_rb, remove_tree_node)`
(lines 541-566): keyhole check of `page->mapping` against
`stable_node + (PAGE_MAPPING_ANON | PAGE_MAPPING_KSM)` plus
`get_page_unless_zero`; on failure the stale node is removed. -/
def get_ksm_page (s : KState) (sn : Nat) (unlink_rb remove_tree_node : Bool) :
    Option Nat × KState :=
  let pfn := (s.snods sn).kpfn
  let page := s.pages pfn
  if page.anon ∧ page.ksm ∧ page.stable = some sn ∧ ¬page.ref_zero then
    (some pfn, s)
  else
    (none, remove_node_from_stable_tree s sn unlink_rb remove_tree_node)

/-! ### Removing an rmap item from its tree (`mm/ksm.c` lines 572-638) -/

/-- `remove_rmap_item_from_tree(rmap_item)`. -/
def remove_rmap_item_from_tree (s : KState) (it : Nat) : KState :=
  let item := s.items it
  if item.addr_stable then
    -- node_vma = rmap_item->head; stable_node = node_vma->head
    let sn := item.head_sn
    match get_ksm_page s sn true true with
    | (none, s) => s  -- goto out: nothing else, flags were handled (or
                      -- not) by the stale-node removal walk
    | (some _, s) =>
        -- hlist_del(&rmap_item->hlist); free node_vma if now empty
        let s := updSnod s sn fun node =>
          let l1 := node.hlist.map fun nv =>
            if nv.key = item.slot then
              { nv with rmap_hlist := nv.rmap_hlist.filter (fun j => j != it) }
            else nv
          let l2 := l1.filter fun nv =>
            !(nv.key == item.slot && nv.rmap_hlist.isEmpty)
          { node with hlist := l2 }
        let s :=
          if (s.snods sn).hlist.isEmpty then
            { s with ksm_pages_shared := decUL s.ksm_pages_shared }
          else
            { s with ksm_pages_sharing := decUL s.ksm_pages_sharing }
        updItem s it fun x =>
          { x with addr_stable := false, addr_unstable := false, hash_max := 0 }
  else
    let s :=
      if item.addr_unstable then
        let s :=
          if item.append_round = s.ksm_scan_round then
            match bstFind (UTreeNode.hash) item.utree_hash s.unstable_root with
            | none => s
            | some tn =>
                let newSub := bstErase (fun j => (s.items j).hash_max)
                  item.hash_max tn.sub_root
                if bstEmpty newSub then
                  { s with
                    unstable_root :=
                      bstErase (UTreeNode.hash) item.utree_hash s.unstable_root,
                    unstable_tree_nodes :=
                      s.unstable_tree_nodes.filter (fun h => h != item.utree_hash) }
                else
                  let newRoot := bstModify (UTreeNode.hash) item.utree_hash
                    (fun x => { x with sub_root := newSub, count := decUL x.count })
                    s.unstable_root
                  { s with unstable_root := newRoot }
          else s
        { s with ksm_pages_unshared := decUL s.ksm_pages_unshared }
      else s
    updItem s it fun x =>
      { x with addr_stable := false, addr_unstable := false, hash_max := 0 }

/-! ### Stable-tree search (`mm/ksm.c` lines 1423-1496) and the merge
error codes (lines 1013-1015) -/

def MERGE_ERR_PGERR : Nat := 1
def MERGE_ERR_COLLI : Nat := 2
def MERGE_ERR_CHANGED : Nat := 3

/-- `page_stable_node(page)`: the stable-node pointer encoded in
`page->mapping` of a `PageKsm` page. -/
def page_stable_node (s : KState) (pfn : Nat) : Option Nat :=
  if (s.pages pfn).ksm then (s.pages pfn).stable else none

/-- `stable_tree_search(item, hash)`: first level by `hash`; a tree
node with `count == 1` yields its single stable node directly,
otherwise the second level is searched by the item's `hash_max`.  A
candidate is materialised through `get_ksm_page` (which removes it
when stale).  No content comparison happens here. -/
def stable_tree_search (s : KState) (it hash : Nat) : Option Nat × KState :=
  let pfn := (s.items it).pfn
  match page_stable_node s pfn with
  | some _ => (some pfn, s)  -- ksm page forked; gotten once outside
  | none =>
    match bstFind (STreeNode.hash) hash s.stable_root with
    | none => (none, s)
    | some tn =>
        if tn.count = 1 then
          match bstRootVal tn.sub_root with
          | none => (none, s)  -- BUG_ON(!stable_node)
          | some snid => get_ksm_page s snid true true
        else
          let (hash_max, s) := rmap_item_hash_max s it hash
          match bstFind (fun j => (s.snods j).hash_max) hash_max tn.sub_root with
          | none => (none, s)
          | some snid => get_ksm_page s snid true true

/-- `check_collision(rmap_item, hash)` (lines 1110-1145). -/
def check_collision (s : KState) (it hash : Nat) : Nat × KState :=
  let item := s.items it
  if item.hash_max ≠ 0 then
    let s := { s with rshash_neg := addUL s.rshash_neg s.memcmp_cost }
    let s :=
      { s with
        rshash_neg := addUL s.rshash_neg (subUL HASH_STRENGTH_MAX s.hash_strength) }
    let (hm, s) := page_hash_max s item.pfn hash
    if item.hash_max = hm then (MERGE_ERR_COLLI, s) else (MERGE_ERR_CHANGED, s)
  else
    let s :=
      { s with
        rshash_neg := addUL s.rshash_neg (s.memcmp_cost + s.hash_strength) }
    let (v, s) := page_hash s item.pfn s.hash_strength false
    if v = hash then (MERGE_ERR_COLLI, s) else (MERGE_ERR_CHANGED, s)

/-! ### Merging with an existing ksm page (`mm/ksm.c` lines 1153-1226)

`write_protect_page`, `replace_page` and the page-table manipulation
are host primitives; their success is read off the oracle.  The only
Lean-visible state they touch is the cost accounting done by
`pages_identical`/`check_collision`. -/

/-- `try_to_merge_with_ksm_page(rmap_item, kpage, hash)`; the call
site always passes a non-NULL `kpage`, so the `!kpage` upgrade branch
(lines 1191-1204) is not reachable from `cmp_and_merge_page`. -/
def try_to_merge_with_ksm_page (s : KState) (o : Oracle) (it kpage hash : Nat) :
    Nat × KState :=
  let slot := (s.items it).slot
  if o.ksm_test_exit slot then (MERGE_ERR_PGERR, s)
  else
    let page := (s.items it).pfn
    if page = kpage then (0, s)  -- ksm page forked
    else if !(s.pages page).anon || !(s.pages kpage).ksm then
      (MERGE_ERR_PGERR, s)
    else if !o.trylock_page page then (MERGE_ERR_PGERR, s)
    else if o.write_protect_ok it then
      if pages_identical s page kpage then
        (if o.replace_page_ok it then (0, s) else (MERGE_ERR_PGERR, s))
      else check_collision s it hash
    else (MERGE_ERR_PGERR, s)

/-- `try_merge_with_stable(item1, item2, oldpage, tree_page, &success1,
&success2)` (lines 1512-1618): repoint both write-protected ptes at
the stable page.  All effects are on the page tables (external); the
oracle's `pte_ok` stands for `page_check_address` succeeding with a
still write-protected pte. -/
def try_merge_with_stable (s : KState) (o : Oracle) (it1 it2 oldp treep : Nat) :
    (Bool × Bool) × KState :=
  if oldp = treep then ((true, true), s)  -- success_both
  else if !(s.pages oldp).anon || !(s.pages oldp).ksm then ((false, false), s)
  else if !o.pte_ok it1 then ((false, false), s)
  else if !o.pte_ok it2 then ((true, false), s)
  else ((true, true), s)

/-- `try_to_merge_two_pages(rmap_item, tree_rmap_item, hash)`
(lines 1294-1387).  `page` is upgraded to a ksm page with a NULL
stable node while the attempt is in flight; on failure
`restore_ksm_page_pte` puts the saved mapping back when the
write-protected pte is still in place. -/
def try_to_merge_two_pages (s : KState) (o : Oracle) (it1 it2 hash : Nat) :
    Nat × KState :=
  let page := (s.items it1).pfn
  let tree_page := (s.items it2).pfn
  if page = tree_page then (MERGE_ERR_PGERR, s)
  else if !(s.pages page).anon || !(s.pages tree_page).anon then
    (MERGE_ERR_PGERR, s)
  else if !o.trylock_page page then (MERGE_ERR_PGERR, s)
  else if !o.write_protect_ok it1 then (MERGE_ERR_PGERR, s)
  else
    -- saved_mapping; set_page_stable_node(page, NULL)
    let saved := s.pages page
    let s := updPage s page fun pg => { pg with ksm := true, stable := none }
    let restore_out := fun (err : Nat) (s : KState) =>
      if o.pte_ok it1 then
        (err, updPage s page fun pg =>
          { pg with ksm := saved.ksm, stable := saved.stable })
      else (err, s)
    if !o.trylock_page tree_page then restore_out MERGE_ERR_PGERR s
    else if !o.write_protect_ok it2 then restore_out MERGE_ERR_PGERR s
    else if pages_identical s page tree_page then
      if o.replace_page_ok it2 then (0, s)  -- success
      else restore_out MERGE_ERR_PGERR s
    else
      let r1 := page_hash s page s.hash_strength false
      let v1 := r1.1
      let s := r1.2
      let r2 := page_hash s tree_page s.hash_strength false
      let v2 := r2.1
      let s := r2.2
      if v1 = v2 then
        let s :=
          { s with
            rshash_neg := addUL s.rshash_neg (s.memcmp_cost + s.hash_strength * 2) }
        restore_out MERGE_ERR_COLLI s
      else restore_out MERGE_ERR_CHANGED s

/-! ### Stable-tree insertion (`mm/ksm.c` lines 1631-1895) -/

/-- `new_stable_node(tree_node, kpage, hash_max)` (lines 1631-1647):
allocate, record the frame and `hash_max`, link to the tree node and
stamp the page's mapping with the new stable node
(`set_page_stable_node`). -/
def new_stable_node (s : KState) (tn : Option Nat) (kpfn hash_max : Nat) :
    Nat × KState :=
  let id := s.sn_next
  let s :=
    { s with
      sn_next := id + 1,
      sn_all_list := id :: s.sn_all_list,
      snods := fun j =>
        if j = id then
          { kpfn := kpfn, hash_max := hash_max, tree_node := tn, hlist := [] }
        else s.snods j }
  (id, updPage s kpfn fun pg => { pg with ksm := true, stable := some id })

/-- Insert a stable node into the sub-tree of the first-level tree
node `tnh`, keyed by `hash_max`, and bump `count`
(`rb_link_node` + `rb_insert_color` + `tree_node->count++`). -/
def stable_sub_insert (s : KState) (tnh snid : Nat) : KState :=
  let newRoot := bstModify (STreeNode.hash) tnh
    (fun x =>
      { x with
        sub_root := bstInsert (fun j => (s.snods j).hash_max)
          (s.snods snid).hash_max snid x.sub_root,
        count := incUL x.count })
    s.stable_root
  { s with stable_root := newRoot }

/-- `first_level_insert(tree_node, rmap_item, tree_rmap_item, kpage,
hash, &success1, &success2)` (lines 1649-1723).  Returns the stable
node reached (`none` = `failed`) plus the two success flags. -/
def first_level_insert (s : KState) (o : Oracle) (tnh it1 it2 kpfn hash : Nat) :
    (Option Nat × Bool × Bool) × KState :=
  match bstFind (STreeNode.hash) tnh s.stable_root with
  | none => ((none, false, false), s)
  | some tn =>
    match bstRootVal tn.sub_root with
    | none => ((none, false, false), s)  -- cannot happen: count == 1
    | some snid =>
      let rg := get_ksm_page s snid true false
      let s := rg.2
      match rg.1 with
      | some tree_pfn =>
          let rc := memcmp_pages s kpfn tree_pfn true
          let cmp := rc.1
          let s := rc.2
          if cmp = 0 then
            let rm := try_merge_with_stable s o it1 it2 kpfn tree_pfn
            let ok1 := rm.1.1
            let ok2 := rm.1.2
            let s := rm.2
            if !ok1 && !ok2 then ((none, false, false), s)
            else ((some snid, ok1, ok2), s)
          else
            -- collision in first level: create the sub-tree
            let s := stable_node_hash_max s snid tree_pfn tn.hash
            let rh := rmap_item_hash_max s it1 hash
            let hash_max := rh.1
            let s := rh.2
            let cmp := hash_cmp hash_max (s.snods snid).hash_max
            if cmp = 0 then ((none, false, false), s)  -- "KSM collision1"
            else
              if !o.alloc_ok then ((none, false, false), s)
              else
                let rn := new_stable_node s (some tnh) kpfn hash_max
                let newSn := rn.1
                let s := rn.2
                let s := stable_sub_insert s tnh newSn
                ((some newSn, true, true), s)
      | none =>
          -- the only stable node was stale and deleted; reuse tree_node
          if !o.alloc_ok then ((none, false, false), s)
          else
            let rn := new_stable_node s (some tnh) kpfn 0
            let newSn := rn.1
            let s := rn.2
            let s := stable_sub_insert s tnh newSn
            ((some newSn, true, true), s)

/-- `stable_subtree_insert(...)` (lines 1725-1807).  The `research`
loop restarts after a stale node vanished under the descent; every
restart has strictly fewer sub-tree entries, so the fuel
`bstSize sub_root + 1` given by `stable_tree_insert` is enough. -/
def stable_subtree_insert (s : KState) (o : Oracle)
    (tnh it1 it2 kpfn hash : Nat) :
    Nat → (Option Nat × Bool × Bool) × KState
  | 0 => ((none, false, false), s)
  | fuel + 1 =>
    let rh := rmap_item_hash_max s it1 hash
    let hash_max := rh.1
    let s := rh.2
    match bstFind (STreeNode.hash) tnh s.stable_root with
    | none => ((none, false, false), s)
    | some tn =>
      match bstFind (fun j => (s.snods j).hash_max) hash_max tn.sub_root with
      | some snid =>
          let rg := get_ksm_page s snid true false
          let s := rg.2
          match rg.1 with
          | some tree_pfn =>
              let rc := memcmp_pages s kpfn tree_pfn true
              let cmp := rc.1
              let s := rc.2
              if cmp = 0 then
                let rm := try_merge_with_stable s o it1 it2 kpfn tree_pfn
                let ok1 := rm.1.1
                let ok2 := rm.1.2
                let s := rm.2
                if !ok1 && !ok2 then ((none, false, false), s)
                else ((some snid, ok1, ok2), s)
              else ((none, false, false), s)  -- irreducible collision
          | none =>
              -- stale node removed; re-search, or reuse the empty node
              match bstFind (STreeNode.hash) tnh s.stable_root with
              | none => ((none, false, false), s)
              | some tn2 =>
                  if tn2.count ≠ 0 then
                    stable_subtree_insert s o tnh it1 it2 kpfn hash fuel
                  else
                    if !o.alloc_ok then ((none, false, false), s)
                    else
                      let rn := new_stable_node s (some tnh) kpfn hash_max
                      let newSn := rn.1
                      let s := rn.2
                      let s := stable_sub_insert s tnh newSn
                      ((some newSn, true, true), s)
      | none =>
          if !o.alloc_ok then ((none, false, false), s)
          else
            let rn := new_stable_node s (some tnh) kpfn hash_max
            let newSn := rn.1
            let s := rn.2
            let s := stable_sub_insert s tnh newSn
            ((some newSn, true, true), s)

/-- `stable_tree_insert(kpage, hash, rmap_item, tree_rmap_item,
&success1, &success2)` (lines 1825-1895). -/
def stable_tree_insert (s : KState) (o : Oracle) (kpfn hash it1 it2 : Nat) :
    (Option Nat × Bool × Bool) × KState :=
  match bstFind (STreeNode.hash) hash s.stable_root with
  | some tn =>
      if tn.count = 1 then first_level_insert s o tn.hash it1 it2 kpfn hash
      else stable_subtree_insert s o tn.hash it1 it2 kpfn hash
        (bstSize tn.sub_root + 1)
  | none =>
      if !o.alloc_ok then ((none, false, false), s)
      else
        let rn := new_stable_node s (some hash) kpfn 0
        let newSn := rn.1
        let s := rn.2
        let tn : STreeNode :=
          { hash := hash, count := 1,
            sub_root := .node .nil newSn .nil }
        let s := { s with stable_root := bstInsert (STreeNode.hash) hash tn s.stable_root }
        ((some newSn, true, true), s)

/-! ### Unstable-tree search-insert (`mm/ksm.c` lines 1898-2013) -/

/-- `get_tree_rmap_item_page(tree_rmap_item)` (lines 1904-1917):
`0` success, `-EBUSY` (modelled `1`) mmap_sem contention, `-EINVAL`
(modelled `2`) page mapping changed — in which case the item is
removed from its tree. -/
def get_tree_rmap_item_page (s : KState) (o : Oracle) (trit : Nat) :
    Nat × KState :=
  let err := o.get_tree_item_err trit
  if err = 2 then (err, remove_rmap_item_from_tree s trit)
  else (err, s)

/-- Install `rmap_item` in the sub-tree of the unstable tree node
`tnh`, keyed by its current `hash_max` (`rb_link_node` at the descent
point): `tree_node`, `UNSTABLE` flag, `append_round` stamp, insert.
Note that the unstable path never increments `tree_node->count`. -/
def unstable_install (s : KState) (it tnh : Nat) : KState :=
  let s := updItem s it fun x =>
    { x with
      utree_hash := tnh,
      addr_unstable := true,
      append_round := s.ksm_scan_round }
  let newRoot := bstModify (UTreeNode.hash) tnh
    (fun x =>
      { x with
        sub_root := bstInsert (fun j => (s.items j).hash_max)
          (s.items it).hash_max it x.sub_root })
    s.unstable_root
  { s with unstable_root := newRoot }

/-- `unstable_tree_search_insert(rmap_item, hash)` (lines 1925-2013). -/
def unstable_tree_search_insert (s : KState) (o : Oracle) (it hash : Nat) :
    Option Nat × KState :=
  let get_page_out := fun (s : KState) (trit : Nat) =>
    if (s.items trit).pfn = (s.items it).pfn then (none, s)
    else
      let re := get_tree_rmap_item_page s o trit
      let err := re.1
      let s := re.2
      if err ≠ 0 then (none, s) else (some trit, s)
  match bstFind (UTreeNode.hash) hash s.unstable_root with
  | some tn =>
      if tn.count = 1 then
        match bstRootVal tn.sub_root with
        | none => (none, s)  -- BUG_ON(!tree_rmap_item)
        | some trit => get_page_out s trit
      else
        let rh := rmap_item_hash_max s it hash
        let hash_max := rh.1
        let s := rh.2
        match bstFind (fun j => (s.items j).hash_max) hash_max tn.sub_root with
        | some trit => get_page_out s trit
        | none =>
            -- did not found even in sub-tree
            let s := unstable_install s it tn.hash
            (none, { s with ksm_pages_unshared := incUL s.ksm_pages_unshared })
  | none =>
      -- alloc a new tree_node
      if !o.alloc_ok then (none, s)
      else
        let tn : UTreeNode := { hash := hash, count := 0, sub_root := .nil }
        let s :=
          { s with
            unstable_root := bstInsert (UTreeNode.hash) hash tn s.unstable_root,
            unstable_tree_nodes := hash :: s.unstable_tree_nodes }
        let s := unstable_install s it hash
        (none, { s with ksm_pages_unshared := incUL s.ksm_pages_unshared })

/-! ### Appending an rmap item to a stable node
(`mm/ksm.c` lines 2082-2186) -/

/-- `stable_tree_append(rmap_item, stable_node)`: sets the `STABLE`
flag and `append_round`, counts `pages_shared`/`pages_sharing`, walks
the sorted `node_vma` list maintaining the inter-vma pair counts
(with inner-duplicate cancellation), inserts a `node_vma` if needed,
attaches the item, stamps `last_update` and bumps
`slot->pages_merged`. -/
def stable_tree_append (s : KState) (it sn : Nat) : KState :=
  let key := (s.items it).slot
  let s := updItem s it fun x =>
    { x with addr_stable := true, append_round := s.ksm_scan_round,
             head_sn := sn }
  let round := s.ksm_scan_round
  -- node_vma_ok tail, shared by all paths below
  let node_vma_ok := fun (s : KState) (nvkey : Nat) =>
    let s := updSnod s sn fun node =>
      { node with hlist := node.hlist.map fun nv =>
          if nv.key = nvkey then
            { nv with rmap_hlist := it :: nv.rmap_hlist, last_update := round }
          else nv }
    updSlot s key fun sl => { sl with pages_merged := sl.pages_merged + 1 }
  if (s.snods sn).hlist.isEmpty then
    -- first item of this stable node; node_vma == NULL → hlist_add_head
    let s := { s with ksm_pages_shared := incUL s.ksm_pages_shared }
    let s := updSnod s sn fun node =>
      { node with hlist := { key := key, last_update := 0, rmap_hlist := [] }
          :: node.hlist }
    node_vma_ok s key
  else
    let s := { s with ksm_pages_sharing := incUL s.ksm_pages_sharing }
    let hlist := (s.snods sn).hlist
    -- first walk: count an inter-vma pair for every visited node_vma
    -- updated this round, stopping at the first key ≥ ours (the stop
    -- entry is visited too)
    let before := hlist.takeWhile fun nv => nv.key < key
    let stop := hlist.dropWhile fun nv => nv.key < key
    let visited := before ++ stop.take 1
    let s := visited.foldl (fun s nv =>
      if nv.last_update = round then inc_vma_intertab_pair s key nv.key else s) s
    match stop.head? with
    | some nv0 =>
        if nv0.key = key then
          let s :=
            if nv0.last_update = round then
              -- inner duplicate: cancel the counts of the node_vmas
              -- before ours that were updated this round
              before.foldl (fun s nv =>
                if nv.last_update = round then dec_vma_intertab_pair s key nv.key
                else s) s
            else
              -- same vma, older round: finish counting the rest
              (stop.drop 1).foldl (fun s nv =>
                if nv.last_update = round then inc_vma_intertab_pair s key nv.key
                else s) s
          node_vma_ok s key
        else
          -- node_vma->key > key: count the rest, insert before it
          let s := (stop.drop 1).foldl (fun s nv =>
            if nv.last_update = round then inc_vma_intertab_pair s key nv.key
            else s) s
          let s := updSnod s sn fun node =>
            { node with hlist :=
                (node.hlist.takeWhile fun nv => nv.key < key) ++
                  ({ key := key, last_update := 0, rmap_hlist := [] } ::
                    (node.hlist.dropWhile fun nv => nv.key < key)) }
          node_vma_ok s key
    | none =>
        -- every key < ours: node_vma is the last entry → add after it
        let s := updSnod s sn fun node =>
          { node with hlist :=
              node.hlist ++ [{ key := key, last_update := 0, rmap_hlist := [] }] }
        node_vma_ok s key

/-! ### The per-page merge step (`mm/ksm.c` lines 2247-2406) -/

/-- `break_cow(rmap_item)` (lines 2247-2259) forces a write fault
through the host MM; it has no effect on the engine state modelled
here. -/
def break_cow (s : KState) (_it : Nat) : KState := s

/-- The tail of `cmp_and_merge_page` from the unstable-tree search on
(lines 2349-2405). -/
def cmp_and_merge_unstable (s : KState) (o : Oracle) (it hash : Nat) : KState :=
  let ru := unstable_tree_search_insert s o it hash
  let s := ru.2
  match ru.1 with
  | none => s
  | some trit =>
      let rt := try_to_merge_two_pages s o it trit hash
      let err := rt.1
      let s := rt.2
      if err = 0 then
        let kpfn := (s.items it).pfn
        let s := remove_rmap_item_from_tree s trit
        let ri := stable_tree_insert s o kpfn hash it trit
        let snode? := ri.1.1
        let ok1 := ri.1.2.1
        let ok2 := ri.1.2.2
        let s := ri.2
        let s :=
          if ok1 then
            match snode? with
            | some sn => stable_tree_append s it sn
            | none => s
          else break_cow s it
        let s :=
          if ok2 then
            match snode? with
            | some sn => stable_tree_append s trit sn
            | none => s
          else break_cow s trit
        s
      else if err = MERGE_ERR_COLLI then
        -- record the colliding pair as sub-tree siblings under hash_max
        let s :=
          match bstFind (UTreeNode.hash) (s.items trit).utree_hash
              s.unstable_root with
          | some tn => if tn.count = 1 then (rmap_item_hash_max s trit tn.hash).2
                       else s
          | none => s
        let rh := rmap_item_hash_max s it hash
        let hash_max := rh.1
        let s := rh.2
        let cmp := hash_cmp hash_max (s.items trit).hash_max
        if cmp = 0 then s  -- goto put_up_out
        else unstable_install s it (s.items trit).utree_hash
      else s

/-- `cmp_and_merge_page(rmap_item)` (lines 2300-2406): remove the item
from whatever tree holds it, hash the page with cost accounting,
search the stable tree and try to merge; on a collision already
hash_maxed abort, otherwise fall through to the unstable tree. -/
def cmp_and_merge_page (s : KState) (o : Oracle) (it : Nat) : KState :=
  let s := remove_rmap_item_from_tree s it
  let page := (s.items it).pfn
  let rp := page_hash s page s.hash_strength true
  let hash := rp.1
  let s := rp.2
  let s := { s with ksm_pages_scanned := incUL s.ksm_pages_scanned }
  let rs := stable_tree_search s it hash
  let s := rs.2
  match rs.1 with
  | some kpage =>
      let rk := try_to_merge_with_ksm_page s o it kpage hash
      let err := rk.1
      let s := rk.2
      if err = 0 then
        -- success: append to the stable graph
        match page_stable_node s kpage with
        | some sn => stable_tree_append s it sn
        | none => s  -- BUG_ON(!stable_node) inside stable_tree_append
      else if err = MERGE_ERR_COLLI ∧ (s.items it).hash_max ≠ 0 then s
      else cmp_and_merge_unstable s o it hash
  | none => cmp_and_merge_unstable s o it hash

/-! ## The scan ladder and the round boundary
(`mm/ksm.c` lines 186-195, 2827-2947, 3145-3489, 3585-3759) -/

def KSM_SCAN_RATIO_MAX : Nat := 125
def ksm_min_scan_ratio : Nat := 1
def ksm_scan_ratio_delta : Nat := 5
def KSM_DEDUP_RATIO_SCALE : Nat := 100
def HASH_STRENGTH_DELTA_MAX : Nat := 5

/-- The ladder sizing loop of `ksm_init` (lines 4530-4534):
`size = 1; while (sr < KSM_SCAN_RATIO_MAX) { sr *= delta; size++; }`.
The loop multiplies `sr` by at least `delta ≥ 2` each time, so
`KSM_SCAN_RATIO_MAX` iterations are ample fuel. -/
def ladder_size_loop : Nat → Nat → Nat → Nat
  | 0, _, size => size
  | fuel + 1, sr, size =>
      if sr < KSM_SCAN_RATIO_MAX then
        ladder_size_loop fuel (sr * ksm_scan_ratio_delta) (size + 1)
      else size

def ksm_scan_ladder_size : Nat :=
  ladder_size_loop KSM_SCAN_RATIO_MAX ksm_min_scan_ratio 1

/-- `init_scan_ladder` (lines 4382-4402) sets
`scan_ratio[i] = ksm_min_scan_ratio * delta^i`. -/
def init_scan_ratio (i : Nat) : Nat :=
  ksm_min_scan_ratio * ksm_scan_ratio_delta ^ i

/-- `get_vma_random_scan_num(slot, scan_ratio)` (lines 2827-2831). -/
def get_vma_random_scan_num (pages scan_ratio : Nat) : Nat :=
  pages * scan_ratio / KSM_SCAN_RATIO_MAX

/-- The budget-escalation loop at the head of the rung entry
(lines 2858-2862): starting from the target rung, keep moving up while
the slot's scan budget at that rung computes to zero
(`BUG_ON` on running past the top rung, modelled as `none`). -/
def rung_enter_target (s : KState) (pages : Nat) : Nat → Nat → Option (Nat × Nat)
  | _, 0 => none
  | r, fuel + 1 =>
      let pts := get_vma_random_scan_num pages (s.rungs r).scan_ratio
      if pts ≠ 0 then some (r, pts)
      else if r + 1 < ksm_scan_ladder_size then
        rung_enter_target s pages (r + 1) fuel
      else none

/-- `vma_rung_enter(slot, rung)` (lines 2833-2874): leave the old
rung, then enter the first rung at or above the target with a non-zero
budget. -/
def vma_rung_enter (s : KState) (sl target : Nat) : KState :=
  let oldr := (s.slots sl).rung
  let fully := (s.slots sl).fully_scanned
  let s := updRung s oldr fun r =>
    { r with
      vma_list := r.vma_list.filter (fun x => x != sl),
      vma_num := decUL r.vma_num,
      fully_scanned_slots :=
        if fully then decUL r.fully_scanned_slots else r.fully_scanned_slots }
  match rung_enter_target s (s.slots sl).pages target
      (ksm_scan_ladder_size + 1 - target) with
  | none => s  -- BUG_ON(rung > &ksm_scan_ladder[size-1])
  | some (rr, pts) =>
      let s := updRung s rr fun r =>
        { r with
          vma_list := sl :: r.vma_list,
          vma_num := incUL r.vma_num,
          fully_scanned_slots :=
            if fully then incUL r.fully_scanned_slots else r.fully_scanned_slots }
      updSlot s sl fun x => { x with rung := rr, pages_to_scan := pts }

/-- `vma_rung_up(slot)` (lines 2876-2882). -/
def vma_rung_up (s : KState) (sl : Nat) : KState :=
  if (s.slots sl).rung = ksm_scan_ladder_size - 1 then s
  else vma_rung_enter s sl ((s.slots sl).rung + 1)

/-- `vma_rung_down(slot)` (lines 2884-2890). -/
def vma_rung_down (s : KState) (sl : Nat) : KState :=
  if (s.slots sl).rung = 0 then s
  else vma_rung_enter s sl ((s.slots sl).rung - 1)

/-- A left fold whose accumulator carries the "no defined result"
marker: once a step yields `none` the remaining steps are skipped. -/
def option_step_fold {α β : Type} (step : β → α → Option β) (l : List α)
    (d : β) : Option β :=
  l.foldl (fun acc x =>
    match acc with
    | none => none
    | some d => step d x) (some d)

/-- One iteration of the accumulation loop of `cal_dedup_ratio`
(lines 2908-2926): skip empty table cells, the slot itself and
unscanned partners; `none` on a firing `BUG_ON`; otherwise accumulate
`table[index] * pages1 / scanned1 * pages2 / scanned2`. -/
def cal_dedup_step (s : KState) (sl dedup i : Nat) : Option Nat :=
  match s.vma_table i with
  | none => some dedup
  | some sl2 =>
    if (i : Int) = (s.slots sl).ksm_index ∨
        (s.slots sl2).pages_scanned = 0 then
      some dedup
    else if (s.slots sl2).last_scanned > (s.slots sl2).pages_scanned then
      none  -- BUG_ON
    else
      let scanned1 := (s.slots sl).pages_scanned - (s.slots sl).last_scanned
      let pages2 := (s.slots sl2).pages
      let scanned2 :=
        (s.slots sl2).pages_scanned - (s.slots sl2).last_scanned
      let index := intertab_vma_offset (s.slots sl).ksm_index.toNat i
      if s.inter_vma_table index ≠ 0 ∧ (scanned1 = 0 ∨ scanned2 = 0) then
        none  -- BUG_ON
      else if s.inter_vma_table index ≠ 0 then
        some (dedup +
          s.inter_vma_table index * (s.slots sl).pages / scanned1 * pages2 /
            scanned2)
      else some dedup

/-- `cal_dedup_ratio(slot)` (lines 2895-2947), as a partial function:
`none` marks executions with no defined result — an unsigned division
by zero (undefined behaviour; in particular the thrash filter divides
by `pages_merged` with no zero guard) or a firing `BUG_ON`. -/
def cal_dedup_ratio (s : KState) (sl : Nat) : Option Nat :=
  let slot := s.slots sl
  if slot.pages_scanned = 0 then some 0
  else if slot.last_scanned > slot.pages_scanned then none  -- BUG_ON
  else
    let scanned1 := slot.pages_scanned - slot.last_scanned
    match option_step_fold (cal_dedup_step s sl)
        (List.range s.vma_table_index_end) 0 with
    | none => none
    | some dedup =>
      let index := intertab_vma_offset slot.ksm_index.toNat slot.ksm_index.toNat
      if s.inter_vma_table index ≠ 0 ∧ scanned1 = 0 then none  -- BUG_ON
      else
        let dedup :=
          if s.inter_vma_table index ≠ 0 then
            dedup + s.inter_vma_table index * slot.pages / scanned1
          else dedup
        if slot.pages = 0 then none  -- division by zero
        else
          let ret := dedup * KSM_DEDUP_RATIO_SCALE / slot.pages
          -- Thrashing area filtering
          if s.thrash_threshold ≠ 0 then
            if slot.pages_merged = 0 then none  -- division by zero
            else if slot.pages_cowed * 100 / slot.pages_merged >
                s.thrash_threshold then
              some 0
            else
              some (ret * (slot.pages_merged - slot.pages_cowed) /
                slot.pages_merged)
          else some ret

/-- `ksm_intertab_clear(slot)` (lines 3366-3380): zero the whole row
and column of the slot's index.  The callers only pass slots currently
in the table (`ksm_index ≥ 0`). -/
def ksm_intertab_clear (s : KState) (sl : Nat) : KState :=
  let ki := (s.slots sl).ksm_index.toNat
  let clear := fun (s : KState) (off : Nat) =>
    { s with inter_vma_table := fun k => if k = off then 0 else s.inter_vma_table k }
  let s := (List.range (ki + 1)).foldl
    (fun s i => clear s (intertab_vma_offset ki i)) s
  (List.range' (ki + 1) (s.vma_table_index_end - (ki + 1))).foldl
    (fun s i => clear s (intertab_vma_offset ki i)) s

/-! ### The hash strength controller (`mm/ksm.c` lines 2950-3364) -/

/-- `stable_node_reinsert(new_node, page, root_treep, tree_node_listp,
hash)` (lines 2955-3074), acting on the tree under construction in
`s.stable_root`. -/
def stable_node_reinsert (s : KState) (sn pfn hash : Nat) : KState :=
  let add_node := fun (s : KState) (tnh : Nat) =>
    let s := updSnod s sn fun x => { x with tree_node := some tnh }
    stable_sub_insert s tnh sn
  match bstFind (STreeNode.hash) hash s.stable_root with
  | some tn =>
      -- a first-level tree node with the same hash exists
      let s := stable_node_hash_max s sn pfn hash
      if tn.count = 1 then
        match bstRootVal tn.sub_root with
        | none => updSnod s sn fun x => { x with tree_node := none }
        | some other =>
          match get_ksm_page s other true false with
          | (some opfn, s) =>
              let s := stable_node_hash_max s other opfn hash
              let cmp := hash_cmp (s.snods sn).hash_max (s.snods other).hash_max
              if cmp = 0 then updSnod s sn fun x => { x with tree_node := none }
              else add_node s tn.hash
          | (none, s) =>
              -- the only stable_node deleted; reuse the tree node
              add_node s tn.hash
      else
        match bstFind (fun j => (s.snods j).hash_max) (s.snods sn).hash_max
            tn.sub_root with
        | some _ => updSnod s sn fun x => { x with tree_node := none }
        | none => add_node s tn.hash
  | none =>
      -- no tree node found: allocate one (zalloc, count 0) and insert
      let tn : STreeNode := { hash := hash, count := 0, sub_root := .nil }
      let s := { s with stable_root := bstInsert (STreeNode.hash) hash tn s.stable_root }
      add_node s hash

/-- `stable_tree_delta_hash(prev_hash_strength)` (lines 3089-3143):
re-key every stable node under the new strength into a fresh root,
using `delta_hash` from the old first-level hash where the node still
has a tree node, or a full hash otherwise. -/
def stable_tree_delta_hash (s : KState) (prev_hash_strength : Nat) : KState :=
  let snapshot := s.sn_all_list
  let s :=
    { s with
      stable_tree_index := (s.stable_tree_index + 1) % 2,
      stable_root := .nil }
  snapshot.foldl (fun s sn =>
    match get_ksm_page s sn false false with
    | (none, s) => s
    | (some pfn, s) =>
        let hash :=
          match (s.snods sn).tree_node with
          | some tnh =>
              delta_hash (s.pages pfn).content s.random_nums
                prev_hash_strength s.hash_strength tnh
          | none => (page_hash s pfn s.hash_strength false).1
        stable_node_reinsert s sn pfn hash) s

/-- `inc_hash_strength(delta)` (lines 3145-3150). -/
def inc_hash_strength (s : KState) (delta : Nat) : KState :=
  let hs := s.hash_strength + (1 <<< delta)
  { s with hash_strength := if hs > HASH_STRENGTH_MAX then HASH_STRENGTH_MAX else hs }

/-- `dec_hash_strength(delta)` (lines 3152-3160). -/
def dec_hash_strength (s : KState) (delta : Nat) : KState :=
  let change := 1 <<< delta
  { s with hash_strength :=
      if s.hash_strength ≤ change + 1 then 1 else s.hash_strength - change }

/-- `inc_hash_strength_delta()` (lines 3162-3167). -/
def inc_hash_strength_delta (s : KState) : KState :=
  let d := s.hash_strength_delta + 1
  { s with hash_strength_delta :=
      if d > HASH_STRENGTH_DELTA_MAX then HASH_STRENGTH_DELTA_MAX else d }

/-- `get_current_neg_ratio()` (lines 3169-3175). -/
def get_current_neg_ratio (s : KState) : Nat :=
  if s.rshash_pos = 0 ∨ s.rshash_neg > s.rshash_pos then 100
  else (100 * s.rshash_neg) % UL64 / s.rshash_pos

/-- `get_current_benefit()` (lines 3177-3184); only called under the
`pages_scanned != pages_scanned_last` guard of `rshash_adjust`. -/
def get_current_benefit (s : KState) : Nat :=
  if s.rshash_neg > s.rshash_pos then 0
  else (s.rshash_pos - s.rshash_neg) /
    (s.ksm_pages_scanned - s.ksm_pages_scanned_last)

def updRst (s : KState) (f : RshashStateS → RshashStateS) : KState :=
  { s with rshash_st := f s.rshash_st }

/-- `judge_rshash_direction()` (lines 3186-3241).  Note the `out:`
label resets `rshash_cont_obscure` and returns `STILL`, so the
`ret = GO_UP` and `ret = OBSCURE` assignments feeding `goto out` are
discarded; this is embedded exactly as written. -/
def judge_rshash_direction (s : KState) : RshashDirect × KState :=
  let cnr := get_current_neg_ratio s
  if cnr = 0 then
    let s := { s with rshash_neg_cont_zero := incUL s.rshash_neg_cont_zero }
    if s.rshash_neg_cont_zero > 2 then (.GO_DOWN, s) else (.STILL, s)
  else
    let s := { s with rshash_neg_cont_zero := 0 }
    if cnr > 90 then (.STILL, { s with rshash_cont_obscure := 0 })
    else if s.ksm_scan_round % 1024 = 3 then
      (.STILL, { s with rshash_cont_obscure := 0 })
    else
      let current_benefit := get_current_benefit s
      let stable_benefit := s.rshash_st.stable_benefit
      if stable_benefit = 0 then (.STILL, { s with rshash_cont_obscure := 0 })
      else
        let delta :=
          if current_benefit > stable_benefit then
            current_benefit - stable_benefit
          else if current_benefit < stable_benefit then
            stable_benefit - current_benefit
          else 0
        let delta := (100 * delta) % UL64 / stable_benefit
        if delta > 50 then
          let s := { s with rshash_cont_obscure := incUL s.rshash_cont_obscure }
          if s.rshash_cont_obscure > 2 then (.OBSCURE, s) else (.STILL, s)
        else (.STILL, { s with rshash_cont_obscure := 0 })

/-- The state-machine switch of `rshash_adjust` (lines 3255-3350). -/
def rshash_adjust_core (s : KState) : KState :=
  match s.rshash_st.state with
  | .STILL =>
      let rj := judge_rshash_direction s
      let dir := rj.1
      let s := rj.2
      match dir with
      | .GO_UP =>
          let s :=
            if s.rshash_st.pre_direct = RshashDirect.GO_DOWN then
              { s with hash_strength_delta := 0 }
            else s
          let s := inc_hash_strength s s.hash_strength_delta
          let s := inc_hash_strength_delta s
          updRst s fun r =>
            { r with stable_benefit := get_current_benefit s,
                     pre_direct := .GO_UP }
      | .GO_DOWN =>
          let s :=
            if s.rshash_st.pre_direct = RshashDirect.GO_UP then
              { s with hash_strength_delta := 0 }
            else s
          let s := dec_hash_strength s s.hash_strength_delta
          let s := inc_hash_strength_delta s
          updRst s fun r =>
            { r with stable_benefit := get_current_benefit s,
                     pre_direct := .GO_DOWN }
      | .OBSCURE =>
          let s := updRst s fun r =>
            { r with
              stable_point := s.hash_strength,
              turn_point_down := s.hash_strength,
              turn_point_up := s.hash_strength,
              turn_benefit_down := get_current_benefit s,
              turn_benefit_up := get_current_benefit s,
              lookup_window_index := 0,
              state := .TRYDOWN }
          let s := dec_hash_strength s s.hash_strength_delta
          inc_hash_strength_delta s
      | .STILL => s
  | .TRYDOWN =>
      let lwi := s.rshash_st.lookup_window_index
      let s := updRst s fun r =>
        { r with lookup_window_index := (lwi + 1) % 256 }
      let s :=
        if lwi % 5 = 0 then updRst s fun r => { r with below_count := 0 }
        else s
      let s :=
        if get_current_benefit s < s.rshash_st.stable_benefit then
          updRst s fun r =>
            { r with below_count := (r.below_count + 1) % 256 }
        else if get_current_benefit s > s.rshash_st.turn_benefit_down then
          updRst s fun r =>
            { r with turn_point_down := s.hash_strength,
                     turn_benefit_down := get_current_benefit s }
        else s
      let go_up := fun (s : KState) =>
        let s := { s with hash_strength := s.rshash_st.stable_point,
                          hash_strength_delta := 0 }
        let s := inc_hash_strength s s.hash_strength_delta
        let s := inc_hash_strength_delta s
        let s := updRst s fun r =>
          { r with lookup_window_index := 0, state := .TRYUP }
        { s with hash_strength_delta := 0 }
      if s.rshash_st.below_count ≥ 3 then go_up s
      else
        let rj := judge_rshash_direction s
        let dir := rj.1
        let s := rj.2
        if dir = RshashDirect.GO_UP then go_up s
        else
          let s := dec_hash_strength s s.hash_strength_delta
          inc_hash_strength_delta s
  | .TRYUP =>
      let lwi := s.rshash_st.lookup_window_index
      let s := updRst s fun r =>
        { r with lookup_window_index := (lwi + 1) % 256 }
      let s :=
        if lwi % 5 = 0 then updRst s fun r => { r with below_count := 0 }
        else s
      let s :=
        if get_current_benefit s < s.rshash_st.stable_benefit then
          updRst s fun r =>
            { r with below_count := (r.below_count + 1) % 256 }
        else if get_current_benefit s > s.rshash_st.turn_benefit_up then
          updRst s fun r =>
            { r with turn_point_up := s.hash_strength,
                     turn_benefit_up := get_current_benefit s }
        else s
      let commit := fun (s : KState) =>
        let hs :=
          if s.rshash_st.turn_benefit_up > s.rshash_st.turn_benefit_down
          then s.rshash_st.turn_point_up
          else s.rshash_st.turn_point_down
        updRst { s with hash_strength := hs } fun r =>
          { r with state := .PRE_STILL }
      if s.rshash_st.below_count ≥ 3 then commit s
      else
        let rj := judge_rshash_direction s
        let dir := rj.1
        let s := rj.2
        if dir = RshashDirect.GO_DOWN then commit s
        else
          let s := inc_hash_strength s s.hash_strength_delta
          inc_hash_strength_delta s
  | .NEW =>
      let s := updRst s fun r =>
        { r with stable_benefit := get_current_benefit s, state := .STILL }
      { s with hash_strength_delta := 0 }
  | .PRE_STILL =>
      let s := updRst s fun r =>
        { r with stable_benefit := get_current_benefit s, state := .STILL }
      { s with hash_strength_delta := 0 }

/-- `rshash_adjust()` (lines 3247-3364). -/
def rshash_adjust (s : KState) : KState :=
  if s.ksm_pages_scanned = s.ksm_pages_scanned_last then s
  else
    let prev_hash_strength := s.hash_strength
    let s := rshash_adjust_core s
    let s := { s with rshash_neg := 0, rshash_pos := 0 }
    if prev_hash_strength ≠ s.hash_strength then
      stable_tree_delta_hash s prev_hash_strength
    else s

/-! ### The per-round update (`mm/ksm.c` lines 3387-3472) and the
round-finished block of `ksm_do_scan` (lines 3738-3745) -/

/-- The first loop of `round_update_ladder` (lines 3395-3407): compute
every tracked slot's dedup ratio, the maximum and the sum for the
mean; the accumulator is `none` once a `cal_dedup_ratio` had no
defined result. -/
def rul_step1 (acc : Option (KState × Nat × Nat)) (i : Nat) :
    Option (KState × Nat × Nat) :=
  match acc with
  | none => none
  | some (s, dmax, dmean) =>
    match s.vma_table i with
    | none => some (s, dmax, dmean)
    | some sl =>
      match cal_dedup_ratio s sl with
      | none => none
      | some dr =>
          let s := updSlot s sl fun x => { x with dedup_ratio := dr }
          some (s, if dmax < dr then dr else dmax, addUL dmean dr)

/-- The second loop of `round_update_ladder` (lines 3409-3427): move
every tracked slot up or down, clear its rows of the inter-vma table
and drop it from the table. -/
def rul_step2 (threshold : Nat) (s : KState) (i : Nat) : KState :=
  match s.vma_table i with
  | none => s
  | some sl =>
      let s :=
        if (s.slots sl).dedup_ratio ≠ 0 ∧
            (s.slots sl).dedup_ratio ≥ threshold then
          vma_rung_up s sl
        else vma_rung_down s sl
      let s := ksm_intertab_clear s sl
      let s :=
        { s with
          vma_table_num := decUL s.vma_table_num,
          vma_table := fun k => if k = i then none else s.vma_table k }
      updSlot s sl fun x =>
        { x with ksm_index := -1, slot_scanned := false,
                 dedup_ratio := 0 }

/-- The third loop of `round_update_ladder` (lines 3430-3445): demote
the scanned slots that had no duplication. -/
def rul_step3 (s : KState) (i : Nat) : KState :=
  ((s.rungs i).vma_list).foldl (fun s sl =>
    let s :=
      if (s.slots sl).slot_scanned then vma_rung_down s sl else s
    updSlot s sl fun x => { x with dedup_ratio := 0 }) s

/-- The fourth loop of `round_update_ladder` (lines 3450-3470): reset
the per-round slot counters and flags. -/
def rul_step4 (s : KState) (i : Nat) : KState :=
  let s := updRung s i fun r => { r with round_finished := false }
  ((s.rungs i).vma_list).foldl (fun s sl =>
    let fully := (s.slots sl).fully_scanned
    let s := updSlot s sl fun x =>
      { x with last_scanned := x.pages_scanned, slot_scanned := false,
               pages_cowed := 0, pages_merged := 0,
               fully_scanned := false }
    if fully then
      updRung s i fun r =>
        { r with fully_scanned_slots := decUL r.fully_scanned_slots }
    else s) s

/-- `round_update_ladder()`.  `none` marks executions with no defined
result: a `cal_dedup_ratio` division by zero, the mean division when
no slot is tracked, or a firing `BUG_ON`. -/
def round_update_ladder (s : KState) : Option KState :=
  match (List.range s.vma_table_index_end).foldl rul_step1 (some (s, 0, 0)) with
  | none => none
  | some (s, _dedup_ratio_max, dedup_ratio_mean) =>
    if s.vma_slot_num = 0 then none  -- division by zero
    else
      let threshold := dedup_ratio_mean / s.vma_slot_num
      let s := (List.range s.vma_table_index_end).foldl (rul_step2 threshold) s
      let s := (List.range ksm_scan_ladder_size).foldl rul_step3 s
      let s := { s with vma_table_index_end := 0 }
      let s := (List.range ksm_scan_ladder_size).foldl rul_step4 s
      let s := rshash_adjust s
      some { s with ksm_pages_scanned_last := s.ksm_pages_scanned }

/-- The round-finished block of `ksm_do_scan` (lines 3738-3745):
`round_update_ladder(); ksm_scan_round++; root_unstable_tree =
RB_ROOT; free_all_tree_nodes(&unstable_tree_node_list);`. -/
def scan_round_finish (s : KState) : Option KState :=
  match round_update_ladder s with
  | none => none
  | some s =>
      let s := { s with ksm_scan_round := incUL s.ksm_scan_round }
      some { s with unstable_root := .nil, unstable_tree_nodes := [] }

/-! ## Concrete fixtures -/

def basePage : PageM :=
  { content := fun _ => 0, ksm := false, stable := none,
    anon := true, ref_zero := false }

def baseItem : RmapItem :=
  { slot := 0, addr_stable := false, addr_unstable := false, hash_max := 0,
    append_round := 0, pfn := 0, head_sn := 0, utree_hash := 0 }

def baseSlot : VmaSlotM :=
  { ksm_index := -1, pages := 0, pages_scanned := 0, last_scanned := 0,
    pages_cowed := 0, pages_merged := 0, dedup_ratio := 0, rung := 0,
    slot_scanned := false, fully_scanned := false, pages_to_scan := 0 }

def baseRung : RungM :=
  { scan_ratio := 0, vma_list := [], vma_num := 0, fully_scanned_slots := 0,
    pages_to_scan := 0, round_finished := false }

def baseRst : RshashStateS :=
  { state := .NEW, pre_direct := .GO_UP, below_count := 0,
    lookup_window_index := 0, stable_benefit := 0, turn_point_down := 0,
    turn_benefit_down := 0, turn_point_up := 0, turn_benefit_up := 0,
    stable_point := 0 }

/-- An idle engine state right after initialisation
(`hash_strength = HASH_STRENGTH_FULL >> 4`, round 1, all structures
empty, a measured `memcmp_cost` of 100). -/
def baseState : KState :=
  { items := fun _ => baseItem, item_ids := [], pages := fun _ => basePage,
    snods := fun _ => { kpfn := 0, hash_max := 0, tree_node := none, hlist := [] },
    sn_next := 0, sn_all_list := [], stable_root := .nil, stable_tree_index := 0,
    unstable_root := .nil, unstable_tree_nodes := [],
    ksm_pages_shared := 0, ksm_pages_sharing := 0, ksm_pages_unshared := 0,
    ksm_pages_scanned := 0, ksm_pages_scanned_last := 0,
    rshash_pos := 0, rshash_neg := 0,
    hash_strength := HASH_STRENGTH_FULL >>> 4, hash_strength_delta := 0,
    memcmp_cost := 100, rshash_neg_cont_zero := 0, rshash_cont_obscure := 0,
    rshash_st := baseRst, ksm_scan_round := 1, random_nums := fun i => i,
    inter_vma_table := fun _ => 0, vma_table := fun _ => none,
    vma_table_num := 0, vma_table_index_end := 0,
    slots := fun _ => baseSlot,
    rungs := fun i => { baseRung with scan_ratio := init_scan_ratio i },
    vma_slot_num := 0, thrash_threshold := 0 }

/-- All host primitives succeed. -/
def baseOracle : Oracle :=
  { trylock_page := fun _ => true, write_protect_ok := fun _ => true,
    replace_page_ok := fun _ => true, pte_ok := fun _ => true,
    ksm_test_exit := fun _ => false, get_tree_item_err := fun _ => 0,
    alloc_ok := true }

/-! ## C9 -/

set_option maxRecDepth 40000 in
/-- C9.  The bookkeeping of the inter-area table is NOT confined to the
allocated bounds: (a) when all `KSM_DUP_VMA_MAX = 2048` entries of
`ksm_vma_table` are occupied, the search loop of
`enter_inter_vma_table` (`for (i = 0; i <= ksm_vma_table_size; i++)`)
probes index 2048, one past the last allocated element, violating
"every index used to read or write ksm_vma_table is strictly less than
2048"; (b) the triangular offset of the pair (2047, 1024) is
2 097 152, which is not below the number of `unsigned int` entries
(`KSM_DUP_VMA_MAX²/2 = 2 097 152`) allocated for `ksm_inter_vma_table`
in `ksm_init`, so `inc_vma_intertab_pair` on that pair writes past the
allocation. -/
theorem inter_vma_table_access_out_of_bounds :
    enter_table_probe (fun i => if i < KSM_DUP_VMA_MAX then some 0 else none) =
      KSM_DUP_VMA_MAX ∧
    ¬ enter_table_probe (fun i => if i < KSM_DUP_VMA_MAX then some 0 else none) <
      KSM_DUP_VMA_MAX ∧
    ¬ intertab_vma_offset (KSM_DUP_VMA_MAX - 1) 1024 < inter_vma_table_entries := by
  refine ⟨?_, ?_, ?_⟩
  · decide
  · decide
  · decide

/-! ## C10 -/

theorem foldl_option_ne_none {α β : Type} (step : β → α → Option β) :
    ∀ (l : List α) (d : β), (∀ d x, x ∈ l → step d x ≠ none) →
      option_step_fold step l d ≠ none := by
  intro l
  induction l with
  | nil => intro d _ h; simp [option_step_fold] at h
  | cons x xs ih =>
      intro d hstep
      have h1 : step d x ≠ none := hstep d x (by simp)
      cases hx : step d x with
      | none => exact absurd hx h1
      | some d' =>
          have heval : option_step_fold step (x :: xs) d =
              option_step_fold step xs d' := by
            simp [option_step_fold, List.foldl, hx]
          rw [heval]
          exact ih d' (fun d y hy => hstep d y (by simp [hy]))

/-- The `BUG_ON`-free side conditions of `cal_dedup_ratio` for slot
`sl`: per-slot scan counters are monotone and non-zero inter-vma
entries only pair slots with progress this round (exactly the
assertions `BUG_ON(scanned > pages_scanned)` and
`BUG_ON(table[index] && (!scanned1 || !scanned2))`), and the area has
pages. -/
def dedup_wf (s : KState) (sl : Nat) : Prop :=
  (s.slots sl).last_scanned ≤ (s.slots sl).pages_scanned ∧
  (s.slots sl).pages ≠ 0 ∧
  (∀ i sl2, i < s.vma_table_index_end → s.vma_table i = some sl2 →
    (s.slots sl2).last_scanned ≤ (s.slots sl2).pages_scanned) ∧
  (∀ i sl2, i < s.vma_table_index_end → s.vma_table i = some sl2 →
    s.inter_vma_table (intertab_vma_offset (s.slots sl).ksm_index.toNat i) ≠ 0 →
    (s.slots sl).pages_scanned - (s.slots sl).last_scanned ≠ 0 ∧
    (s.slots sl2).pages_scanned - (s.slots sl2).last_scanned ≠ 0) ∧
  (s.inter_vma_table (intertab_vma_offset (s.slots sl).ksm_index.toNat
      (s.slots sl).ksm_index.toNat) ≠ 0 →
    (s.slots sl).pages_scanned - (s.slots sl).last_scanned ≠ 0)

/-- C10.  Under the code's own `BUG_ON` assertions, `cal_dedup_ratio`
has a defined result exactly when thrash filtering is disabled
(`ksm_thrash_threshold == 0`), or the slot merged at least one page
this round, or the slot was never scanned (early `return 0`): the
thrash filter divides `pages_cowed * 100` and the ratio by
`pages_merged` with no guard against zero. -/
theorem cal_dedup_ratio_total_iff (s : KState) (sl : Nat)
    (hwf : dedup_wf s sl) :
    (cal_dedup_ratio s sl).isSome ↔
      (s.thrash_threshold = 0 ∨ (s.slots sl).pages_merged ≠ 0 ∨
        (s.slots sl).pages_scanned = 0) := by
  obtain ⟨hls, hpg, hls2, hpair, hdiag⟩ := hwf
  unfold cal_dedup_ratio
  by_cases h0 : (s.slots sl).pages_scanned = 0
  · simp [h0]
  · rw [if_neg h0, if_neg (by omega)]
    have hloop : ∀ (d : Nat) (i : Nat), i ∈ List.range s.vma_table_index_end →
        cal_dedup_step s sl d i ≠ none := by
      intro d i hi
      simp only [List.mem_range] at hi
      unfold cal_dedup_step
      cases ht : s.vma_table i with
      | none => simp
      | some sl2 =>
          simp only []
          by_cases hself : (i : Int) = (s.slots sl).ksm_index ∨
            (s.slots sl2).pages_scanned = 0
          · simp [hself]
          · have hle2 := hls2 i sl2 hi ht
            rw [if_neg hself, if_neg (by omega :
              ¬ (s.slots sl2).last_scanned > (s.slots sl2).pages_scanned)]
            by_cases hent : s.inter_vma_table
                (intertab_vma_offset (s.slots sl).ksm_index.toNat i) ≠ 0
            · have hp := hpair i sl2 hi ht hent
              rw [if_neg ?hside, if_pos hent]
              · simp
              case hside => intro hcon; rcases hcon.2 with hz | hz
                            · exact hp.1 hz
                            · exact hp.2 hz
            · rw [if_neg (fun hcon => hent hcon.1), if_neg hent]
              simp
    have hfold := foldl_option_ne_none (cal_dedup_step s sl)
      (List.range s.vma_table_index_end) 0 hloop
    cases hf : option_step_fold (cal_dedup_step s sl)
        (List.range s.vma_table_index_end) 0 with
    | none => exact absurd hf hfold
    | some dedup =>
        simp only [hf]
        rw [if_neg (fun hcon => (hdiag hcon.1) hcon.2)]
        rw [if_neg hpg]
        by_cases hth : s.thrash_threshold = 0
        · simp [hth]
        · rw [if_pos hth]
          by_cases hm : (s.slots sl).pages_merged = 0
          · rw [if_pos hm]
            simp [hth, hm, h0]
          · rw [if_neg hm]
            by_cases hc : (s.slots sl).pages_cowed * 100 /
                (s.slots sl).pages_merged > s.thrash_threshold
            · simp [hc, hm]
            · simp [hc, hm]

/-- A slot scanned this round (one page, one visit) that merged
nothing, with thrash filtering enabled. -/
def c10s : KState :=
  { baseState with
    thrash_threshold := 10,
    slots := fun _ => { baseSlot with pages := 1, pages_scanned := 1 } }

/-- Witness for C10: on `c10s`, slot 0 satisfies the `BUG_ON`-free
side conditions, yet `cal_dedup_ratio` has no defined result — the
thrash filter divides by `pages_merged = 0`. -/
theorem cal_dedup_ratio_total_iff_witness :
    dedup_wf c10s 0 ∧ cal_dedup_ratio c10s 0 = none := by
  have hwf : dedup_wf c10s 0 :=
    ⟨by decide, by decide, fun i sl2 hi => absurd hi (Nat.not_lt_zero i),
      fun i sl2 hi => absurd hi (Nat.not_lt_zero i), fun _ => by decide⟩
  refine ⟨hwf, ?_⟩
  have hiff := cal_dedup_ratio_total_iff c10s 0 hwf
  cases hv : cal_dedup_ratio c10s 0 with
  | none => rfl
  | some v =>
      rw [hv] at hiff
      simp only [Option.isSome_some, true_iff] at hiff
      exact absurd hiff (by decide)

/-! ## C5

Only `page_hash(page, hash_strength, 1)` ever adds to `rshash_pos`,
and `cmp_and_merge_page` invokes it with cost accounting exactly once,
before either tree is searched.  The lemmas below check that no other
function of the merge path touches `rshash_pos`. -/

theorem foldl_proj {α β : Type} (proj : KState → β) (g : KState → α → KState)
    (h : ∀ s x, proj (g s x) = proj s) :
    ∀ (l : List α) (s : KState), proj (l.foldl g s) = proj s := by
  intro l
  induction l with
  | nil => intro s; rfl
  | cons x xs ih => intro s; rw [List.foldl_cons, ih, h]

theorem pos_updItem (s : KState) (it : Nat) (f : RmapItem → RmapItem) :
    (updItem s it f).rshash_pos = s.rshash_pos := rfl

theorem pos_updSnod (s : KState) (sn : Nat) (f : StableNode → StableNode) :
    (updSnod s sn f).rshash_pos = s.rshash_pos := rfl

theorem pos_updPage (s : KState) (p : Nat) (f : PageM → PageM) :
    (updPage s p f).rshash_pos = s.rshash_pos := rfl

theorem pos_updSlot (s : KState) (sl : Nat) (f : VmaSlotM → VmaSlotM) :
    (updSlot s sl f).rshash_pos = s.rshash_pos := rfl

theorem pos_remove_node_hlists (s : KState) (sn : Nat) :
    (remove_node_hlists s sn).rshash_pos = s.rshash_pos := by
  unfold remove_node_hlists
  simp only []
  split
  · rfl
  · show (List.foldl (fun s nv => List.foldl remove_node_one_item s nv.rmap_hlist)
      s (s.snods sn).hlist).rshash_pos = s.rshash_pos
    refine foldl_proj KState.rshash_pos _ (fun s nv => ?_) _ s
    refine foldl_proj KState.rshash_pos _ ?_ nv.rmap_hlist s
    intro s it
    rfl

theorem pos_remove_node_unlink_rb (s : KState) (sn : Nat) (u r : Bool) :
    (remove_node_unlink_rb s sn u r).rshash_pos = s.rshash_pos := by
  unfold remove_node_unlink_rb
  split
  · split
    · rfl
    · simp only []
      split <;> rfl
  · rfl

theorem pos_remove_node_from_stable_tree (s : KState) (sn : Nat)
    (u r : Bool) :
    (remove_node_from_stable_tree s sn u r).rshash_pos = s.rshash_pos := by
  unfold remove_node_from_stable_tree
  simp [pos_remove_node_unlink_rb, pos_remove_node_hlists]

theorem pos_get_ksm_page (s : KState) (sn : Nat) (u r : Bool) :
    ((get_ksm_page s sn u r).2).rshash_pos = s.rshash_pos := by
  unfold get_ksm_page
  simp only []
  split <;> simp [pos_remove_node_from_stable_tree]

theorem pos_remove_rmap_item_from_tree (s : KState) (it : Nat) :
    (remove_rmap_item_from_tree s it).rshash_pos = s.rshash_pos := by
  unfold remove_rmap_item_from_tree
  simp only []
  split
  · split
    next s2 heq =>
      have h2 := pos_get_ksm_page s (s.items it).head_sn true true
      rw [heq] at h2
      exact h2
    next val s2 heq =>
      have h2 := pos_get_ksm_page s (s.items it).head_sn true true
      rw [heq] at h2
      split <;> exact h2
  · repeat first
      | rfl
      | split

theorem strength_remove_node_from_stable_tree (s : KState) (sn : Nat)
    (u r : Bool) :
    (remove_node_from_stable_tree s sn u r).hash_strength =
      s.hash_strength := by
  have h1 : (remove_node_hlists s sn).hash_strength = s.hash_strength := by
    unfold remove_node_hlists
    simp only []
    split
    · rfl
    · show (List.foldl (fun s nv => List.foldl remove_node_one_item s nv.rmap_hlist)
        s (s.snods sn).hlist).hash_strength = s.hash_strength
      refine foldl_proj KState.hash_strength _ (fun s nv => ?_) _ s
      refine foldl_proj KState.hash_strength _ ?_ nv.rmap_hlist s
      intro s it
      rfl
  have h2 : ∀ (s : KState), (remove_node_unlink_rb s sn u r).hash_strength =
      s.hash_strength := by
    intro s
    unfold remove_node_unlink_rb
    split
    · split
      · rfl
      · simp only []
        split <;> rfl
    · rfl
  unfold remove_node_from_stable_tree
  simp [h1, h2]

theorem strength_get_ksm_page (s : KState) (sn : Nat) (u r : Bool) :
    ((get_ksm_page s sn u r).2).hash_strength = s.hash_strength := by
  unfold get_ksm_page
  simp only []
  split <;> simp [strength_remove_node_from_stable_tree]

theorem strength_remove_rmap_item_from_tree (s : KState) (it : Nat) :
    (remove_rmap_item_from_tree s it).hash_strength = s.hash_strength := by
  unfold remove_rmap_item_from_tree
  simp only []
  split
  · split
    next s2 heq =>
      have h2 := strength_get_ksm_page s (s.items it).head_sn true true
      rw [heq] at h2
      exact h2
    next val s2 heq =>
      have h2 := strength_get_ksm_page s (s.items it).head_sn true true
      rw [heq] at h2
      split <;> exact h2
  · repeat first
      | rfl
      | split

theorem pos_rmap_item_hash_max (s : KState) (it hash : Nat) :
    ((rmap_item_hash_max s it hash).2).rshash_pos = s.rshash_pos := by
  unfold rmap_item_hash_max page_hash_max
  simp only []
  split <;> rfl

theorem pos_stable_node_hash_max (s : KState) (sn pfn hash : Nat) :
    (stable_node_hash_max s sn pfn hash).rshash_pos = s.rshash_pos := by
  unfold stable_node_hash_max page_hash_max
  simp only []
  split <;> rfl

theorem pos_stable_tree_search (s : KState) (it hash : Nat) :
    ((stable_tree_search s it hash).2).rshash_pos = s.rshash_pos := by
  unfold stable_tree_search
  simp only []
  split
  · rfl
  · split
    · rfl
    · split
      · split
        · rfl
        · simp [pos_get_ksm_page]
      · split
        · exact pos_rmap_item_hash_max s it hash
        · simp [pos_get_ksm_page, pos_rmap_item_hash_max]

theorem pos_check_collision (s : KState) (it hash : Nat) :
    ((check_collision s it hash).2).rshash_pos = s.rshash_pos := by
  unfold check_collision page_hash_max page_hash
  simp only []
  repeat first
    | rfl
    | contradiction
    | split

theorem pos_try_to_merge_with_ksm_page (s : KState) (o : Oracle)
    (it kpage hash : Nat) :
    ((try_to_merge_with_ksm_page s o it kpage hash).2).rshash_pos =
      s.rshash_pos := by
  unfold try_to_merge_with_ksm_page
  simp only []
  split
  · rfl
  · split
    · rfl
    · split
      · rfl
      · split
        · rfl
        · split
          · split
            · split <;> rfl
            · simp [pos_check_collision]
          · rfl

/-- `page_hash` without cost accounting is a pure hash computation. -/
theorem page_hash_nocost (s : KState) (pfn st : Nat) :
    page_hash s pfn st false =
      (random_sample_hash (s.pages pfn).content s.random_nums st, s) := rfl

/-- A projection is constant across an `if` when it is constant on
both branches. -/
theorem pos_ite {c : Prop} [Decidable c] {a b : KState} {x : Nat}
    (h1 : a.rshash_pos = x) (h2 : b.rshash_pos = x) :
    (if c then a else b).rshash_pos = x := by
  split
  · exact h1
  · exact h2

theorem pos_ite_pair {α : Type} {c : Prop} [Decidable c] {a b : α × KState}
    {x : Nat} (h1 : a.2.rshash_pos = x) (h2 : b.2.rshash_pos = x) :
    (if c then a else b).2.rshash_pos = x := by
  split
  · exact h1
  · exact h2

set_option maxRecDepth 40000

theorem pos_memcmp_pages (s : KState) (p1 p2 : Nat) (c : Bool) :
    ((memcmp_pages s p1 p2 c).2).rshash_pos = s.rshash_pos := by
  unfold memcmp_pages
  simp only []
  split <;> rfl

theorem pos_try_merge_with_stable (s : KState) (o : Oracle)
    (it1 it2 oldp treep : Nat) :
    ((try_merge_with_stable s o it1 it2 oldp treep).2).rshash_pos =
      s.rshash_pos := by
  unfold try_merge_with_stable
  repeat first
    | rfl
    | split

theorem pos_try_to_merge_two_pages (s : KState) (o : Oracle)
    (it1 it2 hash : Nat) :
    ((try_to_merge_two_pages s o it1 it2 hash).2).rshash_pos =
      s.rshash_pos := by
  unfold try_to_merge_two_pages
  simp only [page_hash_nocost]
  repeat first
    | apply pos_ite_pair
    | rfl

theorem pos_new_stable_node (s : KState) (tn : Option Nat) (kpfn hm : Nat) :
    ((new_stable_node s tn kpfn hm).2).rshash_pos = s.rshash_pos := rfl

theorem pos_stable_sub_insert (s : KState) (tnh snid : Nat) :
    (stable_sub_insert s tnh snid).rshash_pos = s.rshash_pos := rfl

theorem pos_first_level_insert (s : KState) (o : Oracle)
    (tnh it1 it2 kpfn hash : Nat) :
    ((first_level_insert s o tnh it1 it2 kpfn hash).2).rshash_pos =
      s.rshash_pos := by
  unfold first_level_insert
  simp only []
  repeat' first
    | apply pos_ite_pair
    | apply pos_ite
    | contradiction
    | rfl
    | split
  all_goals
    simp [pos_get_ksm_page, pos_remove_node_from_stable_tree,
      pos_remove_rmap_item_from_tree, pos_memcmp_pages,
      pos_try_merge_with_stable, pos_stable_node_hash_max,
      pos_rmap_item_hash_max, pos_new_stable_node, pos_stable_sub_insert]

theorem pos_stable_subtree_insert (o : Oracle) (tnh it1 it2 kpfn hash : Nat) :
    ∀ (fuel : Nat) (s : KState),
      ((stable_subtree_insert s o tnh it1 it2 kpfn hash fuel).2).rshash_pos =
        s.rshash_pos := by
  intro fuel
  induction fuel with
  | zero => intro s; rfl
  | succ n ih =>
      intro s
      unfold stable_subtree_insert
      simp only []
      repeat' first
        | apply pos_ite_pair
        | apply pos_ite
        | contradiction
        | rfl
        | split
      all_goals
        simp [pos_get_ksm_page, pos_remove_node_from_stable_tree,
      pos_remove_rmap_item_from_tree, pos_memcmp_pages,
      pos_try_merge_with_stable, pos_stable_node_hash_max,
      pos_rmap_item_hash_max, pos_new_stable_node, pos_stable_sub_insert,
          ih]

theorem pos_stable_tree_insert (s : KState) (o : Oracle)
    (kpfn hash it1 it2 : Nat) :
    ((stable_tree_insert s o kpfn hash it1 it2).2).rshash_pos =
      s.rshash_pos := by
  unfold stable_tree_insert
  simp only []
  repeat' first
    | apply pos_ite_pair
    | apply pos_ite
    | contradiction
    | rfl
    | split
  all_goals
    simp [pos_first_level_insert, pos_stable_subtree_insert,
      pos_get_ksm_page, pos_remove_node_from_stable_tree,
      pos_remove_rmap_item_from_tree, pos_memcmp_pages,
      pos_try_merge_with_stable, pos_stable_node_hash_max,
      pos_rmap_item_hash_max, pos_new_stable_node, pos_stable_sub_insert]

theorem pos_get_tree_rmap_item_page (s : KState) (o : Oracle) (trit : Nat) :
    ((get_tree_rmap_item_page s o trit).2).rshash_pos = s.rshash_pos := by
  unfold get_tree_rmap_item_page
  simp only []
  split
  · simp [pos_remove_rmap_item_from_tree]
  · rfl

theorem pos_unstable_install (s : KState) (it tnh : Nat) :
    (unstable_install s it tnh).rshash_pos = s.rshash_pos := rfl

theorem pos_unstable_tree_search_insert (s : KState) (o : Oracle)
    (it hash : Nat) :
    ((unstable_tree_search_insert s o it hash).2).rshash_pos =
      s.rshash_pos := by
  unfold unstable_tree_search_insert
  simp only []
  split
  · split
    · split
      · rfl
      · split
        · rfl
        · split
          all_goals simp [pos_get_tree_rmap_item_page]
    · split
      · split
        · simp [pos_rmap_item_hash_max]
        · split
          all_goals
            simp [pos_get_tree_rmap_item_page, pos_rmap_item_hash_max]
      · simp [pos_unstable_install, pos_rmap_item_hash_max]
  · split
    · rfl
    · simp [pos_unstable_install]

theorem pos_enter_inter_vma_table (s : KState) (sl : Nat) :
    (enter_inter_vma_table s sl).rshash_pos = s.rshash_pos := by
  unfold enter_inter_vma_table
  simp only []
  split <;> rfl

theorem pos_inc_vma_intertab_pair (s : KState) (sl1 sl2 : Nat) :
    (inc_vma_intertab_pair s sl1 sl2).rshash_pos = s.rshash_pos := by
  unfold inc_vma_intertab_pair
  simp only []
  repeat first
    | apply pos_ite
    | rfl
  all_goals simp [pos_enter_inter_vma_table]

theorem pos_dec_vma_intertab_pair (s : KState) (sl1 sl2 : Nat) :
    (dec_vma_intertab_pair s sl1 sl2).rshash_pos = s.rshash_pos := rfl

theorem pos_fold_inc (key round : Nat) (l : List NodeVma) (s : KState) :
    (l.foldl (fun s nv =>
        if nv.last_update = round then inc_vma_intertab_pair s key nv.key
        else s) s).rshash_pos = s.rshash_pos := by
  refine foldl_proj KState.rshash_pos _ ?_ l s
  intro s nv
  by_cases h : nv.last_update = round
  · simp [h, pos_inc_vma_intertab_pair]
  · simp [h]

theorem pos_fold_dec (key round : Nat) (l : List NodeVma) (s : KState) :
    (l.foldl (fun s nv =>
        if nv.last_update = round then dec_vma_intertab_pair s key nv.key
        else s) s).rshash_pos = s.rshash_pos := by
  refine foldl_proj KState.rshash_pos _ ?_ l s
  intro s nv
  by_cases h : nv.last_update = round
  · simp [h, pos_dec_vma_intertab_pair]
  · simp [h]

theorem pos_stable_tree_append (s : KState) (it sn : Nat) :
    (stable_tree_append s it sn).rshash_pos = s.rshash_pos := by
  unfold stable_tree_append
  simp only []
  repeat' first
    | apply pos_ite
    | contradiction
    | rfl
    | split
  all_goals
    simp [updSlot, updSnod, updItem, pos_fold_inc, pos_fold_dec,
      pos_inc_vma_intertab_pair, pos_dec_vma_intertab_pair,
      pos_enter_inter_vma_table]

theorem pos_cmp_and_merge_unstable (s : KState) (o : Oracle) (it hash : Nat) :
    (cmp_and_merge_unstable s o it hash).rshash_pos = s.rshash_pos := by
  unfold cmp_and_merge_unstable break_cow
  simp only []
  split
  · simp [pos_unstable_tree_search_insert]
  · split
    all_goals (try split)
    all_goals (try split)
    all_goals (try split)
    all_goals (try split)
    all_goals
      simp [pos_stable_tree_append, pos_stable_tree_insert,
        pos_remove_rmap_item_from_tree, pos_try_to_merge_two_pages,
        pos_unstable_tree_search_insert, pos_rmap_item_hash_max,
        pos_unstable_install]

/-- `page_hash` with cost accounting on: the returned state credits
`rshash_pos += HASH_STRENGTH_FULL - hash_strength` (lines 922-928). -/
theorem page_hash_cost_true (s : KState) (pfn st : Nat) :
    page_hash s pfn st true =
      (random_sample_hash (s.pages pfn).content s.random_nums st,
        { s with
          rshash_pos := addUL s.rshash_pos (subUL HASH_STRENGTH_FULL st) }) :=
  rfl

/-! ## C5 -/

/-- C5 (amended): the claim says `rshash_pos` is credited only for a
successful first-level hash match; in the code `cmp_and_merge_page`
calls `page_hash(page, hash_strength, 1)` (line 2315) before any tree
lookup, and no later step of the merge path writes `rshash_pos`, so
every scanned page unconditionally credits
`rshash_pos += HASH_STRENGTH_FULL - hash_strength`, hit or miss. -/
theorem rshash_pos_credit_unconditional (s : KState) (o : Oracle) (it : Nat) :
    (cmp_and_merge_page s o it).rshash_pos =
      addUL s.rshash_pos (subUL HASH_STRENGTH_FULL s.hash_strength) := by
  unfold cmp_and_merge_page
  simp only [page_hash_cost_true]
  split
  all_goals (try split)
  all_goals (try split)
  all_goals (try split)
  all_goals
    simp [pos_stable_tree_search, pos_try_to_merge_with_ksm_page,
      pos_stable_tree_append, pos_cmp_and_merge_unstable,
      pos_remove_rmap_item_from_tree, strength_remove_rmap_item_from_tree]

/-- C5 (counterexample to the spec's wording): from the idle state both
trees are empty, so the page's hash finds no match at any level, yet
`rshash_pos` still moves from `0` to
`HASH_STRENGTH_FULL - (HASH_STRENGTH_FULL >> 4) = 960`. -/
theorem rshash_pos_credited_on_miss :
    baseState.stable_root = Bst.nil ∧
    baseState.unstable_root = Bst.nil ∧
    baseState.rshash_pos = 0 ∧
    (cmp_and_merge_page baseState baseOracle 0).rshash_pos = 960 :=
  ⟨rfl, rfl, rfl, rfl⟩

/-! ## C4 -/

/-- A stable tree holding one first-level node (hash `5`, `count == 1`)
whose single stable node points at frame `1`, a valid ksm page whose
content (all words `1`) differs from the query page's (frame `0`, all
words `0`). -/
def s4tn : STreeNode :=
  { hash := 5, count := 1, sub_root := .node .nil 0 .nil }

def s4 : KState :=
  { baseState with
    pages := fun j =>
      if j = 1 then
        { content := fun _ => 1, ksm := true, stable := some 0,
          anon := true, ref_zero := false }
      else basePage,
    snods := fun j =>
      if j = 0 then { kpfn := 1, hash_max := 0, tree_node := some 5, hlist := [] }
      else baseState.snods j,
    stable_root := .node .nil s4tn .nil }

/-- `check_collision` reports `-EEXIST` or `-EFAULT`, never success. -/
theorem check_collision_fst_ne_zero (s : KState) (it hash : Nat) :
    (check_collision s it hash).1 ≠ 0 := by
  unfold check_collision
  simp only []
  repeat' split
  all_goals simp [MERGE_ERR_COLLI, MERGE_ERR_CHANGED]

/-- C4 (amended): `stable_tree_search` reports a hit without any
content comparison (see `stable_tree_search_unverified_hit`); the full
memcmp only happens later, in `try_to_merge_with_ksm_page`, which
merges (returns `0`) only if the query page already was the ksm page
(fork) or `pages_identical` held at the comparison point. -/
theorem merge_verifies_content (s : KState) (o : Oracle) (it kpage hash : Nat)
    (h : (try_to_merge_with_ksm_page s o it kpage hash).1 = 0) :
    (s.items it).pfn = kpage ∨
      pages_identical s (s.items it).pfn kpage = true := by
  unfold try_to_merge_with_ksm_page at h
  simp only [] at h
  split at h
  · simp [MERGE_ERR_PGERR] at h
  · split at h
    next hfork => exact Or.inl hfork
    next =>
      split at h
      · simp [MERGE_ERR_PGERR] at h
      · split at h
        · simp [MERGE_ERR_PGERR] at h
        · split at h
          · split at h
            next hid =>
              exact Or.inr hid
            next =>
              exact absurd h (check_collision_fst_ne_zero _ _ _)
          · simp [MERGE_ERR_PGERR] at h

theorem merge_verifies_content_witness :
    (try_to_merge_with_ksm_page baseState baseOracle 0 0 0).1 = 0 ∧
    ((baseState.items 0).pfn = 0 ∨
      pages_identical baseState (baseState.items 0).pfn 0 = true) :=
  ⟨rfl, merge_verifies_content baseState baseOracle 0 0 0 rfl⟩

/-- C4 (counterexample to the spec's wording): the search hits the
`count == 1` node and returns stable page `1` although its content
differs from the query page's -- no memcmp is run before the hit is
reported. -/
theorem stable_tree_search_unverified_hit :
    Option.map STreeNode.count (bstFind STreeNode.hash 5 s4.stable_root) =
      some 1 ∧
    (stable_tree_search s4 0 5).1 = some 1 ∧
    pages_identical s4 (s4.items 0).pfn 1 = false :=
  ⟨rfl, rfl, by decide⟩

/-! ## C6 -/

/-- Page content of the earlier-scanned page (frame `1`): word 1 is
`7`, all other words `0`. -/
def c6A : Nat → Nat := fun i => if i = 1 then 7 else 0

/-- Page content of the later-scanned page (frame `0`): word 1 is `9`,
all other words `0`.  At `hash_strength = 1` only word 0 is sampled, so
both pages share their first-level hash while their contents differ. -/
def c6B : Nat → Nat := fun i => if i = 1 then 9 else 0

def it6A : RmapItem := { baseItem with slot := 1, pfn := 1 }

/-- The §8 scenario start state: `hash_strength = 1`, `memcmp_cost =
100`, empty trees, item `1` -> frame `1` (content `c6A`), item `0` ->
frame `0` (content `c6B`). -/
def s6 : KState :=
  { baseState with
    hash_strength := 1,
    items := fun j => if j = 1 then it6A else baseItem,
    pages := fun j =>
      if j = 0 then { basePage with content := c6B }
      else if j = 1 then { basePage with content := c6A }
      else basePage }

/-- The first-level hash both pages share at strength `1`. -/
def h6 : Nat := random_sample_hash c6A (fun i => i) 1

/-- The unstable tree node holding item `1` after the first scan:
allocated with `count = 0` (`kmem_cache_zalloc`) and never
incremented on the unstable path. -/
def tn6 : UTreeNode :=
  { hash := h6, count := 0, sub_root := Bst.node Bst.nil 1 Bst.nil }

/-- Item `1` as `unstable_tree_search_insert` leaves it: `UNSTABLE`
flag, `append_round` stamped, linked under `tn6`. -/
def it6Ains : RmapItem :=
  { it6A with addr_unstable := true, append_round := 1, utree_hash := h6 }

/-- The pre-collision state: the first page already parked in the
unstable tree (`cmp_and_merge_page s6 baseOracle 1` produces exactly
this tree and item, see the counterexample's first two conjuncts). -/
def s6P : KState :=
  { s6 with
    unstable_root := Bst.node Bst.nil tn6 Bst.nil,
    unstable_tree_nodes := [h6],
    items := fun j => if j = 1 then it6Ains else baseItem,
    ksm_pages_unshared := 1 }

/-- `rmap_item_hash_max` on an item whose `hash_max` is still unset
charges `rshash_neg += HASH_STRENGTH_MAX - hash_strength`
(`page_hash_max`, lines 1088-1104). -/
theorem neg_rmap_item_hash_max_zero (s : KState) (it hash : Nat)
    (h : (s.items it).hash_max = 0) :
    ((rmap_item_hash_max s it hash).2).rshash_neg =
      addUL s.rshash_neg (subUL HASH_STRENGTH_MAX s.hash_strength) := by
  unfold rmap_item_hash_max page_hash_max
  rw [if_pos h]

/-- `hash_max` values are never `0`: `page_hash_max` reserves it
(lines 1098-1100), and a stored non-zero `hash_max` is returned
as-is. -/
theorem rmap_item_hash_max_fst_ne_zero (s : KState) (it hash : Nat) :
    (rmap_item_hash_max s it hash).1 ≠ 0 := by
  unfold rmap_item_hash_max page_hash_max
  simp only []
  split
  · split
    · simp
    · next hd => exact hd
  · next hd => exact hd

theorem hash_cmp_pos_zero (x : Nat) (h : x ≠ 0) : hash_cmp x 0 = 1 := by
  unfold hash_cmp
  rw [if_pos (Nat.pos_of_ne_zero h)]

/-- A descent keyed above a single-entry tree's key goes right and
runs off the tree. -/
theorem bstFind_single_miss {α : Type} (kf : α → Nat) (key : Nat) (v : α)
    (h : hash_cmp key (kf v) = 1) :
    bstFind kf key (Bst.node Bst.nil v Bst.nil) = none := by
  unfold bstFind
  simp only []
  rw [h]
  rw [if_neg (by norm_num), if_pos (by norm_num)]
  rfl

/-- Core of the §8 collision accounting, shared by the claim theorem
and the concrete counterexample below. -/
theorem unstable_collision_neg_core (s : KState) (o : Oracle) (it hash : Nat)
    (tn : UTreeNode)
    (hfind : bstFind UTreeNode.hash hash s.unstable_root = some tn)
    (hcount : tn.count ≠ 1)
    (hhm : (s.items it).hash_max = 0)
    (hmiss : bstFind (fun j => (((rmap_item_hash_max s it hash).2).items j).hash_max)
        ((rmap_item_hash_max s it hash).1) tn.sub_root = none) :
    ((unstable_tree_search_insert s o it hash).2).rshash_neg =
      addUL s.rshash_neg (subUL HASH_STRENGTH_MAX s.hash_strength) := by
  unfold unstable_tree_search_insert
  simp only []
  rw [hfind]
  try simp only []
  rw [if_neg hcount]
  try simp only []
  rw [hmiss]
  exact neg_rmap_item_hash_max_zero s it hash hhm

/-- C6 (amended): in the §8 collision the later page reaches the
unstable tree node (`count != 1`, since the unstable path never
increments `count`), computes its `hash_max` for the sub-tree descent
and misses; it is installed as a sub-tree sibling and the whole step
charges `rshash_neg += HASH_STRENGTH_MAX - hash_strength` only -- no
memcmp ever runs on this path, so no `memcmp_cost` is charged. -/
theorem unstable_collision_neg_delta (s : KState) (o : Oracle) (it hash : Nat)
    (tn : UTreeNode)
    (hfind : bstFind UTreeNode.hash hash s.unstable_root = some tn)
    (hcount : tn.count ≠ 1)
    (hhm : (s.items it).hash_max = 0)
    (hmiss : bstFind (fun j => (((rmap_item_hash_max s it hash).2).items j).hash_max)
        ((rmap_item_hash_max s it hash).1) tn.sub_root = none) :
    ((unstable_tree_search_insert s o it hash).2).rshash_neg =
      addUL s.rshash_neg (subUL HASH_STRENGTH_MAX s.hash_strength) :=
  unstable_collision_neg_core s o it hash tn hfind hcount hhm hmiss

/-- The second page's sub-tree descent misses: its fresh `hash_max` is
non-zero while the parked sibling's is still `0`. -/
theorem s6P_submiss :
    bstFind (fun j => (((rmap_item_hash_max s6P 0 h6).2).items j).hash_max)
      ((rmap_item_hash_max s6P 0 h6).1) tn6.sub_root = none :=
  bstFind_single_miss _ _ 1
    (by rw [show (((rmap_item_hash_max s6P 0 h6).2).items 1).hash_max = 0
              from rfl]
        exact hash_cmp_pos_zero _ (rmap_item_hash_max_fst_ne_zero s6P 0 h6))

theorem unstable_collision_neg_delta_witness :
    (bstFind UTreeNode.hash h6 s6P.unstable_root = some tn6 ∧
      tn6.count ≠ 1 ∧ (s6P.items 0).hash_max = 0 ∧
      bstFind (fun j => (((rmap_item_hash_max s6P 0 h6).2).items j).hash_max)
        ((rmap_item_hash_max s6P 0 h6).1) tn6.sub_root = none) ∧
    ((unstable_tree_search_insert s6P baseOracle 0 h6).2).rshash_neg =
      addUL s6P.rshash_neg (subUL HASH_STRENGTH_MAX s6P.hash_strength) :=
  ⟨⟨by decide, by decide, by decide, s6P_submiss⟩,
    unstable_collision_neg_delta s6P baseOracle 0 h6 tn6 (by decide)
      (by decide) (by decide) s6P_submiss⟩

/-- C6 (counterexample to the spec's numbers): the engine itself parks
the first page exactly as in `s6P` (first two conjuncts); both pages
share their first-level hash and differ in content; yet the collision
step moves `rshash_neg` by `HASH_STRENGTH_MAX - 1 = 1033`, not by
`memcmp_cost + (HASH_STRENGTH_MAX - 1) = 1133` as the spec claims. -/
theorem unstable_collision_neg_counterexample :
    (cmp_and_merge_page s6 baseOracle 1).unstable_root = s6P.unstable_root ∧
    (cmp_and_merge_page s6 baseOracle 1).items 1 = s6P.items 1 ∧
    random_sample_hash c6B s6.random_nums s6.hash_strength =
      random_sample_hash c6A s6.random_nums s6.hash_strength ∧
    pages_identical s6P 0 1 = false ∧
    ((unstable_tree_search_insert s6P baseOracle 0 h6).2).rshash_neg ≠
      addUL s6P.rshash_neg
        (s6P.memcmp_cost + (HASH_STRENGTH_MAX - s6P.hash_strength)) := by
  refine ⟨by decide, by decide, by decide, by decide, ?_⟩
  rw [unstable_collision_neg_core s6P baseOracle 0 h6 tn6 (by decide)
    (by decide) (by decide) s6P_submiss]
  decide

/-! ## C7 -/

theorem hash_cmp_self (x : Nat) : hash_cmp x x = 0 := by
  unfold hash_cmp
  simp

theorem hash_cmp_not_lt_not_gt {a b : Nat} (h1 : ¬ hash_cmp a b < 0)
    (h2 : ¬ hash_cmp a b > 0) : a = b := by
  rcases Nat.lt_trichotomy a b with h | h | h
  · exact absurd (by unfold hash_cmp; rw [if_neg (by omega), if_pos h]; norm_num) h1
  · exact h
  · exact absurd (by unfold hash_cmp; rw [if_pos h]; norm_num) h2

/-- The entry a descent returns carries the key it was found under. -/
theorem bstFind_key {α : Type} (kf : α → Nat) (h : Nat) :
    ∀ (t : Bst α) (v : α), bstFind kf h t = some v → kf v = h := by
  intro t
  induction t with
  | nil => intro v hv; simp [bstFind] at hv
  | node l w r ihl ihr =>
      intro v hv
      by_cases hlt : hash_cmp h (kf w) < 0
      · simp only [bstFind, if_pos hlt] at hv
        exact ihl v hv
      · by_cases hgt : hash_cmp h (kf w) > 0
        · simp only [bstFind, if_neg hlt, if_pos hgt] at hv
          exact ihr v hv
        · simp only [bstFind, if_neg hlt, if_neg hgt] at hv
          cases hv
          exact (hash_cmp_not_lt_not_gt hlt hgt).symm

/-- Descents only look at key values, not at the key function. -/
theorem bstFind_congr {α : Type} (kf1 kf2 : α → Nat) (h : Nat)
    (hk : ∀ a, kf1 a = kf2 a) :
    ∀ t : Bst α, bstFind kf1 h t = bstFind kf2 h t := by
  intro t
  induction t with
  | nil => rfl
  | node l w r ihl ihr => simp only [bstFind, hk, ihl, ihr]

/-- Inserting a key a descent missed makes the next descent find it. -/
theorem bstFind_bstInsert_self {α : Type} (kf : α → Nat) (key : Nat) (v : α)
    (hv : kf v = key) :
    ∀ t : Bst α, bstFind kf key t = none →
      bstFind kf key (bstInsert kf key v t) = some v := by
  intro t
  induction t with
  | nil =>
      intro _
      simp only [bstInsert, bstFind, hv, hash_cmp_self]
      norm_num
  | node l w r ihl ihr =>
      intro hfind
      by_cases hlt : hash_cmp key (kf w) < 0
      · simp only [bstFind, if_pos hlt] at hfind
        simp only [bstInsert, bstFind, if_pos hlt]
        exact ihl hfind
      · by_cases hgt : hash_cmp key (kf w) > 0
        · simp only [bstFind, if_neg hlt, if_pos hgt] at hfind
          simp only [bstInsert, bstFind, if_neg hlt, if_pos hgt]
          exact ihr hfind
        · simp only [bstFind, if_neg hlt, if_neg hgt] at hfind
          cases hfind

/-- An in-place rewrite that keeps the key is seen by the next descent
as a mapped entry. -/
theorem bstFind_bstModify_self {α : Type} (kf : α → Nat) (key : Nat)
    (f : α → α) (hf : ∀ x, kf (f x) = kf x) :
    ∀ t : Bst α, bstFind kf key (bstModify kf key f t) =
      Option.map f (bstFind kf key t) := by
  intro t
  induction t with
  | nil => rfl
  | node l w r ihl ihr =>
      by_cases hlt : hash_cmp key (kf w) < 0
      · simp only [bstModify, bstFind, if_pos hlt, ihl]
      · by_cases hgt : hash_cmp key (kf w) > 0
        · simp only [bstModify, bstFind, if_neg hlt, if_pos hgt, ihr]
        · simp only [bstModify, bstFind, hf, if_neg hlt, if_neg hgt]
          rfl

/-- After `rmap_item_hash_max` the item's stored `hash_max` is the
returned value. -/
theorem rmap_item_hash_max_post (s : KState) (it hash : Nat) :
    (((rmap_item_hash_max s it hash).2).items it).hash_max =
      (rmap_item_hash_max s it hash).1 := by
  unfold rmap_item_hash_max page_hash_max
  simp only []
  split
  · simp
  · rfl

theorem round_rmap_item_hash_max (s : KState) (it hash : Nat) :
    ((rmap_item_hash_max s it hash).2).ksm_scan_round = s.ksm_scan_round := by
  unfold rmap_item_hash_max page_hash_max
  simp only []
  split <;> rfl

theorem uroot_rmap_item_hash_max (s : KState) (it hash : Nat) :
    ((rmap_item_hash_max s it hash).2).unstable_root = s.unstable_root := by
  unfold rmap_item_hash_max page_hash_max
  simp only []
  split <;> rfl

theorem hmax_updItem (s : KState) (it : Nat) (f : RmapItem → RmapItem)
    (hf : ∀ x, (f x).hash_max = x.hash_max) (j : Nat) :
    ((updItem s it f).items j).hash_max = (s.items j).hash_max := by
  unfold updItem
  simp only []
  by_cases hj : j = it
  · simp [hj, hf]
  · simp [hj]

/-- C7: when neither level of the unstable tree produces a terminal
match (first level missing, or found with `count != 1` and the
`hash_max` sub-descent missing), the rmap item is installed at the
insertion point, stamped `append_round = ksm_scan_round` with the
`UNSTABLE` address flag, and the call returns none (given the tree
node allocation succeeds on the first-level-miss path). -/
theorem unstable_no_match_installs (s : KState) (o : Oracle) (it hash : Nat)
    (hterm : match bstFind UTreeNode.hash hash s.unstable_root with
      | some tn => tn.count ≠ 1 ∧
          bstFind (fun j => (((rmap_item_hash_max s it hash).2).items j).hash_max)
            ((rmap_item_hash_max s it hash).1) tn.sub_root = none
      | none => o.alloc_ok = true) :
    (unstable_tree_search_insert s o it hash).1 = none ∧
    (((unstable_tree_search_insert s o it hash).2).items it).addr_unstable = true ∧
    (((unstable_tree_search_insert s o it hash).2).items it).append_round =
      s.ksm_scan_round ∧
    (match bstFind UTreeNode.hash hash
        ((unstable_tree_search_insert s o it hash).2).unstable_root with
     | some tn' =>
         bstFind
           (fun j => (((unstable_tree_search_insert s o it hash).2).items j).hash_max)
           ((((unstable_tree_search_insert s o it hash).2).items it).hash_max)
           tn'.sub_root = some it
     | none => False) := by
  cases hroot : bstFind UTreeNode.hash hash s.unstable_root with
  | some tn =>
      rw [hroot] at hterm
      obtain ⟨hcnt, hmiss⟩ := hterm
      unfold unstable_tree_search_insert
      simp only []
      rw [hroot]
      try simp only []
      rw [if_neg hcnt]
      try simp only []
      rw [hmiss]
      refine ⟨rfl, ?_, ?_, ?_⟩
      · simp [unstable_install, updItem]
      · simp [unstable_install, updItem, round_rmap_item_hash_max]
      · have htn : UTreeNode.hash tn = hash :=
          bstFind_key UTreeNode.hash hash _ tn hroot
        simp only [unstable_install, updItem]
        rw [htn, uroot_rmap_item_hash_max]
        rw [bstFind_bstModify_self]
        rw [hroot]
        simp only [Option.map_some']
        simp only [apply_ite RmapItem.hash_max, ite_self, if_true]
        rw [rmap_item_hash_max_post]
        exact bstFind_bstInsert_self _ _ it (rmap_item_hash_max_post s it hash)
          tn.sub_root hmiss
        intro x
        rfl
  | none =>
      rw [hroot] at hterm
      unfold unstable_tree_search_insert
      simp only []
      rw [hroot]
      try simp only []
      rw [hterm]
      simp only [Bool.not_true]
      rw [if_neg Bool.false_ne_true]
      refine ⟨rfl, ?_, ?_, ?_⟩
      · simp [unstable_install, updItem]
      · simp [unstable_install, updItem]
      · simp only [unstable_install, updItem]
        rw [bstFind_bstModify_self]
        rw [bstFind_bstInsert_self UTreeNode.hash hash _ rfl s.unstable_root hroot]
        simp only [Option.map_some']
        simp only [apply_ite RmapItem.hash_max, ite_self, if_true]
        exact bstFind_bstInsert_self _ _ it rfl Bst.nil rfl
        intro x
        rfl

theorem unstable_no_match_installs_witness :
    (match bstFind UTreeNode.hash 0 baseState.unstable_root with
      | some tn => tn.count ≠ 1 ∧
          bstFind (fun j => (((rmap_item_hash_max baseState 0 0).2).items j).hash_max)
            ((rmap_item_hash_max baseState 0 0).1) tn.sub_root = none
      | none => baseOracle.alloc_ok = true) ∧
    ((unstable_tree_search_insert baseState baseOracle 0 0).1 = none ∧
      (((unstable_tree_search_insert baseState baseOracle 0 0).2).items 0).addr_unstable = true ∧
      (((unstable_tree_search_insert baseState baseOracle 0 0).2).items 0).append_round =
        baseState.ksm_scan_round ∧
      (match bstFind UTreeNode.hash 0
          ((unstable_tree_search_insert baseState baseOracle 0 0).2).unstable_root with
       | some tn' =>
           bstFind
             (fun j => (((unstable_tree_search_insert baseState baseOracle 0 0).2).items j).hash_max)
             ((((unstable_tree_search_insert baseState baseOracle 0 0).2).items 0).hash_max)
             tn'.sub_root = some 0
       | none => False)) :=
  ⟨rfl, unstable_no_match_installs baseState baseOracle 0 0 rfl⟩

/-! ## C8 -/

/-- The budget-escalation loop reads its state only through the rungs'
scan ratios. -/
theorem rung_enter_target_congr (s1 s2 : KState) (pages : Nat)
    (h : ∀ r, (s1.rungs r).scan_ratio = (s2.rungs r).scan_ratio) :
    ∀ (fuel r : Nat),
      rung_enter_target s1 pages r fuel = rung_enter_target s2 pages r fuel := by
  intro fuel
  induction fuel with
  | zero => intro r; rfl
  | succ n ih => intro r; simp only [rung_enter_target, h, ih]

/-- What a successful budget escalation guarantees: the landing rung is
at or above the requested one and carries a non-zero scan budget. -/
theorem rung_enter_target_spec (s : KState) (pages : Nat) :
    ∀ (fuel r rr pts : Nat),
      rung_enter_target s pages r fuel = some (rr, pts) →
      r ≤ rr ∧ pts = get_vma_random_scan_num pages ((s.rungs rr).scan_ratio) ∧
        pts ≠ 0 := by
  intro fuel
  induction fuel with
  | zero => intro r rr pts h; cases h
  | succ n ih =>
      intro r rr pts h
      unfold rung_enter_target at h
      simp only [] at h
      split at h
      · next hne =>
          cases h
          exact ⟨Nat.le_refl _, rfl, hne⟩
      · split at h
        · obtain ⟨h1, h2, h3⟩ := ih (r + 1) rr pts h
          exact ⟨Nat.le_of_succ_le h1, h2, h3⟩
        · cases h

/-- `vma_rung_enter` parks the slot at the rung the escalation loop
lands on. -/
theorem vma_rung_enter_lands (s : KState) (sl target rr pts : Nat)
    (ht : rung_enter_target s (s.slots sl).pages target
        (ksm_scan_ladder_size + 1 - target) = some (rr, pts)) :
    ((vma_rung_enter s sl target).slots sl).rung = rr ∧
      ((vma_rung_enter s sl target).slots sl).pages_to_scan = pts := by
  unfold vma_rung_enter
  simp only []
  rw [show ∀ j, ((updRung s (s.slots sl).rung fun r =>
      { r with
        vma_list := r.vma_list.filter (fun x => x != sl),
        vma_num := decUL r.vma_num,
        fully_scanned_slots :=
          if (s.slots sl).fully_scanned then decUL r.fully_scanned_slots
          else r.fully_scanned_slots }).slots j) = s.slots j
    from fun j => rfl]
  rw [rung_enter_target_congr _ s]
  · rw [ht]
    try simp only []
    constructor
    · simp [updSlot, updRung]
    · simp [updSlot, updRung]
  · intro r
    unfold updRung
    by_cases hr : r = (s.slots sl).rung
    · simp [hr]
    · simp [hr]

/-- C8 (amended): at the round boundary a tracked area with a non-zero
ratio at or above the mean enters from `rung + 1`, any other enters
from `rung - 1` -- but `vma_rung_enter`'s budget loop then walks
further up to the first rung where `pages * scan_ratio / 125` is
non-zero, so the landing rung is the escalation loop's result, not
necessarily one rung away. -/
theorem rung_moves_via_escalation (s : KState) (sl rrd ptsd rru ptsu : Nat) :
    ((s.slots sl).rung ≠ 0 →
      rung_enter_target s (s.slots sl).pages ((s.slots sl).rung - 1)
          (ksm_scan_ladder_size + 1 - ((s.slots sl).rung - 1)) =
        some (rrd, ptsd) →
      ((vma_rung_down s sl).slots sl).rung = rrd ∧
        (s.slots sl).rung - 1 ≤ rrd ∧
        get_vma_random_scan_num (s.slots sl).pages
          ((s.rungs rrd).scan_ratio) ≠ 0) ∧
    ((s.slots sl).rung ≠ ksm_scan_ladder_size - 1 →
      rung_enter_target s (s.slots sl).pages ((s.slots sl).rung + 1)
          (ksm_scan_ladder_size + 1 - ((s.slots sl).rung + 1)) =
        some (rru, ptsu) →
      ((vma_rung_up s sl).slots sl).rung = rru ∧
        (s.slots sl).rung + 1 ≤ rru ∧
        get_vma_random_scan_num (s.slots sl).pages
          ((s.rungs rru).scan_ratio) ≠ 0) := by
  constructor
  · intro h0 ht
    have hl := vma_rung_enter_lands s sl ((s.slots sl).rung - 1) rrd ptsd ht
    obtain ⟨hs1, hs2, hs3⟩ :=
      rung_enter_target_spec s (s.slots sl).pages _ _ _ _ ht
    refine ⟨?_, hs1, ?_⟩
    · unfold vma_rung_down
      rw [if_neg h0]
      exact hl.1
    · rw [← hs2]
      exact hs3
  · intro h0 ht
    have hl := vma_rung_enter_lands s sl ((s.slots sl).rung + 1) rru ptsu ht
    obtain ⟨hs1, hs2, hs3⟩ :=
      rung_enter_target_spec s (s.slots sl).pages _ _ _ _ ht
    refine ⟨?_, hs1, ?_⟩
    · unfold vma_rung_up
      rw [if_neg h0]
      exact hl.1
    · rw [← hs2]
      exact hs3

/-- A tracked area in the inter-vma table: 30 pages, parked at rung 1,
scanned this round. -/
def slotX : VmaSlotM :=
  { baseSlot with
    pages := 30
    rung := 1
    ksm_index := 0
    pages_scanned := 1
    last_scanned := 0
    slot_scanned := true }

/-- Its partner: 20 pages at rung 2, one shared duplicate observed. -/
def slotY : VmaSlotM :=
  { baseSlot with
    pages := 20
    rung := 2
    ksm_index := 1
    pages_scanned := 1
    last_scanned := 0
    slot_scanned := true }

/-- A round-boundary state with two tracked areas and one inter-area
duplicate count. -/
def s8 : KState :=
  { baseState with
    slots := fun j => if j = 0 then slotX else if j = 1 then slotY else baseSlot,
    vma_table := fun i => if i = 0 then some 0 else if i = 1 then some 1 else none,
    vma_table_num := 2,
    vma_table_index_end := 2,
    vma_slot_num := 2,
    inter_vma_table := fun k => if k = intertab_vma_offset 1 0 then 1 else 0,
    rungs := fun i =>
      { baseRung with
        scan_ratio := init_scan_ratio i,
        vma_list := if i = 1 then [0] else if i = 2 then [1] else [],
        vma_num := if i = 1 then 1 else if i = 2 then 1 else 0 } }

theorem rung_moves_via_escalation_witness :
    ((s8.slots 0).rung ≠ 0 ∧
      rung_enter_target s8 (s8.slots 0).pages ((s8.slots 0).rung - 1)
          (ksm_scan_ladder_size + 1 - ((s8.slots 0).rung - 1)) = some (1, 1) ∧
      (s8.slots 0).rung ≠ ksm_scan_ladder_size - 1 ∧
      rung_enter_target s8 (s8.slots 0).pages ((s8.slots 0).rung + 1)
          (ksm_scan_ladder_size + 1 - ((s8.slots 0).rung + 1)) = some (2, 6)) ∧
    (((vma_rung_down s8 0).slots 0).rung = 1 ∧
      (s8.slots 0).rung - 1 ≤ 1 ∧
      get_vma_random_scan_num (s8.slots 0).pages
        ((s8.rungs 1).scan_ratio) ≠ 0) ∧
    (((vma_rung_up s8 0).slots 0).rung = 2 ∧
      (s8.slots 0).rung + 1 ≤ 2 ∧
      get_vma_random_scan_num (s8.slots 0).pages
        ((s8.rungs 2).scan_ratio) ≠ 0) :=
  ⟨⟨by decide, by decide, by decide, by decide⟩,
    (rung_moves_via_escalation s8 0 1 1 2 6).1 (by decide) (by decide),
    (rung_moves_via_escalation s8 0 1 1 2 6).2 (by decide) (by decide)⟩

/-- C8 (counterexample to the spec's wording): at the round boundary
area 0's ratio (2000) is below the mean ((2000 + 3000) / 2 = 2500), so
the claim says it moves down exactly one rung, from rung 1 to rung 0;
but its scan budget at rung 0 computes to 30 * 1 / 125 = 0, so the
entry loop climbs back and it stays at rung 1. -/
theorem below_mean_slot_not_one_down :
    cal_dedup_ratio s8 0 = some 2000 ∧
    cal_dedup_ratio s8 1 = some 3000 ∧
    (s8.slots 0).rung = 1 ∧
    Option.map (fun s' => ((s'.slots 0).rung, (s'.slots 1).rung))
      (round_update_ladder s8) = some (1, 3) :=
  ⟨by decide, by decide, by decide, by decide⟩

/-! ## C2 -/

theorem itab_remove_node_hlists (s : KState) (sn : Nat) :
    (remove_node_hlists s sn).inter_vma_table = s.inter_vma_table := by
  unfold remove_node_hlists
  simp only []
  split
  · rfl
  · show (List.foldl (fun s nv => List.foldl remove_node_one_item s nv.rmap_hlist)
      s (s.snods sn).hlist).inter_vma_table = s.inter_vma_table
    refine foldl_proj KState.inter_vma_table _ (fun s nv => ?_) _ s
    refine foldl_proj KState.inter_vma_table _ ?_ nv.rmap_hlist s
    intro s it
    rfl

theorem itab_remove_node_unlink_rb (s : KState) (sn : Nat) (u r : Bool) :
    (remove_node_unlink_rb s sn u r).inter_vma_table = s.inter_vma_table := by
  unfold remove_node_unlink_rb
  split
  · split
    · rfl
    · simp only []
      split <;> rfl
  · rfl

theorem itab_remove_node_from_stable_tree (s : KState) (sn : Nat)
    (u r : Bool) :
    (remove_node_from_stable_tree s sn u r).inter_vma_table =
      s.inter_vma_table := by
  unfold remove_node_from_stable_tree
  simp [itab_remove_node_unlink_rb, itab_remove_node_hlists]

theorem itab_get_ksm_page (s : KState) (sn : Nat) (u r : Bool) :
    ((get_ksm_page s sn u r).2).inter_vma_table = s.inter_vma_table := by
  unfold get_ksm_page
  simp only []
  split <;> simp [itab_remove_node_from_stable_tree]

theorem itab_stable_node_hash_max (s : KState) (sn pfn hash : Nat) :
    (stable_node_hash_max s sn pfn hash).inter_vma_table =
      s.inter_vma_table := by
  unfold stable_node_hash_max page_hash_max
  simp only []
  split <;> rfl

theorem itab_stable_sub_insert (s : KState) (tnh snid : Nat) :
    (stable_sub_insert s tnh snid).inter_vma_table = s.inter_vma_table := rfl

theorem itab_stable_node_reinsert (s : KState) (sn pfn hash : Nat) :
    (stable_node_reinsert s sn pfn hash).inter_vma_table =
      s.inter_vma_table := by
  unfold stable_node_reinsert
  simp only []
  split
  · split
    · split
      · simp [updSnod, itab_stable_node_hash_max]
      · split
        next opfn s2 heq =>
          have h2 : s2.inter_vma_table =
              (stable_node_hash_max s sn pfn hash).inter_vma_table := by
            have h3 := congrArg (fun q => q.2.inter_vma_table) heq
            simpa [itab_get_ksm_page] using h3.symm
          split <;>
            simp [updSnod, stable_sub_insert, itab_stable_node_hash_max, h2]
        next s2 heq =>
          have h2 : s2.inter_vma_table =
              (stable_node_hash_max s sn pfn hash).inter_vma_table := by
            have h3 := congrArg (fun q => q.2.inter_vma_table) heq
            simpa [itab_get_ksm_page] using h3.symm
          simp [updSnod, stable_sub_insert, itab_stable_node_hash_max, h2]
    · split
      · simp [updSnod, itab_stable_node_hash_max]
      · simp [updSnod, stable_sub_insert, itab_stable_node_hash_max]
  · simp [updSnod, stable_sub_insert]

theorem itab_stable_tree_delta_hash (s : KState) (p : Nat) :
    (stable_tree_delta_hash s p).inter_vma_table = s.inter_vma_table := by
  unfold stable_tree_delta_hash
  simp only []
  refine (foldl_proj KState.inter_vma_table _ ?_ _ _).trans rfl
  intro s1 sn
  split
  next s2 heq =>
    have h2 := itab_get_ksm_page s1 sn false false
    rw [heq] at h2
    exact h2
  next pfn s2 heq =>
    have h2 := itab_get_ksm_page s1 sn false false
    rw [heq] at h2
    simp only [] at h2
    simp [itab_stable_node_reinsert, h2]

theorem itab_judge_rshash_direction (s : KState) :
    ((judge_rshash_direction s).2).inter_vma_table = s.inter_vma_table := by
  unfold judge_rshash_direction
  simp only []
  repeat' first
    | rfl
    | split

theorem itab_updRst (s : KState) (f : RshashStateS → RshashStateS) :
    (updRst s f).inter_vma_table = s.inter_vma_table := rfl

theorem itab_inc_hash_strength (s : KState) (d : Nat) :
    (inc_hash_strength s d).inter_vma_table = s.inter_vma_table := rfl

theorem itab_dec_hash_strength (s : KState) (d : Nat) :
    (dec_hash_strength s d).inter_vma_table = s.inter_vma_table := rfl

theorem itab_inc_hash_strength_delta (s : KState) :
    (inc_hash_strength_delta s).inter_vma_table = s.inter_vma_table := rfl

theorem itab_rshash_adjust_core (s : KState) :
    (rshash_adjust_core s).inter_vma_table = s.inter_vma_table := by
  unfold rshash_adjust_core
  have hj := itab_judge_rshash_direction s
  generalize hrj : judge_rshash_direction s = rj at hj ⊢
  obtain ⟨dir, s2⟩ := rj
  simp only [] at hj
  cases hstate : s.rshash_st.state
  all_goals
    simp only []
    repeat' split
  all_goals
    try simp only [itab_updRst, itab_inc_hash_strength,
      itab_dec_hash_strength, itab_inc_hash_strength_delta,
      itab_judge_rshash_direction, hj]
  all_goals rfl

theorem itab_rshash_adjust (s : KState) :
    (rshash_adjust s).inter_vma_table = s.inter_vma_table := by
  unfold rshash_adjust
  simp only []
  split
  · rfl
  · split
    · rw [itab_stable_tree_delta_hash]
      simp [itab_rshash_adjust_core]
    · simp [itab_rshash_adjust_core]

theorem itab_vma_rung_enter (s : KState) (sl target : Nat) :
    (vma_rung_enter s sl target).inter_vma_table = s.inter_vma_table := by
  unfold vma_rung_enter
  simp only []
  split <;> rfl

theorem itab_vma_rung_up (s : KState) (sl : Nat) :
    (vma_rung_up s sl).inter_vma_table = s.inter_vma_table := by
  unfold vma_rung_up
  split
  · rfl
  · exact itab_vma_rung_enter s sl _

theorem itab_vma_rung_down (s : KState) (sl : Nat) :
    (vma_rung_down s sl).inter_vma_table = s.inter_vma_table := by
  unfold vma_rung_down
  split
  · rfl
  · exact itab_vma_rung_enter s sl _

theorem vtab_vma_rung_enter (s : KState) (sl target : Nat) :
    (vma_rung_enter s sl target).vma_table = s.vma_table := by
  unfold vma_rung_enter
  simp only []
  split <;> rfl

theorem vtab_vma_rung_up (s : KState) (sl : Nat) :
    (vma_rung_up s sl).vma_table = s.vma_table := by
  unfold vma_rung_up
  split
  · rfl
  · exact vtab_vma_rung_enter s sl _

theorem vtab_vma_rung_down (s : KState) (sl : Nat) :
    (vma_rung_down s sl).vma_table = s.vma_table := by
  unfold vma_rung_down
  split
  · rfl
  · exact vtab_vma_rung_enter s sl _

theorem ksmidx_updSlot (s : KState) (x : Nat) (f : VmaSlotM → VmaSlotM)
    (sl : Nat) (hf : ∀ v, (f v).ksm_index = v.ksm_index) :
    ((updSlot s x f).slots sl).ksm_index = (s.slots sl).ksm_index := by
  unfold updSlot
  simp only []
  by_cases h : sl = x
  · simp [h, hf]
  · simp [h]

theorem ksmidx_vma_rung_enter (s : KState) (sl0 target sl : Nat) :
    ((vma_rung_enter s sl0 target).slots sl).ksm_index =
      (s.slots sl).ksm_index := by
  unfold vma_rung_enter
  simp only []
  split
  · rfl
  · rw [ksmidx_updSlot]
    · rfl
    · intro v
      rfl

theorem ksmidx_vma_rung_up (s : KState) (sl0 sl : Nat) :
    ((vma_rung_up s sl0).slots sl).ksm_index = (s.slots sl).ksm_index := by
  unfold vma_rung_up
  split
  · rfl
  · exact ksmidx_vma_rung_enter s sl0 _ sl

theorem ksmidx_vma_rung_down (s : KState) (sl0 sl : Nat) :
    ((vma_rung_down s sl0).slots sl).ksm_index = (s.slots sl).ksm_index := by
  unfold vma_rung_down
  split
  · rfl
  · exact ksmidx_vma_rung_enter s sl0 _ sl

/-- A fold of single-cell zero-writes leaves any cell either zeroed or
untouched. -/
theorem clear_fold_cases (g : Nat → Nat) :
    ∀ (L : List Nat) (s : KState) (off : Nat),
      ((L.foldl (fun s i =>
          { s with inter_vma_table :=
              fun k => if k = g i then 0 else s.inter_vma_table k }) s).inter_vma_table off = 0) ∨
      ((L.foldl (fun s i =>
          { s with inter_vma_table :=
              fun k => if k = g i then 0 else s.inter_vma_table k }) s).inter_vma_table off =
        s.inter_vma_table off) := by
  intro L
  induction L with
  | nil => intro s off; exact Or.inr rfl
  | cons x xs ih =>
      intro s off
      rw [List.foldl_cons]
      rcases ih _ off with h | h
      · exact Or.inl h
      · rw [h]
        simp only []
        by_cases hk : off = g x
        · simp [hk]
        · simp [hk]

/-- A cell a fold of zero-writes targets ends up zero. -/
theorem clear_fold_hit (g : Nat → Nat) :
    ∀ (L : List Nat) (s : KState) (i0 : Nat), i0 ∈ L →
      ((L.foldl (fun s i =>
          { s with inter_vma_table :=
              fun k => if k = g i then 0 else s.inter_vma_table k }) s).inter_vma_table (g i0) = 0) := by
  intro L
  induction L with
  | nil => intro s i0 h; cases h
  | cons x xs ih =>
      intro s i0 h
      rw [List.foldl_cons]
      rcases List.mem_cons.mp h with h1 | h1
      · subst h1
        rcases clear_fold_cases g xs _ (g i0) with h2 | h2
        · exact h2
        · rw [h2]
          simp
      · exact ih _ i0 h1

theorem itab_clear_cases (s : KState) (sl off : Nat) :
    (ksm_intertab_clear s sl).inter_vma_table off = 0 ∨
    (ksm_intertab_clear s sl).inter_vma_table off = s.inter_vma_table off := by
  unfold ksm_intertab_clear
  simp only []
  rcases clear_fold_cases
      (fun i => intertab_vma_offset (s.slots sl).ksm_index.toNat i) _ _ off
    with h | h
  · exact Or.inl h
  · rw [h]
    exact clear_fold_cases _ _ _ off

/-- Clearing a slot zeroes its whole row of the triangular matrix. -/
theorem itab_clear_row (s : KState) (sl j : Nat)
    (hj : j ≤ (s.slots sl).ksm_index.toNat) :
    (ksm_intertab_clear s sl).inter_vma_table
      (intertab_vma_offset (s.slots sl).ksm_index.toNat j) = 0 := by
  unfold ksm_intertab_clear
  simp only []
  rcases clear_fold_cases
      (fun i => intertab_vma_offset (s.slots sl).ksm_index.toNat i) _ _
      (intertab_vma_offset (s.slots sl).ksm_index.toNat j)
    with h | h
  · exact h
  · rw [h]
    exact clear_fold_hit _ _ _ j (List.mem_range.mpr (Nat.lt_succ_of_le hj))

theorem vtab_clear (s : KState) (sl : Nat) :
    (ksm_intertab_clear s sl).vma_table = s.vma_table := by
  unfold ksm_intertab_clear
  simp only []
  rw [foldl_proj KState.vma_table, foldl_proj KState.vma_table]
  · intro s i
    rfl
  · intro s i
    rfl

theorem slots_clear (s : KState) (sl : Nat) :
    (ksm_intertab_clear s sl).slots = s.slots := by
  unfold ksm_intertab_clear
  simp only []
  rw [foldl_proj KState.slots, foldl_proj KState.slots]
  · intro s i
    rfl
  · intro s i
    rfl

theorem foldl_step1_none :
    ∀ (L : List Nat), L.foldl rul_step1 none = none := by
  intro L
  induction L with
  | nil => rfl
  | cons x xs ih =>
      rw [List.foldl_cons]
      exact ih

/-- The first loop of `round_update_ladder` only updates per-slot dedup
ratios: the inter-vma table, the vma table, its bounds and every slot's
`ksm_index` are untouched. -/
theorem rul_step1_fold :
    ∀ (L : List Nat) (s0 : KState) (a b : Nat) (s1 : KState) (a1 b1 : Nat),
      L.foldl rul_step1 (some (s0, a, b)) = some (s1, a1, b1) →
      s1.inter_vma_table = s0.inter_vma_table ∧
      s1.vma_table = s0.vma_table ∧
      s1.vma_table_index_end = s0.vma_table_index_end ∧
      s1.vma_slot_num = s0.vma_slot_num ∧
      (∀ sl, (s1.slots sl).ksm_index = (s0.slots sl).ksm_index) := by
  intro L
  induction L with
  | nil =>
      intro s0 a b s1 a1 b1 h
      cases h
      exact ⟨rfl, rfl, rfl, rfl, fun _ => rfl⟩
  | cons x xs ih =>
      intro s0 a b s1 a1 b1 h
      rw [List.foldl_cons] at h
      cases htab : s0.vma_table x with
      | none =>
          rw [show rul_step1 (some (s0, a, b)) x = some (s0, a, b) by
            simp [rul_step1, htab]] at h
          exact ih s0 a b s1 a1 b1 h
      | some sl =>
          cases hcal : cal_dedup_ratio s0 sl with
          | none =>
              rw [show rul_step1 (some (s0, a, b)) x = none by
                simp [rul_step1, htab, hcal]] at h
              rw [foldl_step1_none] at h
              cases h
          | some dr =>
              rw [show rul_step1 (some (s0, a, b)) x =
                  some (updSlot s0 sl (fun y => { y with dedup_ratio := dr }),
                    if a < dr then dr else a, addUL b dr) by
                simp [rul_step1, htab, hcal]] at h
              obtain ⟨h1, h2, h3, h4, h5⟩ := ih _ _ _ _ _ _ h
              refine ⟨?_, ?_, ?_, ?_, ?_⟩
              · rw [h1]; rfl
              · rw [h2]; rfl
              · rw [h3]; rfl
              · rw [h4]; rfl
              · intro sl2
                rw [h5 sl2]
                rw [ksmidx_updSlot]
                intro v
                rfl

/-- One step of the second loop either zeroes a cell of the inter-vma
table or leaves it alone. -/
theorem rul_step2_itab_cases (th : Nat) (s : KState) (k off : Nat) :
    (rul_step2 th s k).inter_vma_table off = 0 ∨
    (rul_step2 th s k).inter_vma_table off = s.inter_vma_table off := by
  unfold rul_step2
  simp only []
  split
  · exact Or.inr rfl
  · next sl heq =>
      have hmv : (if (s.slots sl).dedup_ratio ≠ 0 ∧
          (s.slots sl).dedup_ratio ≥ th then vma_rung_up s sl
          else vma_rung_down s sl).inter_vma_table = s.inter_vma_table := by
        split
        · exact itab_vma_rung_up s sl
        · exact itab_vma_rung_down s sl
      rcases itab_clear_cases
          (if (s.slots sl).dedup_ratio ≠ 0 ∧
              (s.slots sl).dedup_ratio ≥ th then vma_rung_up s sl
            else vma_rung_down s sl) sl off with h | h
      · exact Or.inl h
      · exact Or.inr (h.trans (congrFun hmv off))

/-- When the second loop reaches a slot's own table position, it zeroes
every cell of that slot's matrix row. -/
theorem rul_step2_owner (th : Nat) (s : KState) (i j sl : Nat)
    (htab : s.vma_table i = some sl)
    (hki : (s.slots sl).ksm_index = (i : Int))
    (hj : j ≤ i) :
    (rul_step2 th s i).inter_vma_table (intertab_vma_offset i j) = 0 := by
  unfold rul_step2
  simp only [htab]
  set M := (if (s.slots sl).dedup_ratio ≠ 0 ∧
      (s.slots sl).dedup_ratio ≥ th then vma_rung_up s sl
    else vma_rung_down s sl) with hM
  have hmvk : ((M).slots sl).ksm_index = (s.slots sl).ksm_index := by
    rw [hM]
    split
    · exact ksmidx_vma_rung_up s sl sl
    · exact ksmidx_vma_rung_down s sl sl
  have hki2 : ((M).slots sl).ksm_index.toNat = i := by
    rw [hmvk, hki]
    rfl
  show (ksm_intertab_clear M sl).inter_vma_table (intertab_vma_offset i j) = 0
  rw [show (i : Nat) = ((M).slots sl).ksm_index.toNat from hki2.symm]
  exact itab_clear_row M sl j (by rw [hki2]; exact hj)

/-- The second loop never writes a table position other than the one it
is processing. -/
theorem rul_step2_vtab (th : Nat) (s : KState) (k i : Nat) (hik : i ≠ k) :
    (rul_step2 th s k).vma_table i = s.vma_table i := by
  unfold rul_step2
  simp only []
  split
  · rfl
  · next sl heq =>
      set M := (if (s.slots sl).dedup_ratio ≠ 0 ∧
          (s.slots sl).dedup_ratio ≥ th then vma_rung_up s sl
        else vma_rung_down s sl) with hM
      have hmv : M.vma_table = s.vma_table := by
        rw [hM]
        split
        · exact vtab_vma_rung_up s sl
        · exact vtab_vma_rung_down s sl
      show (if i = k then none else (ksm_intertab_clear M sl).vma_table i) =
        s.vma_table i
      rw [if_neg hik, vtab_clear, hmv]

/-- The second loop changes `ksm_index` only for the slot it finds at
the processed table position. -/
theorem ksmidx_rul_step2 (th : Nat) (s : KState) (k sl : Nat)
    (hne : s.vma_table k ≠ some sl) :
    ((rul_step2 th s k).slots sl).ksm_index = (s.slots sl).ksm_index := by
  unfold rul_step2
  simp only []
  split
  · rfl
  · next sl2 heq =>
      have hsl : sl ≠ sl2 := fun h => hne (by rw [h]; exact heq)
      set M := (if (s.slots sl2).dedup_ratio ≠ 0 ∧
          (s.slots sl2).dedup_ratio ≥ th then vma_rung_up s sl2
        else vma_rung_down s sl2) with hM
      have hmvk : ((M).slots sl).ksm_index = (s.slots sl).ksm_index := by
        rw [hM]
        split
        · exact ksmidx_vma_rung_up s sl2 sl
        · exact ksmidx_vma_rung_down s sl2 sl
      show ((if sl = sl2 then _ else
          (ksm_intertab_clear M sl2).slots sl) : VmaSlotM).ksm_index =
        (s.slots sl).ksm_index
      rw [if_neg hsl, congrFun (slots_clear M sl2) sl, hmvk]

/-- The whole second loop zeroes a cell of the inter-vma table, given
that the cell is either already zero or owned by one of the positions
the loop visits. -/
theorem rul_step2_fold_zero (th : Nat) :
    ∀ (L : List Nat) (s : KState) (off : Nat), L.Nodup →
      (s.inter_vma_table off = 0 ∨
        ∃ i, i ∈ L ∧ (∃ j, j ≤ i ∧ off = intertab_vma_offset i j) ∧
          ∃ sl, s.vma_table i = some sl ∧
            (s.slots sl).ksm_index = (i : Int) ∧
            (∀ k, k ∈ L → k ≠ i → s.vma_table k ≠ some sl)) →
      (L.foldl (rul_step2 th) s).inter_vma_table off = 0 := by
  intro L
  induction L with
  | nil =>
      intro s off hnd h
      rcases h with h | ⟨i, hi, _⟩
      · exact h
      · cases hi
  | cons x xs ih =>
      intro s off hnd h
      rw [List.foldl_cons]
      have hx : x ∉ xs := (List.nodup_cons.mp hnd).1
      have hnd2 : xs.Nodup := (List.nodup_cons.mp hnd).2
      rcases h with h | ⟨i, hi, ⟨j, hj, hoff⟩, sl, htab, hki, huni⟩
      · refine ih _ off hnd2 (Or.inl ?_)
        rcases rul_step2_itab_cases th s x off with h2 | h2
        · exact h2
        · rw [h2]
          exact h
      · rcases List.mem_cons.mp hi with hix | hixs
        · subst hix
          refine ih _ off hnd2 (Or.inl ?_)
          rw [hoff]
          exact rul_step2_owner th s i j sl htab hki hj
        · have hine : x ≠ i := fun hxi => hx (hxi ▸ hixs)
          have hne : s.vma_table x ≠ some sl :=
            huni x (List.mem_cons_self x xs) hine
          refine ih _ off hnd2
            (Or.inr ⟨i, hixs, ⟨j, hj, hoff⟩, sl, ?_, ?_, ?_⟩)
          · rw [rul_step2_vtab th s x i hine.symm]
            exact htab
          · rw [ksmidx_rul_step2 th s x sl hne]
            exact hki
          · intro k hk hkne
            rw [rul_step2_vtab th s x k (fun hkx => hx (hkx ▸ hk))]
            exact huni k (List.mem_cons_of_mem x hk) hkne

theorem itab_rul_step3 (s : KState) (i : Nat) :
    (rul_step3 s i).inter_vma_table = s.inter_vma_table := by
  unfold rul_step3
  refine foldl_proj KState.inter_vma_table _ ?_ _ _
  intro t sl
  simp only []
  split
  · exact itab_vma_rung_down t sl
  · rfl

theorem itab_rul_step4 (s : KState) (i : Nat) :
    (rul_step4 s i).inter_vma_table = s.inter_vma_table := by
  unfold rul_step4
  simp only []
  refine (foldl_proj KState.inter_vma_table _ ?_ _ _).trans ?_
  · intro t sl
    split <;> rfl
  · rfl

theorem itab_fold_step3 (L : List Nat) (t : KState) :
    (L.foldl rul_step3 t).inter_vma_table = t.inter_vma_table :=
  foldl_proj KState.inter_vma_table _ (fun s i => itab_rul_step3 s i) L t

theorem itab_fold_step4 (L : List Nat) (t : KState) :
    (L.foldl rul_step4 t).inter_vma_table = t.inter_vma_table :=
  foldl_proj KState.inter_vma_table _ (fun s i => itab_rul_step4 s i) L t

/-- C2: at every scan-round boundary — after the round-finished block
of `ksm_do_scan` (lines 3738-3745) ran `round_update_ladder()` and
reset the unstable tree — the unstable tree contains no nodes and every
entry of the inter-vma duplication matrix is zero.  The two hypotheses
are the data-structure invariants of the scanner: distinct positions of
`ksm_vma_table` hold distinct slots, and every nonzero matrix cell is
the offset `intertab_vma_offset i j` (`j ≤ i`) of a row owned by a
tracked slot whose `ksm_index` is `i` — which is how
`enter_inter_vma_table`/`inc_vma_intertab_pair` populate it. -/
theorem round_boundary_resets (s s' : KState)
    (hfin : scan_round_finish s = some s')
    (hdist : ∀ k1, k1 < s.vma_table_index_end →
      ∀ k2, k2 < s.vma_table_index_end → k1 ≠ k2 →
        s.vma_table k1 = none ∨ s.vma_table k1 ≠ s.vma_table k2)
    (hown : ∀ off, s.inter_vma_table off ≠ 0 →
      ∃ i j sl, j ≤ i ∧ i < s.vma_table_index_end ∧
        off = intertab_vma_offset i j ∧ s.vma_table i = some sl ∧
        (s.slots sl).ksm_index = (i : Int)) :
    s'.unstable_root = Bst.nil ∧ s'.unstable_tree_nodes = [] ∧
    ∀ off, s'.inter_vma_table off = 0 := by
  unfold scan_round_finish at hfin
  cases hrul : round_update_ladder s with
  | none =>
      rw [hrul] at hfin
      exact Option.noConfusion hfin
  | some s1 =>
      rw [hrul] at hfin
      injection hfin with hs'
      subst hs'
      refine ⟨rfl, rfl, ?_⟩
      intro off
      show s1.inter_vma_table off = 0
      unfold round_update_ladder at hrul
      cases hl1 : (List.range s.vma_table_index_end).foldl rul_step1
          (some (s, 0, 0)) with
      | none =>
          rw [hl1] at hrul
          exact Option.noConfusion hrul
      | some acc =>
          obtain ⟨sA, dmax, dmean⟩ := acc
          rw [hl1] at hrul
          simp only [] at hrul
          by_cases hz : sA.vma_slot_num = 0
          · rw [if_pos hz] at hrul
            exact Option.noConfusion hrul
          · rw [if_neg hz] at hrul
            injection hrul with hs1
            subst hs1
            simp only [itab_rshash_adjust, itab_fold_step4, itab_fold_step3]
            obtain ⟨hA1, hA2, hA3, hA4, hA5⟩ :=
              rul_step1_fold _ _ _ _ _ _ _ hl1
            refine rul_step2_fold_zero (dmean / sA.vma_slot_num) _ sA off
              (List.nodup_range _) ?_
            by_cases h0 : s.inter_vma_table off = 0
            · exact Or.inl (by rw [hA1]; exact h0)
            · obtain ⟨i, j, sl, hj, hiend, hoff, htab, hki⟩ := hown off h0
              refine Or.inr ⟨i, ?_, ⟨j, hj, hoff⟩, sl, ?_, ?_, ?_⟩
              · exact List.mem_range.mpr (by rw [hA3]; exact hiend)
              · rw [hA2]
                exact htab
              · rw [hA5 sl]
                exact hki
              · intro k hk hkne
                rw [hA2]
                have hklt : k < s.vma_table_index_end := by
                  rw [← hA3]
                  exact List.mem_range.mp hk
                rcases hdist k hklt i hiend hkne with hn | hne2
                · rw [hn]
                  exact fun hcon => Option.noConfusion hcon
                · rw [htab] at hne2
                  exact hne2

/-- The state after the round boundary at `s8`. -/
def s8fin : KState := (scan_round_finish s8).getD baseState

theorem round_boundary_resets_witness :
    s8fin.unstable_root = Bst.nil ∧ s8fin.unstable_tree_nodes = [] ∧
    ∀ off, s8fin.inter_vma_table off = 0 :=
  round_boundary_resets s8 s8fin (by rfl)
    (by decide)
    (fun off h =>
      if hc : off = intertab_vma_offset 1 0 then
        ⟨1, 0, 1, by decide, by decide, hc, by decide, by decide⟩
      else absurd (if_neg hc) h)

/-! ### C3: the `pages_shared + pages_sharing` balance -/

theorem UL64_eq : UL64 = 18446744073709551616 := by norm_num [UL64]

theorem incUL_lt (x : Nat) (h : x + 1 < UL64) : incUL x = x + 1 := by
  unfold incUL
  rw [UL64_eq] at *
  omega

theorem incUL_top : incUL (UL64 - 1) = 0 := by
  unfold incUL
  rw [UL64_eq]

theorem decUL_pos (x : Nat) (h1 : 0 < x) (h2 : x < UL64) :
    decUL x = x - 1 := by
  unfold decUL
  rw [UL64_eq] at *
  omega

theorem decUL_zero : decUL 0 = UL64 - 1 := by
  unfold decUL
  rw [UL64_eq]

/-- The number of rmap items whose address carries the `STABLE` flag. -/
def stable_flag_count (s : KState) : Nat :=
  (s.item_ids.filter fun it => (s.items it).addr_stable).length

/-- The claimed balance: `ksm_pages_shared + ksm_pages_sharing` equals
the number of STABLE-flagged rmap items. -/
def counters_inv (s : KState) : Prop :=
  s.ksm_pages_shared + s.ksm_pages_sharing = stable_flag_count s

/-- All rmap items hanging off a stable node, over all its node_vmas
(the items visited by the cleanup walk of
`remove_node_from_stable_tree`). -/
def node_walk (s : KState) (sn : Nat) : List Nat :=
  ((s.snods sn).hlist.map fun nv => nv.rmap_hlist).flatten

/-- Well-formedness of a stable node's hlist towards the counters: the
attached items are distinct, tracked and STABLE-flagged, and the
counters cover them. -/
def node_walk_wf (s : KState) (sn : Nat) : Prop :=
  (node_walk s sn).Nodup ∧
  (∀ j ∈ node_walk s sn, j ∈ s.item_ids) ∧
  (∀ j ∈ node_walk s sn, (s.items j).addr_stable = true) ∧
  (node_walk s sn).length ≤ s.ksm_pages_sharing + 1 ∧
  ((s.snods sn).hlist.isEmpty = false → 1 ≤ s.ksm_pages_shared)

/-- The hlist of the item's stable node after
`remove_rmap_item_from_tree` unhooks the item (lines 598-612 of the
source: `hlist_del` plus freeing an emptied `node_vma`). -/
def item_hlist_after (s : KState) (it : Nat) : List NodeVma :=
  let item := s.items it
  let l1 := (s.snods item.head_sn).hlist.map fun nv =>
    if nv.key = item.slot then
      { nv with rmap_hlist := nv.rmap_hlist.filter (fun j => j != it) }
    else nv
  l1.filter fun nv => !(nv.key == item.slot && nv.rmap_hlist.isEmpty)

/-- Well-formedness of an item towards `remove_rmap_item_from_tree`:
when its STABLE flag is set, it is tracked, the counter it decrements
is positive, and its stable node is well formed. -/
def item_remove_wf (s : KState) (it : Nat) : Prop :=
  (s.items it).addr_stable = true →
    it ∈ s.item_ids ∧
    ((item_hlist_after s it).isEmpty = true → 1 ≤ s.ksm_pages_shared) ∧
    ((item_hlist_after s it).isEmpty = false → 1 ≤ s.ksm_pages_sharing) ∧
    node_walk_wf s (s.items it).head_sn

/-- Flipping the predicate at one position of a duplicate-free list
changes the filter length by the flag delta. -/
theorem filter_length_update (p : Nat → Bool) (x : Nat) (q : Nat → Bool) :
    ∀ (ids : List Nat), ids.Nodup → x ∈ ids →
      ((ids.filter fun j => if j = x then q j else p j).length +
          (if p x then 1 else 0) =
        (ids.filter p).length + (if q x then 1 else 0)) := by
  intro ids
  induction ids with
  | nil => intro _ hx; cases hx
  | cons y ys ih =>
      intro hnd hx
      have hy : y ∉ ys := (List.nodup_cons.mp hnd).1
      have hnd2 : ys.Nodup := (List.nodup_cons.mp hnd).2
      by_cases hyx : y = x
      · have hxys : x ∉ ys := hyx ▸ hy
        have hcong : ys.filter (fun j => if j = x then q j else p j) =
            ys.filter p := by
          apply List.filter_congr
          intro j hj
          have hjx : ¬ (j = x) := fun h => hxys (h ▸ hj)
          rw [if_neg hjx]
        rw [List.filter_cons, List.filter_cons, hcong, hyx]
        rw [show (if x = x then q x else p x) = q x from if_pos rfl]
        cases hq : q x <;> cases hp : p x <;> simp [hq, hp] <;> omega
      · rcases List.mem_cons.mp hx with h1 | h1
        · exact absurd h1.symm hyx
        · rw [List.filter_cons, List.filter_cons]
          rw [show (if y = x then q y else p y) = p y from if_neg hyx]
          cases hp : p y with
          | false =>
              rw [if_neg Bool.false_ne_true, if_neg Bool.false_ne_true]
              exact ih hnd2 h1
          | true =>
              rw [if_pos rfl, if_pos rfl]
              simp only [List.length_cons]
              have := ih hnd2 h1
              omega

/-- Updating one tracked rmap item changes the flag count by the
difference of the old and new flag. -/
theorem stable_flag_count_updItem (s : KState) (x : Nat)
    (g : RmapItem → RmapItem) (hnd : s.item_ids.Nodup)
    (hx : x ∈ s.item_ids) :
    stable_flag_count (updItem s x g) +
        (if (s.items x).addr_stable then 1 else 0) =
      stable_flag_count s +
        (if (g (s.items x)).addr_stable then 1 else 0) := by
  unfold stable_flag_count updItem
  simp only []
  have hcong : (s.item_ids.filter fun j =>
      (if j = x then g (s.items j) else s.items j).addr_stable) =
      (s.item_ids.filter fun j =>
        if j = x then (g (s.items j)).addr_stable
        else (s.items j).addr_stable) := by
    apply List.filter_congr
    intro j _
    split <;> rfl
  rw [hcong]
  exact filter_length_update (fun j => (s.items j).addr_stable) x
    (fun j => (g (s.items j)).addr_stable) s.item_ids hnd hx

theorem stable_flag_count_set (s : KState) (x : Nat)
    (g : RmapItem → RmapItem) (hg : (g (s.items x)).addr_stable = true)
    (hnd : s.item_ids.Nodup) (hx : x ∈ s.item_ids)
    (hfx : (s.items x).addr_stable = false) :
    stable_flag_count (updItem s x g) = stable_flag_count s + 1 := by
  have h := stable_flag_count_updItem s x g hnd hx
  rw [hfx, hg] at h
  simpa using h

theorem stable_flag_count_clear (s : KState) (x : Nat)
    (g : RmapItem → RmapItem) (hg : (g (s.items x)).addr_stable = false)
    (hnd : s.item_ids.Nodup) (hx : x ∈ s.item_ids)
    (hfx : (s.items x).addr_stable = true) :
    stable_flag_count (updItem s x g) + 1 = stable_flag_count s := by
  have h := stable_flag_count_updItem s x g hnd hx
  rw [hfx, hg] at h
  simpa using h

theorem stable_flag_count_keep (s : KState) (x : Nat)
    (g : RmapItem → RmapItem)
    (hg : (g (s.items x)).addr_stable = (s.items x).addr_stable) :
    stable_flag_count (updItem s x g) = stable_flag_count s := by
  unfold stable_flag_count updItem
  simp only []
  congr 1
  apply List.filter_congr
  intro j _
  by_cases hjx : j = x
  · subst hjx
    simp [hg]
  · simp [hjx]

theorem snods_updSnod_self (s : KState) (sn : Nat)
    (f : StableNode → StableNode) :
    (updSnod s sn f).snods sn = f (s.snods sn) := by
  unfold updSnod
  simp

/-- The state components the counter balance depends on. -/
def cproj (s : KState) :
    Nat × Nat × List Nat × (Nat → RmapItem) :=
  (s.ksm_pages_shared, s.ksm_pages_sharing, s.item_ids, s.items)

theorem c3p_enter (s : KState) (sl : Nat) :
    cproj (enter_inter_vma_table s sl) = cproj s := by
  unfold enter_inter_vma_table
  simp only []
  split <;> rfl

theorem c3p_inc (s : KState) (a b : Nat) :
    cproj (inc_vma_intertab_pair s a b) = cproj s := by
  unfold inc_vma_intertab_pair
  simp only []
  split
  · split
    · exact (c3p_enter _ _).trans (c3p_enter _ _)
    · exact c3p_enter _ _
  · split
    · exact c3p_enter _ _
    · rfl

theorem c3p_dec (s : KState) (a b : Nat) :
    cproj (dec_vma_intertab_pair s a b) = cproj s := rfl

theorem c3p_fold_inc (key round : Nat) (L : List NodeVma) (t : KState) :
    cproj (L.foldl (fun s nv =>
      if nv.last_update = round then inc_vma_intertab_pair s key nv.key
      else s) t) = cproj t := by
  refine foldl_proj cproj _ ?_ L t
  intro s nv
  split
  · exact c3p_inc _ _ _
  · rfl

theorem c3p_fold_dec (key round : Nat) (L : List NodeVma) (t : KState) :
    cproj (L.foldl (fun s nv =>
      if nv.last_update = round then dec_vma_intertab_pair s key nv.key
      else s) t) = cproj t := by
  refine foldl_proj cproj _ ?_ L t
  intro s nv
  split
  · exact c3p_dec _ _ _
  · rfl

theorem c3sh_fold_inc (key round : Nat) (L : List NodeVma) (t : KState) :
    (L.foldl (fun s nv =>
      if nv.last_update = round then inc_vma_intertab_pair s key nv.key
      else s) t).ksm_pages_shared = t.ksm_pages_shared :=
  congrArg (fun p => p.1) (c3p_fold_inc key round L t)

theorem c3sg_fold_inc (key round : Nat) (L : List NodeVma) (t : KState) :
    (L.foldl (fun s nv =>
      if nv.last_update = round then inc_vma_intertab_pair s key nv.key
      else s) t).ksm_pages_sharing = t.ksm_pages_sharing :=
  congrArg (fun p => p.2.1) (c3p_fold_inc key round L t)

theorem c3ids_fold_inc (key round : Nat) (L : List NodeVma) (t : KState) :
    (L.foldl (fun s nv =>
      if nv.last_update = round then inc_vma_intertab_pair s key nv.key
      else s) t).item_ids = t.item_ids :=
  congrArg (fun p => p.2.2.1) (c3p_fold_inc key round L t)

theorem c3items_fold_inc (key round : Nat) (L : List NodeVma) (t : KState) :
    (L.foldl (fun s nv =>
      if nv.last_update = round then inc_vma_intertab_pair s key nv.key
      else s) t).items = t.items :=
  congrArg (fun p => p.2.2.2) (c3p_fold_inc key round L t)

theorem c3sh_fold_dec (key round : Nat) (L : List NodeVma) (t : KState) :
    (L.foldl (fun s nv =>
      if nv.last_update = round then dec_vma_intertab_pair s key nv.key
      else s) t).ksm_pages_shared = t.ksm_pages_shared :=
  congrArg (fun p => p.1) (c3p_fold_dec key round L t)

theorem c3sg_fold_dec (key round : Nat) (L : List NodeVma) (t : KState) :
    (L.foldl (fun s nv =>
      if nv.last_update = round then dec_vma_intertab_pair s key nv.key
      else s) t).ksm_pages_sharing = t.ksm_pages_sharing :=
  congrArg (fun p => p.2.1) (c3p_fold_dec key round L t)

theorem c3ids_fold_dec (key round : Nat) (L : List NodeVma) (t : KState) :
    (L.foldl (fun s nv =>
      if nv.last_update = round then dec_vma_intertab_pair s key nv.key
      else s) t).item_ids = t.item_ids :=
  congrArg (fun p => p.2.2.1) (c3p_fold_dec key round L t)

theorem c3items_fold_dec (key round : Nat) (L : List NodeVma) (t : KState) :
    (L.foldl (fun s nv =>
      if nv.last_update = round then dec_vma_intertab_pair s key nv.key
      else s) t).items = t.items :=
  congrArg (fun p => p.2.2.2) (c3p_fold_dec key round L t)

theorem c3c_fold_inc (key round : Nat) (L : List NodeVma) (t : KState) :
    stable_flag_count (L.foldl (fun s nv =>
      if nv.last_update = round then inc_vma_intertab_pair s key nv.key
      else s) t) = stable_flag_count t := by
  unfold stable_flag_count
  rw [c3ids_fold_inc, c3items_fold_inc]

theorem c3c_fold_dec (key round : Nat) (L : List NodeVma) (t : KState) :
    stable_flag_count (L.foldl (fun s nv =>
      if nv.last_update = round then dec_vma_intertab_pair s key nv.key
      else s) t) = stable_flag_count t := by
  unfold stable_flag_count
  rw [c3ids_fold_dec, c3items_fold_dec]

theorem c3sh_updSlot (s : KState) (x : Nat) (f : VmaSlotM → VmaSlotM) :
    (updSlot s x f).ksm_pages_shared = s.ksm_pages_shared := rfl

theorem c3sg_updSlot (s : KState) (x : Nat) (f : VmaSlotM → VmaSlotM) :
    (updSlot s x f).ksm_pages_sharing = s.ksm_pages_sharing := rfl

theorem c3c_updSlot (s : KState) (x : Nat) (f : VmaSlotM → VmaSlotM) :
    stable_flag_count (updSlot s x f) = stable_flag_count s := rfl

theorem c3sh_updSnod (s : KState) (x : Nat) (f : StableNode → StableNode) :
    (updSnod s x f).ksm_pages_shared = s.ksm_pages_shared := rfl

theorem c3sg_updSnod (s : KState) (x : Nat) (f : StableNode → StableNode) :
    (updSnod s x f).ksm_pages_sharing = s.ksm_pages_sharing := rfl

theorem c3c_updSnod (s : KState) (x : Nat) (f : StableNode → StableNode) :
    stable_flag_count (updSnod s x f) = stable_flag_count s := rfl

theorem c3sh_updItem (s : KState) (x : Nat) (f : RmapItem → RmapItem) :
    (updItem s x f).ksm_pages_shared = s.ksm_pages_shared := rfl

theorem c3sg_updItem (s : KState) (x : Nat) (f : RmapItem → RmapItem) :
    (updItem s x f).ksm_pages_sharing = s.ksm_pages_sharing := rfl

/-- The cleanup walk of `remove_node_from_stable_tree` over a list of
distinct STABLE-flagged items: `pages_sharing` falls by one per item
(wrapping at most once, on the last possible step) and so does the
flag count. -/
theorem c3_walk :
    ∀ (W : List Nat) (s : KState),
      s.item_ids.Nodup → W.Nodup →
      (∀ j ∈ W, j ∈ s.item_ids) →
      (∀ j ∈ W, (s.items j).addr_stable = true) →
      W.length ≤ s.ksm_pages_sharing + 1 →
      s.ksm_pages_sharing < UL64 →
      (W.foldl remove_node_one_item s).ksm_pages_sharing =
          (if W.length ≤ s.ksm_pages_sharing
            then s.ksm_pages_sharing - W.length else UL64 - 1) ∧
      (W.foldl remove_node_one_item s).ksm_pages_shared =
          s.ksm_pages_shared ∧
      (W.foldl remove_node_one_item s).item_ids = s.item_ids ∧
      stable_flag_count (W.foldl remove_node_one_item s) + W.length =
          stable_flag_count s := by
  intro W
  induction W with
  | nil =>
      intro s _ _ _ _ _ _
      exact ⟨by simp, rfl, rfl, by simp⟩
  | cons x xs ih =>
      intro s hnd hWnd hmem hflag hlen hub
      rw [List.foldl_cons]
      have hx : x ∈ s.item_ids := hmem x (List.mem_cons_self x xs)
      have hfx : (s.items x).addr_stable = true :=
        hflag x (List.mem_cons_self x xs)
      have hxxs : x ∉ xs := (List.nodup_cons.mp hWnd).1
      have hnd2 : xs.Nodup := (List.nodup_cons.mp hWnd).2
      have e1 : (remove_node_one_item s x).ksm_pages_sharing =
          decUL s.ksm_pages_sharing := rfl
      have e2 : (remove_node_one_item s x).ksm_pages_shared =
          s.ksm_pages_shared := rfl
      have e3 : (remove_node_one_item s x).item_ids = s.item_ids := rfl
      have e4 : ∀ j, ¬ (j = x) → (remove_node_one_item s x).items j =
          s.items j := by
        intro j hj
        unfold remove_node_one_item updItem
        simp only []
        rw [if_neg hj]
      have hbridge : stable_flag_count
          { s with ksm_pages_sharing := decUL s.ksm_pages_sharing } =
          stable_flag_count s := by
        unfold stable_flag_count
        simp only []
      have e5 : stable_flag_count (remove_node_one_item s x) + 1 =
          stable_flag_count s := by
        unfold remove_node_one_item
        simp only []
        exact (stable_flag_count_clear
          { s with ksm_pages_sharing := decUL s.ksm_pages_sharing } x
          (fun y => { y with addr_stable := false, addr_unstable := false })
          rfl hnd hx hfx).trans hbridge
      by_cases hS : s.ksm_pages_sharing = 0
      · have hxs0 : xs = [] := by
          rw [List.length_cons, hS] at hlen
          exact List.length_eq_zero.mp (by omega)
        subst hxs0
        refine ⟨?_, e2, e3, ?_⟩
        · rw [List.foldl_nil, e1, hS, decUL_zero]
          simp
        · rw [List.foldl_nil, List.length_cons]
          simpa using e5
      · have hS1 : 0 < s.ksm_pages_sharing := Nat.pos_of_ne_zero hS
        have hd : decUL s.ksm_pages_sharing = s.ksm_pages_sharing - 1 :=
          decUL_pos _ hS1 hub
        obtain ⟨i1, i2, i3, i4⟩ := ih (remove_node_one_item s x)
          (by rw [e3]; exact hnd) hnd2
          (fun j hj => by rw [e3]; exact hmem j (List.mem_cons_of_mem x hj))
          (fun j hj => by
            rw [e4 j (fun hjx => hxxs (hjx ▸ hj))]
            exact hflag j (List.mem_cons_of_mem x hj))
          (by
            rw [e1, hd]
            rw [List.length_cons] at hlen
            omega)
          (by rw [e1, hd]; omega)
        refine ⟨?_, ?_, ?_, ?_⟩
        · rw [i1, e1, hd, List.length_cons]
          rw [UL64_eq] at *
          split <;> split <;> omega
        · rw [i2, e2]
        · rw [i3, e3]
        · rw [List.length_cons]
          omega

theorem c3p_unlink (s : KState) (sn : Nat) (ub rt : Bool) :
    cproj (remove_node_unlink_rb s sn ub rt) = cproj s := by
  unfold remove_node_unlink_rb
  repeat' first
  | rfl
  | split
  | simp only []

theorem c3sh_unlink (s : KState) (sn : Nat) (ub rt : Bool) :
    (remove_node_unlink_rb s sn ub rt).ksm_pages_shared =
      s.ksm_pages_shared :=
  congrArg (fun p => p.1) (c3p_unlink s sn ub rt)

theorem c3sg_unlink (s : KState) (sn : Nat) (ub rt : Bool) :
    (remove_node_unlink_rb s sn ub rt).ksm_pages_sharing =
      s.ksm_pages_sharing :=
  congrArg (fun p => p.2.1) (c3p_unlink s sn ub rt)

theorem c3ids_unlink (s : KState) (sn : Nat) (ub rt : Bool) :
    (remove_node_unlink_rb s sn ub rt).item_ids = s.item_ids :=
  congrArg (fun p => p.2.2.1) (c3p_unlink s sn ub rt)

theorem c3items_unlink (s : KState) (sn : Nat) (ub rt : Bool) :
    (remove_node_unlink_rb s sn ub rt).items = s.items :=
  congrArg (fun p => p.2.2.2) (c3p_unlink s sn ub rt)

theorem c3c_unlink (s : KState) (sn : Nat) (ub rt : Bool) :
    stable_flag_count (remove_node_unlink_rb s sn ub rt) =
      stable_flag_count s := by
  unfold stable_flag_count
  rw [c3ids_unlink, c3items_unlink]

/-- `remove_node_from_stable_tree`'s hlist walk preserves the counter
balance. -/
theorem remove_node_hlists_inv (s : KState) (sn : Nat)
    (hinv : counters_inv s) (hnd : s.item_ids.Nodup)
    (hwf : node_walk_wf s sn)
    (hsh : s.ksm_pages_shared + 1 < UL64)
    (hsg : s.ksm_pages_sharing + 1 < UL64) :
    counters_inv (remove_node_hlists s sn) := by
  obtain ⟨hWnd, hWmem, hWflag, hWlen, hWsh⟩ := hwf
  unfold counters_inv at hinv
  unfold remove_node_hlists
  simp only []
  split
  · exact hinv
  · next hne =>
      have hfold : (s.snods sn).hlist.foldl
          (fun s nv => nv.rmap_hlist.foldl remove_node_one_item s) s =
          (node_walk s sn).foldl remove_node_one_item s := by
        unfold node_walk
        rw [List.foldl_flatten, List.foldl_map]
      rw [hfold]
      obtain ⟨w1, w2, w3, w4⟩ := c3_walk (node_walk s sn) s hnd hWnd hWmem
        hWflag hWlen (by omega)
      set F := (node_walk s sn).foldl remove_node_one_item s with hF
      have hGc := c3c_updSnod F sn (fun x => { x with hlist := [] })
      have hGsh := c3sh_updSnod F sn (fun x => { x with hlist := [] })
      have hGsg := c3sg_updSnod F sn (fun x => { x with hlist := [] })
      set G := updSnod F sn (fun x => { x with hlist := [] }) with hG
      unfold counters_inv
      show decUL G.ksm_pages_shared + incUL G.ksm_pages_sharing =
        stable_flag_count
          { G with ksm_pages_shared := decUL G.ksm_pages_shared,
                   ksm_pages_sharing := incUL G.ksm_pages_sharing }
      have hrc : stable_flag_count
          { G with ksm_pages_shared := decUL G.ksm_pages_shared,
                   ksm_pages_sharing := incUL G.ksm_pages_sharing } =
          stable_flag_count G := by
        unfold stable_flag_count
        simp only []
      rw [hrc, hGc, hGsh, hGsg, w1, w2]
      have hshpos : 1 ≤ s.ksm_pages_shared := hWsh (by
        cases hie : (s.snods sn).hlist.isEmpty
        · rfl
        · exact absurd hie hne)
      rw [decUL_pos _ (by omega) (by omega)]
      by_cases hc : (node_walk s sn).length ≤ s.ksm_pages_sharing
      · rw [if_pos hc, incUL_lt _ (by omega)]
        omega
      · rw [if_neg hc, incUL_top]
        omega

/-- `remove_node_from_stable_tree(node, unlink_rb, remove_tree_node)`
preserves the counter balance: the items of the removed node lose
their STABLE flags as the counters drop with them. -/
theorem remove_node_inv (s : KState) (sn : Nat) (ub rt : Bool)
    (hinv : counters_inv s) (hnd : s.item_ids.Nodup)
    (hwf : node_walk_wf s sn)
    (hsh : s.ksm_pages_shared + 1 < UL64)
    (hsg : s.ksm_pages_sharing + 1 < UL64) :
    counters_inv (remove_node_from_stable_tree s sn ub rt) := by
  have h1 := remove_node_hlists_inv s sn hinv hnd hwf hsh hsg
  unfold counters_inv at h1
  unfold remove_node_from_stable_tree
  simp only []
  set H := remove_node_hlists s sn with hH
  unfold counters_inv
  set R := remove_node_unlink_rb H sn ub rt with hR
  show R.ksm_pages_shared + R.ksm_pages_sharing =
    stable_flag_count
      { R with sn_all_list := R.sn_all_list.filter (fun j => j != sn) }
  have hrc : stable_flag_count
      { R with sn_all_list := R.sn_all_list.filter (fun j => j != sn) } =
      stable_flag_count R := by
    unfold stable_flag_count
    simp only []
  rw [hrc, hR, c3sh_unlink, c3sg_unlink, c3c_unlink]
  exact h1

theorem c3c_set_sh (t : KState) (v : Nat) :
    stable_flag_count { t with ksm_pages_shared := v } =
      stable_flag_count t := by
  unfold stable_flag_count
  simp only []

theorem c3c_set_sg (t : KState) (v : Nat) :
    stable_flag_count { t with ksm_pages_sharing := v } =
      stable_flag_count t := by
  unfold stable_flag_count
  simp only []

/-- `stable_tree_append(rmap_item, stable_node)` preserves the counter
balance: it sets the item's STABLE flag while counting it once, as
`pages_shared` for a first item and as `pages_sharing` otherwise. -/
theorem stable_tree_append_inv (s : KState) (it sn : Nat)
    (hinv : counters_inv s) (hnd : s.item_ids.Nodup)
    (hit : it ∈ s.item_ids)
    (hflag : (s.items it).addr_stable = false)
    (hsh : s.ksm_pages_shared + 1 < UL64)
    (hsg : s.ksm_pages_sharing + 1 < UL64) :
    counters_inv (stable_tree_append s it sn) := by
  unfold counters_inv at hinv
  have hc1 : stable_flag_count (updItem s it (fun x =>
      { x with addr_stable := true, append_round := s.ksm_scan_round,
               head_sn := sn })) = stable_flag_count s + 1 :=
    stable_flag_count_set s it _ rfl hnd hit hflag
  unfold counters_inv stable_tree_append
  simp only []
  split
  · simp only [c3sh_updSlot, c3sh_updSnod, c3sg_updSlot, c3sg_updSnod,
      c3c_updSlot, c3c_updSnod]
    rw [c3c_set_sh, c3sh_updItem, c3sg_updItem, hc1, incUL_lt _ hsh]
    omega
  · repeat' split
    all_goals
      simp only [c3sh_updSlot, c3sh_updSnod, c3sh_fold_inc, c3sh_fold_dec,
        c3sg_updSlot, c3sg_updSnod, c3sg_fold_inc, c3sg_fold_dec,
        c3c_updSlot, c3c_updSnod, c3c_fold_inc, c3c_fold_dec]
    all_goals rw [c3c_set_sg, c3sh_updItem, c3sg_updItem, hc1, incUL_lt _ hsg]
    all_goals omega

/-- The stable branch of `remove_rmap_item_from_tree` after a
successful `get_ksm_page`: unhooking the item decrements one counter
and clears one STABLE flag. -/
theorem c3_remove_stable_case (s : KState) (it SN : Nat)
    (f : StableNode → StableNode)
    (hinv : counters_inv s) (hnd : s.item_ids.Nodup)
    (hmem : it ∈ s.item_ids)
    (hst : (s.items it).addr_stable = true)
    (hsh : s.ksm_pages_shared < UL64) (hsg : s.ksm_pages_sharing < UL64)
    (hc1 : ((updSnod s SN f).snods SN).hlist.isEmpty = true →
      1 ≤ s.ksm_pages_shared)
    (hc2 : ((updSnod s SN f).snods SN).hlist.isEmpty = false →
      1 ≤ s.ksm_pages_sharing) :
    counters_inv (updItem
      (if ((updSnod s SN f).snods SN).hlist.isEmpty then
        { updSnod s SN f with ksm_pages_shared := decUL (updSnod s SN f).ksm_pages_shared }
      else
        { updSnod s SN f with ksm_pages_sharing := decUL (updSnod s SN f).ksm_pages_sharing })
      it (fun x => { x with addr_stable := false, addr_unstable := false, hash_max := 0 })) := by
  unfold counters_inv at hinv ⊢
  cases hie : ((updSnod s SN f).snods SN).hlist.isEmpty with
  | true =>
      rw [if_pos rfl]
      rw [c3sh_updItem, c3sg_updItem]
      have hcc := stable_flag_count_clear
        { updSnod s SN f with ksm_pages_shared := decUL (updSnod s SN f).ksm_pages_shared } it
        (fun x => { x with addr_stable := false, addr_unstable := false, hash_max := 0 })
        rfl hnd hmem hst
      have hX : stable_flag_count
          { updSnod s SN f with ksm_pages_shared := decUL (updSnod s SN f).ksm_pages_shared } =
          stable_flag_count s := by
        rw [c3c_set_sh, c3c_updSnod]
      rw [hX] at hcc
      show decUL (updSnod s SN f).ksm_pages_shared +
        (updSnod s SN f).ksm_pages_sharing = _
      conv_lhs => rw [c3sh_updSnod, c3sg_updSnod, decUL_pos _ (hc1 hie) hsh]
      have h1s : 1 ≤ s.ksm_pages_shared := hc1 hie
      omega
  | false =>
      rw [if_neg Bool.false_ne_true]
      rw [c3sh_updItem, c3sg_updItem]
      have hcc := stable_flag_count_clear
        { updSnod s SN f with ksm_pages_sharing := decUL (updSnod s SN f).ksm_pages_sharing } it
        (fun x => { x with addr_stable := false, addr_unstable := false, hash_max := 0 })
        rfl hnd hmem hst
      have hX : stable_flag_count
          { updSnod s SN f with ksm_pages_sharing := decUL (updSnod s SN f).ksm_pages_sharing } =
          stable_flag_count s := by
        rw [c3c_set_sg, c3c_updSnod]
      rw [hX] at hcc
      show (updSnod s SN f).ksm_pages_shared +
        decUL (updSnod s SN f).ksm_pages_sharing = _
      conv_lhs => rw [c3sh_updSnod, c3sg_updSnod, decUL_pos _ (hc2 hie) hsg]
      have h1s : 1 ≤ s.ksm_pages_sharing := hc2 hie
      omega

/-- Clearing the address flags of an item whose STABLE flag is already
clear leaves the balance alone. -/
theorem counters_inv_clear_false (t s : KState) (it : Nat)
    (hsh : t.ksm_pages_shared = s.ksm_pages_shared)
    (hsg : t.ksm_pages_sharing = s.ksm_pages_sharing)
    (hids : t.item_ids = s.item_ids)
    (hitems : t.items = s.items)
    (hinv : counters_inv s)
    (hst : (s.items it).addr_stable = false) :
    counters_inv (updItem t it (fun x =>
      { x with addr_stable := false, addr_unstable := false, hash_max := 0 })) := by
  unfold counters_inv at hinv ⊢
  rw [c3sh_updItem, c3sg_updItem, hsh, hsg]
  rw [stable_flag_count_keep t it _ (by simp [hitems, hst])]
  rw [show stable_flag_count t = stable_flag_count s from by
    unfold stable_flag_count; rw [hids, hitems]]
  exact hinv

/-- `remove_rmap_item_from_tree(rmap_item)` preserves the counter
balance on every path. -/
theorem remove_item_inv (s : KState) (it : Nat)
    (hinv : counters_inv s) (hnd : s.item_ids.Nodup)
    (hsh : s.ksm_pages_shared + 1 < UL64)
    (hsg : s.ksm_pages_sharing + 1 < UL64)
    (hwf : item_remove_wf s it) :
    counters_inv (remove_rmap_item_from_tree s it) := by
  unfold remove_rmap_item_from_tree
  simp only []
  cases hb : (s.items it).addr_stable with
  | false =>
      rw [if_neg Bool.false_ne_true]
      refine counters_inv_clear_false _ s it ?_ ?_ ?_ ?_ hinv hb
      all_goals
        repeat' first
        | rfl
        | split
        | simp only []
  | true =>
      rw [if_pos rfl]
      obtain ⟨hmem, he1, he2, hnwf⟩ := hwf hb
      by_cases hok : ((s.pages ((s.snods ((s.items it).head_sn)).kpfn)).anon = true ∧
          (s.pages ((s.snods ((s.items it).head_sn)).kpfn)).ksm = true ∧
          (s.pages ((s.snods ((s.items it).head_sn)).kpfn)).stable =
            some ((s.items it).head_sn) ∧
          ¬ ((s.pages ((s.snods ((s.items it).head_sn)).kpfn)).ref_zero = true))
      · have hg : get_ksm_page s ((s.items it).head_sn) true true =
            (some ((s.snods ((s.items it).head_sn)).kpfn), s) := by
          unfold get_ksm_page
          simp only []
          rw [if_pos hok]
        rw [hg]
        simp only []
        refine c3_remove_stable_case s it ((s.items it).head_sn) _ hinv hnd
          hmem hb (by omega) (by omega) ?hA ?hB
        case hA =>
          intro hE
          rw [snods_updSnod_self] at hE
          exact he1 hE
        case hB =>
          intro hE
          rw [snods_updSnod_self] at hE
          exact he2 hE
      · have hg : get_ksm_page s ((s.items it).head_sn) true true =
            (none, remove_node_from_stable_tree s ((s.items it).head_sn)
              true true) := by
          unfold get_ksm_page
          simp only []
          rw [if_neg hok]
        rw [hg]
        simp only []
        exact remove_node_inv s ((s.items it).head_sn) true true hinv hnd
          hnwf hsh hsg

/-- C3: after every operation that appends an rmap item to or removes
an rmap item from the stable graph — `stable_tree_append` (lines
2087-2186), `remove_rmap_item_from_tree` (lines 572-638) and
`remove_node_from_stable_tree` (lines 460-501) — the counter sum
`pages_shared + pages_sharing` again equals the number of rmap items
whose address carries the STABLE flag: each operation preserves the
balance, given that it held before the call and the operands are well
formed (tracked distinct items, STABLE flags and counters covering the
touched node, counters below the `unsigned long` wrap). -/
theorem stable_counters_balance (s : KState) (it sn : Nat) (ub rt : Bool)
    (hinv : counters_inv s) (hnd : s.item_ids.Nodup)
    (hsh : s.ksm_pages_shared + 1 < UL64)
    (hsg : s.ksm_pages_sharing + 1 < UL64) :
    (it ∈ s.item_ids → (s.items it).addr_stable = false →
      counters_inv (stable_tree_append s it sn)) ∧
    (node_walk_wf s sn →
      counters_inv (remove_node_from_stable_tree s sn ub rt)) ∧
    (item_remove_wf s it →
      counters_inv (remove_rmap_item_from_tree s it)) :=
  ⟨fun hit hflag => stable_tree_append_inv s it sn hinv hnd hit hflag hsh hsg,
   fun hwf => remove_node_inv s sn ub rt hinv hnd hwf hsh hsg,
   fun hwf => remove_item_inv s it hinv hnd hsh hsg hwf⟩

/-- A node_vma of the fixture stable node, holding the one stable
item. -/
def c3nv : NodeVma := { key := 0, last_update := 0, rmap_hlist := [1] }

/-- A state with one merged stable pair: item 1 is STABLE on stable
node 5 (page 7), item 0 is a fresh candidate; `pages_shared = 1`,
`pages_sharing = 0`. -/
def c3s : KState :=
  { baseState with
    items := fun j =>
      if j = 1 then { baseItem with addr_stable := true, head_sn := 5 }
      else baseItem,
    item_ids := [0, 1],
    pages := fun p =>
      if p = 7 then
        { content := fun _ => 0, ksm := true, stable := some 5,
          anon := true, ref_zero := false }
      else basePage,
    snods := fun j =>
      if j = 5 then { kpfn := 7, hash_max := 0, tree_node := none, hlist := [c3nv] }
      else { kpfn := 0, hash_max := 0, tree_node := none, hlist := [] },
    ksm_pages_shared := 1 }

theorem stable_counters_balance_witness :
    counters_inv (stable_tree_append c3s 0 5) ∧
    counters_inv (remove_node_from_stable_tree c3s 5 true true) ∧
    counters_inv (remove_rmap_item_from_tree c3s 1) := by
  obtain ⟨h1, h2, _⟩ := stable_counters_balance c3s 0 5 true true
    (by unfold counters_inv; decide) (by decide) (by decide) (by decide)
  obtain ⟨_, _, h3⟩ := stable_counters_balance c3s 1 5 true true
    (by unfold counters_inv; decide) (by decide) (by decide) (by decide)
  refine ⟨h1 (by decide) (by decide), h2 ?_, h3 ?_⟩
  · unfold node_walk_wf node_walk
    exact ⟨by decide, by decide, by decide, by decide, by decide⟩
  · intro hflag
    refine ⟨by decide, by decide, by decide, ?_⟩
    unfold node_walk_wf node_walk
    exact ⟨by decide, by decide, by decide, by decide, by decide⟩

end Uksm
